import Mathlib

/-!
# mgos_alarm: a shallow embedding of `src/mgos_alarm.c`

The alarm library keeps two intrusive linked lists (digital and analog alarm
records), a periodic poll callback (`mgos_alarm_timer`) that runs the per-alarm
state-machine logic, and one-shot timer callbacks (`d_alarm_timer`,
`a_alarm_timer`) that confirm a transition.

Modelling conventions

* A C `float` is a `CFloat`: NaN, the two infinities, or a finite value (every
  finite binary float is a rational number).  The comparison operators follow
  IEEE 754: every ordered comparison and `==` with a NaN operand is false, and
  `!=` with a NaN operand is true.
* `char *name` is an `Option String` (`none` is `NULL`); the stored name is the
  string the pointer designates.
* `bool *input` and `float *pv` are addresses (`Nat`) into the memory of the caller;
  the values found there at a poll tick are passed to the tick as functions.
* A record carries the address of its `calloc`ed block (`addr`): this is the
  pointer that is handed to `mgos_set_timer` as callback argument.  Blocks are
  handed out by a bump allocator; `free` keeps the last contents of the block
  (`d_freed`, `a_freed`), which is what a dangling pointer reads.
* The Mongoose OS timer service (`mgos_set_timer`, `mgos_clear_timer`) is an
  external collaborator.  It is modelled as a list of pending one-shot timers
  with fresh, non-zero, never reused identifiers and a clock; setting a timer
  always succeeds, clearing an identifier that is not pending does nothing.
* `mgos_event_trigger` appends to the trace `events`.
* `int` is `Int`: no arithmetic of the module can overflow before the address
  space is exhausted.
-/

namespace MgosAlarm

/-! ## C floats -/

/-- A C `float`: NaN, minus infinity, a finite value, plus infinity. -/
inductive CFloat where
  | nan
  | ninf
  | fin (q : ℚ)
  | pinf
  deriving DecidableEq

/-- The C macro `NAN`. -/
def NAN : CFloat := CFloat.nan

namespace CFloat

/-- C `a < b` on floats. -/
def lt : CFloat → CFloat → Bool
  | nan, _ => false
  | _, nan => false
  | _, ninf => false
  | ninf, _ => true
  | pinf, _ => false
  | fin _, pinf => true
  | fin a, fin b => decide (a < b)

/-- C `a <= b` on floats. -/
def le : CFloat → CFloat → Bool
  | nan, _ => false
  | _, nan => false
  | ninf, _ => true
  | _, pinf => true
  | pinf, _ => false
  | fin _, ninf => false
  | fin a, fin b => decide (a ≤ b)

/-- C `a > b` on floats. -/
def gt (a b : CFloat) : Bool := lt b a

/-- C `a >= b` on floats. -/
def ge (a b : CFloat) : Bool := le b a

/-- C `a == b` on floats: false as soon as one operand is NaN. -/
def eq : CFloat → CFloat → Bool
  | nan, _ => false
  | _, nan => false
  | a, b => decide (a = b)

/-- C `a != b` on floats: the negation of `==`, hence true as soon as one
operand is NaN. -/
def ne (a b : CFloat) : Bool := !(eq a b)

end CFloat

/-! ## Types of `mgos_alarm.h` -/

/-- Digital input mode. -/
inductive mgos_d_alarm_mode where
  | ACTIVE_LOW
  | ACTIVE_HIGH
  deriving DecidableEq

/-- Analog alarm state. -/
inductive mgos_a_alarm_state where
  | NOM
  | LL
  | L
  | H
  | HH
  deriving DecidableEq

/-- Alarm types. -/
inductive mgos_alarm_type where
  | DIGITAL
  | ANALOG
  deriving DecidableEq

/-- The two events of the alarm event group. -/
inductive mgos_alarm_event where
  | MGOS_ALARM_EV_RESET
  | MGOS_ALARM_EV_SET
  deriving DecidableEq

/-- The `state` union of `struct alarm_info`, tagged by the member written. -/
inductive alarm_state where
  | d_state (b : Bool)
  | a_state (st : mgos_a_alarm_state)
  deriving DecidableEq

/-- Alarm info returned by `mgos_list_alarms` and carried by the events. -/
structure alarm_info where
  name : String
  enabled : Bool
  type : mgos_alarm_type
  state : alarm_state
  deriving DecidableEq

/-- The result of `mgos_list_alarms`: the entries written so far, in index
order, the `length` field, and the number of elements `calloc`ed for `info`. -/
structure alarm_list where
  info : List alarm_info
  length : Nat
  capacity : Int
  deriving DecidableEq

/-! ## Timer service (Mongoose OS) -/

/-- A timer identifier (`mgos_timer_id`). -/
abbrev mgos_timer_id := Nat

/-- The identifier that designates no timer. -/
def MGOS_INVALID_TIMER_ID : mgos_timer_id := 0

/-- The callbacks this module registers for one-shot timers. -/
inductive timer_cb where
  | cb_d_alarm_timer
  | cb_a_alarm_timer
  deriving DecidableEq

/-- A pending one-shot timer: identifier, due time, callback and its argument
(the address of an alarm record). -/
structure timer where
  id : mgos_timer_id
  due : Int
  cb : timer_cb
  arg : Nat
  deriving DecidableEq

/-- The timer service: pending one-shot timers, the next fresh identifier and
the clock (milliseconds). -/
structure timer_service where
  pending : List timer
  next_id : Nat
  now : Int
  deriving DecidableEq

/-- One-shot `mgos_set_timer(msecs, 0, cb, arg)`: returns the fresh identifier. -/
def mgos_set_timer (ts : timer_service) (msecs : Int) (cb : timer_cb) (arg : Nat) :
    mgos_timer_id × timer_service :=
  (ts.next_id,
   { ts with
     pending := ts.pending ++ [{ id := ts.next_id, due := ts.now + msecs, cb := cb, arg := arg }]
     next_id := ts.next_id + 1 })

/-- The call `mgos_clear_timer(id)`: the timer, if pending, is dropped. -/
def mgos_clear_timer (ts : timer_service) (id : mgos_timer_id) : timer_service :=
  { ts with pending := ts.pending.filter (fun t => t.id != id) }

/-! ## Records and registry state -/

/-- The C `struct d_alarm_info`, with the address of its block. -/
structure d_alarm_info where
  active : Bool
  enabled : Bool
  input : Nat
  mode : mgos_d_alarm_mode
  set_interval : Int
  reset_interval : Int
  name : String
  timer_id : mgos_timer_id
  addr : Nat
  deriving DecidableEq

/-- The C `struct a_alarm_info`, with the address of its block. -/
structure a_alarm_info where
  enabled : Bool
  state : mgos_a_alarm_state
  pv : Nat
  ll_sv : CFloat
  l_sv : CFloat
  h_sv : CFloat
  hh_sv : CFloat
  set_interval : Int
  name : String
  up_timer_id : mgos_timer_id
  down_timer_id : mgos_timer_id
  addr : Nat
  deriving DecidableEq

/-- The module state after `mgos_alarm_init`: the two lists (head first) with
their length counters, the freed blocks, the allocator, the timer service and
the trace of published events (oldest first). -/
structure State where
  d_alarms : List d_alarm_info
  d_length : Int
  a_alarms : List a_alarm_info
  a_length : Int
  d_freed : List d_alarm_info
  a_freed : List a_alarm_info
  next_addr : Nat
  ts : timer_service
  events : List (mgos_alarm_event × alarm_info)
  deriving DecidableEq

/-! ## Registration -/

/-- The threshold loop of `mgos_add_a_alarm` (lines 123-135), started with
`tf` and run over the remaining `arr` entries: `none` when the loop returns
false, otherwise the final value of `tf`. -/
def sv_loop : CFloat → List CFloat → Option CFloat
  | tf, [] => some tf
  | tf, x :: rest =>
    if CFloat.ne x NAN then
      if CFloat.ne tf NAN then
        if CFloat.gt tf x then none
        else sv_loop x rest
      else sv_loop x rest
    else sv_loop tf rest

/-- Add an analog alarm to the analog alarm list.  `mem` tells whether
`calloc` delivers a block.  Returns the C return value and the new state. -/
def mgos_add_a_alarm (s : State) (enabled : Bool) (pv : Nat)
    (ll_sv l_sv h_sv hh_sv : CFloat) (set_interval : Int)
    (name : Option String) (mem : Bool) : Bool × State :=
  match name with
  | none => (false, s)
  | some name =>
    if name = "" then (false, s)
    else if !mem then (false, s)
    else if s.a_alarms.any (fun aa_info_2 => name == aa_info_2.name) then
      -- free(aa_info): the block is given back
      (false, s)
    else
      -- from here on the block at s.next_addr stays allocated
      let s1 := { s with next_addr := s.next_addr + 1 }
      match sv_loop ll_sv [l_sv, h_sv, hh_sv] with
      | none => (false, s1)
      | some tf =>
        if CFloat.eq tf NAN then (false, s1)
        else
          let aa_info : a_alarm_info :=
            { enabled := enabled
              state := mgos_a_alarm_state.NOM
              pv := pv
              ll_sv := ll_sv
              l_sv := l_sv
              h_sv := h_sv
              hh_sv := hh_sv
              set_interval := if set_interval < 0 then 0 else set_interval
              name := name
              up_timer_id := MGOS_INVALID_TIMER_ID
              down_timer_id := MGOS_INVALID_TIMER_ID
              addr := s.next_addr }
          (true, { s1 with a_length := s.a_length + 1, a_alarms := aa_info :: s.a_alarms })

/-- Add a digital alarm to the digital alarm list.  `mem` tells whether
`calloc` delivers a block.  Returns the C return value and the new state. -/
def mgos_add_d_alarm (s : State) (enabled : Bool) (input : Nat)
    (mode : mgos_d_alarm_mode) (set_interval reset_interval : Int)
    (name : Option String) (mem : Bool) : Bool × State :=
  match name with
  | none => (false, s)
  | some name =>
    if name = "" then (false, s)
    else if !mem then (false, s)
    else if s.d_alarms.any (fun da_info2 => name == da_info2.name) then
      -- free(da_info): the block is given back
      (false, s)
    else
      let da_info : d_alarm_info :=
        { active := false
          enabled := enabled
          input := input
          mode := mode
          set_interval := if set_interval < 0 then 0 else set_interval
          reset_interval := if reset_interval < 0 then 0 else reset_interval
          name := name
          timer_id := MGOS_INVALID_TIMER_ID
          addr := s.next_addr }
      (true, { s with
               next_addr := s.next_addr + 1
               d_length := s.d_length + 1
               d_alarms := da_info :: s.d_alarms })

/-! ## Lookup by name: remove, disable, reset -/

/-- A `LIST_FOREACH` that stops at the first record satisfying `p` and unlinks
it: the record and the remaining list, or `none` when no record matches. -/
def remove_first {α : Type} (p : α → Bool) : List α → Option (α × List α)
  | [] => none
  | x :: xs =>
    if p x then some (x, xs)
    else
      match remove_first p xs with
      | none => none
      | some (y, ys) => some (y, x :: ys)

/-- A `LIST_FOREACH` that stops at the first record satisfying `p` and
overwrites it with `f`: the new list, or `none` when no record matches. -/
def update_first {α : Type} (p : α → Bool) (f : α → α) : List α → Option (List α)
  | [] => none
  | x :: xs =>
    if p x then some (f x :: xs)
    else
      match update_first p f xs with
      | none => none
      | some ys => some (x :: ys)

/-- Remove an alarm from the alarm lists if it has a name identical to the
passed string: digital list first, then analog list.  The record is unlinked
and freed and the length counter decremented; nothing else is touched. -/
def mgos_remove_alarm (s : State) (name : Option String) : Bool × State :=
  match name with
  | none => (false, s)
  | some name =>
    match remove_first (fun da_info => name == da_info.name) s.d_alarms with
    | some (da_info, rest) =>
      (true, { s with d_alarms := rest
                      d_freed := da_info :: s.d_freed
                      d_length := s.d_length - 1 })
    | none =>
      match remove_first (fun aa_info => name == aa_info.name) s.a_alarms with
      | some (aa_info, rest) =>
        (true, { s with a_alarms := rest
                        a_freed := aa_info :: s.a_freed
                        a_length := s.a_length - 1 })
      | none => (false, s)

/-- Disable the alarm with the passed name: digital list first, then analog. -/
def mgos_disable_alarm (s : State) (name : Option String) : Bool × State :=
  match name with
  | none => (false, s)
  | some name =>
    match update_first (fun da_info => name == da_info.name)
        (fun da_info => { da_info with active := false, enabled := false }) s.d_alarms with
    | some l => (true, { s with d_alarms := l })
    | none =>
      match update_first (fun aa_info => name == aa_info.name)
          (fun aa_info => { aa_info with state := mgos_a_alarm_state.NOM, enabled := false })
          s.a_alarms with
      | some l => (true, { s with a_alarms := l })
      | none => (false, s)

/-- Reset the alarm with the passed name: digital list first, then analog. -/
def mgos_reset_alarm (s : State) (name : Option String) : Bool × State :=
  match name with
  | none => (false, s)
  | some name =>
    match update_first (fun da_info => name == da_info.name)
        (fun da_info => { da_info with active := false }) s.d_alarms with
    | some l => (true, { s with d_alarms := l })
    | none =>
      match update_first (fun aa_info => name == aa_info.name)
          (fun aa_info => { aa_info with state := mgos_a_alarm_state.NOM })
          s.a_alarms with
      | some l => (true, { s with a_alarms := l })
      | none => (false, s)

/-! ## Listing -/

/-- A memory fault of the embedding. -/
inductive fault where
  | out_of_bounds
  deriving DecidableEq

/-- One loop iteration of `mgos_list_alarms`: write entry `e` at index
`a_list->length` and increment the length.  The write faults when the index is
not below the number of elements allocated. -/
def list_write (a_list : alarm_list) (e : alarm_info) : Except fault alarm_list :=
  if (a_list.length : Int) < a_list.capacity then
    Except.ok { a_list with info := a_list.info ++ [e], length := a_list.length + 1 }
  else Except.error fault.out_of_bounds

/-- The two `LIST_FOREACH` loops of `mgos_list_alarms`, over the entries to write. -/
def list_loop : alarm_list → List alarm_info → Except fault alarm_list
  | a_list, [] => Except.ok a_list
  | a_list, e :: rest =>
    match list_write a_list e with
    | Except.error f => Except.error f
    | Except.ok a_list1 => list_loop a_list1 rest

/-- The entry written for a digital record. -/
def d_entry (da_info : d_alarm_info) : alarm_info :=
  { name := da_info.name
    enabled := da_info.enabled
    type := mgos_alarm_type.DIGITAL
    state := alarm_state.d_state da_info.active }

/-- The entry written for an analog record. -/
def a_entry (aa_info : a_alarm_info) : alarm_info :=
  { name := aa_info.name
    enabled := aa_info.enabled
    type := mgos_alarm_type.ANALOG
    state := alarm_state.a_state aa_info.state }

/-- The function `mgos_list_alarms`: the returned pointer (`none` would be
`NULL`; the function returns the allocated `a_list` on every path), or a fault
when a loop writes outside the `info` array. -/
def mgos_list_alarms (s : State) : Except fault (Option alarm_list) :=
  let total_alarms : Int := s.a_length + s.d_length
  let a_list : alarm_list := { info := [], length := 0, capacity := total_alarms }
  match list_loop a_list (s.d_alarms.map d_entry) with
  | Except.error f => Except.error f
  | Except.ok a_list1 =>
    match list_loop a_list1 (s.a_alarms.map a_entry) with
    | Except.error f => Except.error f
    | Except.ok a_list2 => Except.ok (some a_list2)

/-! ## Timer callbacks and state-machine logic -/

/-- Digital alarm timer callback: toggles `active` and triggers the set or the
reset event with a freshly built `alarm_info`.  Returns the record and the
event. -/
def d_alarm_timer (da_info : d_alarm_info) : d_alarm_info × (mgos_alarm_event × alarm_info) :=
  let da1 : d_alarm_info := { da_info with active := !da_info.active }
  let a_info : alarm_info :=
    { name := da1.name
      enabled := da1.enabled
      type := mgos_alarm_type.DIGITAL
      state := alarm_state.d_state da1.active }
  if da1.active then (da1, (mgos_alarm_event.MGOS_ALARM_EV_SET, a_info))
  else (da1, (mgos_alarm_event.MGOS_ALARM_EV_RESET, a_info))

/-- Analog alarm timer callback: the body is empty. -/
def a_alarm_timer (aa_info : a_alarm_info) : a_alarm_info := aa_info

/-- Digital alarm set/reset timer logic; `input` is the value `*da_info->input`. -/
def mgos_d_alarm_logic (da_info : d_alarm_info) (input : Bool) (ts : timer_service) :
    d_alarm_info × timer_service :=
  let trigger : Bool :=
    (da_info.mode == mgos_d_alarm_mode.ACTIVE_HIGH && input) ||
    (da_info.mode == mgos_d_alarm_mode.ACTIVE_LOW && !input)
  if da_info.active then
    if trigger && da_info.timer_id != MGOS_INVALID_TIMER_ID then
      ({ da_info with timer_id := MGOS_INVALID_TIMER_ID }, mgos_clear_timer ts da_info.timer_id)
    else if !trigger && da_info.timer_id == MGOS_INVALID_TIMER_ID then
      let r := mgos_set_timer ts da_info.reset_interval timer_cb.cb_d_alarm_timer da_info.addr
      ({ da_info with timer_id := r.1 }, r.2)
    else (da_info, ts)
  else if !trigger && da_info.timer_id != MGOS_INVALID_TIMER_ID then
    ({ da_info with timer_id := MGOS_INVALID_TIMER_ID }, mgos_clear_timer ts da_info.timer_id)
  else if trigger && da_info.timer_id == MGOS_INVALID_TIMER_ID then
    let r := mgos_set_timer ts da_info.set_interval timer_cb.cb_d_alarm_timer da_info.addr
    ({ da_info with timer_id := r.1 }, r.2)
  else (da_info, ts)

/-- The body shared by the second, third and fourth branch of
`mgos_a_alarm_logic`: with `st` the state the branch compares with, a down
timer is set when the state differs and no down timer identifier is stored,
then a new up timer is set when an up timer identifier is stored. -/
def a_branch_down (aa_info : a_alarm_info) (st : mgos_a_alarm_state) (ts : timer_service) :
    a_alarm_info × timer_service :=
  let r1 : a_alarm_info × timer_service :=
    if aa_info.state != st && aa_info.down_timer_id == MGOS_INVALID_TIMER_ID then
      let r := mgos_set_timer ts aa_info.set_interval timer_cb.cb_a_alarm_timer aa_info.addr
      ({ aa_info with down_timer_id := r.1 }, r.2)
    else (aa_info, ts)
  if r1.1.up_timer_id != MGOS_INVALID_TIMER_ID then
    let r := mgos_set_timer r1.2 r1.1.set_interval timer_cb.cb_a_alarm_timer r1.1.addr
    ({ r1.1 with up_timer_id := r.1 }, r.2)
  else r1

/-- Analog alarm set/reset timer logic; `pv` is the value `*aa_info->pv`. -/
def mgos_a_alarm_logic (aa_info : a_alarm_info) (pv : CFloat) (ts : timer_service) :
    a_alarm_info × timer_service :=
  if CFloat.ne aa_info.h_sv NAN && CFloat.ge pv aa_info.h_sv && CFloat.lt pv aa_info.hh_sv then
    let r1 : a_alarm_info × timer_service :=
      if aa_info.state != mgos_a_alarm_state.H &&
          aa_info.up_timer_id == MGOS_INVALID_TIMER_ID then
        let r := mgos_set_timer ts aa_info.set_interval timer_cb.cb_a_alarm_timer aa_info.addr
        ({ aa_info with up_timer_id := r.1 }, r.2)
      else (aa_info, ts)
    if r1.1.down_timer_id != MGOS_INVALID_TIMER_ID then
      let r := mgos_set_timer r1.2 r1.1.set_interval timer_cb.cb_a_alarm_timer r1.1.addr
      ({ r1.1 with down_timer_id := r.1 }, r.2)
    else r1
  else if CFloat.ne aa_info.l_sv NAN && CFloat.le pv aa_info.l_sv &&
      CFloat.gt pv aa_info.ll_sv then
    a_branch_down aa_info mgos_a_alarm_state.L ts
  else if CFloat.ne aa_info.hh_sv NAN && CFloat.ge pv aa_info.hh_sv then
    a_branch_down aa_info mgos_a_alarm_state.HH ts
  else if CFloat.ne aa_info.ll_sv NAN && CFloat.le pv aa_info.ll_sv then
    a_branch_down aa_info mgos_a_alarm_state.LL ts
  else (aa_info, ts)

/-! ## Poll driver -/

/-- The digital `LIST_FOREACH` of `mgos_alarm_timer`; `inputs` gives the value
stored at each input address. -/
def d_alarm_loop (inputs : Nat → Bool) :
    List d_alarm_info → timer_service → List d_alarm_info × timer_service
  | [], ts => ([], ts)
  | da_info :: rest, ts =>
    let r : d_alarm_info × timer_service :=
      if da_info.enabled then mgos_d_alarm_logic da_info (inputs da_info.input) ts
      else (da_info, ts)
    let rs := d_alarm_loop inputs rest r.2
    (r.1 :: rs.1, rs.2)

/-- The analog `LIST_FOREACH` of `mgos_alarm_timer`; `pvs` gives the value
stored at each process-value address. -/
def a_alarm_loop (pvs : Nat → CFloat) :
    List a_alarm_info → timer_service → List a_alarm_info × timer_service
  | [], ts => ([], ts)
  | aa_info :: rest, ts =>
    let r : a_alarm_info × timer_service :=
      if aa_info.enabled then mgos_a_alarm_logic aa_info (pvs aa_info.pv) ts
      else (aa_info, ts)
    let rs := a_alarm_loop pvs rest r.2
    (r.1 :: rs.1, rs.2)

/-- Main alarm service timer: one poll tick. -/
def mgos_alarm_timer (s : State) (inputs : Nat → Bool) (pvs : Nat → CFloat) : State :=
  let rd := d_alarm_loop inputs s.d_alarms s.ts
  let ra := a_alarm_loop pvs s.a_alarms rd.2
  { s with d_alarms := rd.1, a_alarms := ra.1, ts := ra.2 }

/-! ## Timer expiry, clock, initialisation -/

/-- Overwrite the block at address `a` with `f` applied to it. -/
def d_at_addr (a : Nat) (f : d_alarm_info → d_alarm_info) (l : List d_alarm_info) :
    List d_alarm_info :=
  l.map (fun da_info => if da_info.addr = a then f da_info else da_info)

/-- Overwrite the analog block at address `a` with `f` applied to it. -/
def a_at_addr (a : Nat) (f : a_alarm_info → a_alarm_info) (l : List a_alarm_info) :
    List a_alarm_info :=
  l.map (fun aa_info => if aa_info.addr = a then f aa_info else aa_info)

/-- Expiry of the pending one-shot timer `id`: possible once the clock has
reached its due time.  The timer leaves the pending list and its callback runs
on the block its argument points to: a linked record or, when the record has
been removed in the meantime, the freed block.  `none` when no such timer is
pending, it is not yet due, or its argument points to no block at all. -/
def mgos_timer_fire (s : State) (id : mgos_timer_id) : Option State :=
  match s.ts.pending.find? (fun t => t.id == id) with
  | none => none
  | some t =>
    if s.ts.now < t.due then none
    else
      let ts1 := mgos_clear_timer s.ts id
      match t.cb with
      | timer_cb.cb_a_alarm_timer =>
        some { s with ts := ts1, a_alarms := a_at_addr t.arg a_alarm_timer s.a_alarms }
      | timer_cb.cb_d_alarm_timer =>
        match s.d_alarms.find? (fun da_info => da_info.addr == t.arg) with
        | some da_info =>
          some { s with ts := ts1
                        d_alarms := d_at_addr t.arg (fun x => (d_alarm_timer x).1) s.d_alarms
                        events := s.events ++ [(d_alarm_timer da_info).2] }
        | none =>
          match s.d_freed.find? (fun da_info => da_info.addr == t.arg) with
          | some da_info =>
            some { s with ts := ts1
                          d_freed := d_at_addr t.arg (fun x => (d_alarm_timer x).1) s.d_freed
                          events := s.events ++ [(d_alarm_timer da_info).2] }
          | none => none

/-- The clock advances by `dt` milliseconds. -/
def mgos_advance (s : State) (dt : Nat) : State :=
  { s with ts := { s.ts with now := s.ts.now + dt } }

/-- Initialise alarm lists and main timer routine.  `base_ok` is the result of
registering the event base, `mem_d` and `mem_a` tell whether the two `calloc`s
deliver a block.  `none` when the function returns false; otherwise the state
it leaves.  The repeating poll timer takes identifier 1; its expiries are the
poll ticks (`mgos_alarm_timer`). -/
def mgos_alarm_init (_poll_interval : Int) (base_ok mem_d mem_a : Bool) : Option State :=
  if !base_ok then none
  else if !mem_d then none
  else if !mem_a then none
  else
    some { d_alarms := []
           d_length := 0
           a_alarms := []
           a_length := 0
           d_freed := []
           a_freed := []
           next_addr := 1
           ts := { pending := [], next_id := 2, now := 0 }
           events := [] }

/-- The states the module can be in: those reached from a successful
`mgos_alarm_init` by API calls, poll ticks, timer expiries and the passing of
time. -/
inductive Reachable : State → Prop where
  | init (poll_interval : Int) (s : State)
      (h : mgos_alarm_init poll_interval true true true = some s) : Reachable s
  | add_d (s : State) (enabled : Bool) (input : Nat) (mode : mgos_d_alarm_mode)
      (set_interval reset_interval : Int) (name : Option String) (mem : Bool)
      (h : Reachable s) :
      Reachable (mgos_add_d_alarm s enabled input mode set_interval reset_interval name mem).2
  | add_a (s : State) (enabled : Bool) (pv : Nat) (ll_sv l_sv h_sv hh_sv : CFloat)
      (set_interval : Int) (name : Option String) (mem : Bool) (h : Reachable s) :
      Reachable (mgos_add_a_alarm s enabled pv ll_sv l_sv h_sv hh_sv set_interval name mem).2
  | remove (s : State) (name : Option String) (h : Reachable s) :
      Reachable (mgos_remove_alarm s name).2
  | disable (s : State) (name : Option String) (h : Reachable s) :
      Reachable (mgos_disable_alarm s name).2
  | reset (s : State) (name : Option String) (h : Reachable s) :
      Reachable (mgos_reset_alarm s name).2
  | tick (s : State) (inputs : Nat → Bool) (pvs : Nat → CFloat) (h : Reachable s) :
      Reachable (mgos_alarm_timer s inputs pvs)
  | fire (s s1 : State) (id : mgos_timer_id) (h : Reachable s)
      (hf : mgos_timer_fire s id = some s1) : Reachable s1
  | advance (s : State) (dt : Nat) (h : Reachable s) : Reachable (mgos_advance s dt)

/-! ## Notions used by the statements -/

/-- Both collections of `t` are those of `s`: same records in the same order
and same length counters. -/
def same_collections (s t : State) : Prop :=
  t.d_alarms = s.d_alarms ∧ t.d_length = s.d_length ∧
  t.a_alarms = s.a_alarms ∧ t.a_length = s.a_length

/-- A threshold is set when it is not NaN. -/
def is_set (x : CFloat) : Bool :=
  match x with
  | CFloat.nan => false
  | _ => true

/-- Raw band, following the words of the specification (section 4.3): unset
thresholds are skipped. -/
def raw_band_spec (ll_sv l_sv h_sv hh_sv value : CFloat) : mgos_a_alarm_state :=
  if is_set hh_sv && CFloat.ge value hh_sv then mgos_a_alarm_state.HH
  else if is_set h_sv && CFloat.ge value h_sv && (!is_set hh_sv || CFloat.lt value hh_sv) then
    mgos_a_alarm_state.H
  else if is_set l_sv && CFloat.le value l_sv && (!is_set ll_sv || CFloat.gt value ll_sv) then
    mgos_a_alarm_state.L
  else if is_set ll_sv && CFloat.le value ll_sv then mgos_a_alarm_state.LL
  else mgos_a_alarm_state.NOM

/-- The state a successful `mgos_alarm_init` leaves. -/
def init_state : State :=
  { d_alarms := []
    d_length := 0
    a_alarms := []
    a_length := 0
    d_freed := []
    a_freed := []
    next_addr := 1
    ts := { pending := [], next_id := 2, now := 0 }
    events := [] }

/-- Some process values: every address holds 0. -/
def pv_zero : Nat → CFloat := fun _ => CFloat.fin 0

/-- Every input address holds `true`. -/
def in_high : Nat → Bool := fun _ => true

/-- Every input address holds `false`. -/
def in_low : Nat → Bool := fun _ => false

/-- The invariant of the reachable states: names and block addresses are
distinct within a list, blocks lie below the allocator mark, pending timers
have positive identifiers and point below the allocator mark, a pending
digital timer that points to a linked digital record is the one whose
identifier the record stores, the length counters count the linked records,
every analog record is in state NOM and every published event is digital. -/
structure Inv (s : State) : Prop where
  d_names : (s.d_alarms.map (fun da => da.name)).Nodup
  a_names : (s.a_alarms.map (fun aa => aa.name)).Nodup
  d_addrs : (s.d_alarms.map (fun da => da.addr)).Nodup
  d_addr_lt : ∀ da ∈ s.d_alarms, da.addr < s.next_addr
  a_addr_lt : ∀ aa ∈ s.a_alarms, aa.addr < s.next_addr
  t_arg_lt : ∀ t ∈ s.ts.pending, t.arg < s.next_addr
  t_id_pos : ∀ t ∈ s.ts.pending, 0 < t.id
  next_id_pos : 0 < s.ts.next_id
  d_timer : ∀ t ∈ s.ts.pending, t.cb = timer_cb.cb_d_alarm_timer →
    ∀ da ∈ s.d_alarms, t.arg = da.addr → t.id = da.timer_id
  d_len : s.d_length = s.d_alarms.length
  a_len : s.a_length = s.a_alarms.length
  a_nom : ∀ aa ∈ s.a_alarms, aa.state = mgos_a_alarm_state.NOM
  ev_digital : ∀ e ∈ s.events, e.2.type = mgos_alarm_type.DIGITAL

/-- Scenario: after initialisation the digital alarm "door" is registered,
enabled, ACTIVE_HIGH, `set_interval` 1000 ms, `reset_interval` 500 ms, on the
input at address 0. -/
def sc_door_added : State :=
  (mgos_add_d_alarm init_state true 0 mgos_d_alarm_mode.ACTIVE_HIGH 1000 500 (some "door") true).2

/-- Scenario: a poll tick then observes the input true (the set timer starts). -/
def sc_door_timing : State := mgos_alarm_timer sc_door_added in_high pv_zero

/-- Scenario: 1000 ms later. -/
def sc_door_due : State := mgos_advance sc_door_timing 1000

/-- The record of "door" once its set timer has expired: active, and still
storing the identifier of the expired timer. -/
def door_active : d_alarm_info :=
  { active := true
    enabled := true
    input := 0
    mode := mgos_d_alarm_mode.ACTIVE_HIGH
    set_interval := 1000
    reset_interval := 500
    name := "door"
    timer_id := 2
    addr := 1 }

/-- The set event published for "door". -/
def door_set_event : mgos_alarm_event × alarm_info :=
  (mgos_alarm_event.MGOS_ALARM_EV_SET,
   { name := "door"
     enabled := true
     type := mgos_alarm_type.DIGITAL
     state := alarm_state.d_state true })

/-- Scenario: the state right after the set timer of "door" has expired. -/
def sc_door_active : State :=
  { d_alarms := [door_active]
    d_length := 1
    a_alarms := []
    a_length := 0
    d_freed := []
    a_freed := []
    next_addr := 2
    ts := { pending := [], next_id := 3, now := 1000 }
    events := [door_set_event] }

/-- From state `s`, `n` rounds of: 500 ms pass, then a poll tick observes every
input false. -/
def hold_low : Nat → State → State
  | 0, s => s
  | n + 1, s => mgos_alarm_timer (mgos_advance (hold_low n s) 500) in_low pv_zero

/-- Scenario: the analog alarm "tank" with the thresholds 0.2, 0.3, 0.4, 0.5
and `set_interval` 1000 ms, on the process value at address 0. -/
def sc_tank_added : State :=
  (mgos_add_a_alarm init_state true 0 (CFloat.fin (2 / 10)) (CFloat.fin (3 / 10))
    (CFloat.fin (4 / 10)) (CFloat.fin (5 / 10)) 1000 (some "tank") true).2

/-- Every process-value address holds 0.45. -/
def pv_045 : Nat → CFloat := fun _ => CFloat.fin (45 / 100)

/-- Every process-value address holds 0.1. -/
def pv_01 : Nat → CFloat := fun _ => CFloat.fin (1 / 10)

/-- Scenario: after "tank" is registered, the value is seen at 0.45 by three
poll ticks spread over 1000 ms. -/
def sc_tank_high : State :=
  mgos_alarm_timer (mgos_advance
    (mgos_alarm_timer (mgos_advance (mgos_alarm_timer sc_tank_added in_low pv_045) 500)
      in_low pv_045) 500) in_low pv_045

/-- The analog record of the scenario with `h_sv` set and `hh_sv` unset. -/
def tank_h_only : a_alarm_info :=
  { enabled := true
    state := mgos_a_alarm_state.NOM
    pv := 0
    ll_sv := NAN
    l_sv := NAN
    h_sv := CFloat.fin (4 / 10)
    hh_sv := NAN
    set_interval := 1000
    name := "tank"
    up_timer_id := MGOS_INVALID_TIMER_ID
    down_timer_id := MGOS_INVALID_TIMER_ID
    addr := 1 }

/-- Scenario: "door" is removed while its set timer is pending. -/
def sc_door_removed : State := (mgos_remove_alarm sc_door_timing (some "door")).2

/-- Scenario: "door" is disabled while its set timer is pending. -/
def sc_door_disabled : State := (mgos_disable_alarm sc_door_timing (some "door")).2

/-- Scenario: a digital alarm "pump" is registered. -/
def sc_pump_added : State :=
  (mgos_add_d_alarm init_state true 0 mgos_d_alarm_mode.ACTIVE_HIGH 1000 500 (some "pump") true).2

/-- Scenario: an analog alarm "pump" is registered next to the digital one. -/
def sc_pump_twice : State :=
  (mgos_add_a_alarm sc_pump_added true 0 (CFloat.fin 1) (CFloat.fin 2) (CFloat.fin 3)
    (CFloat.fin 4) 1000 (some "pump") true).2

/-- The record of "door" while its set timer (identifier 2) is pending. -/
def door_timing : d_alarm_info :=
  { active := false
    enabled := true
    input := 0
    mode := mgos_d_alarm_mode.ACTIVE_HIGH
    set_interval := 1000
    reset_interval := 500
    name := "door"
    timer_id := 2
    addr := 1 }

/-- Scenario: after `sc_tank_high` the up timer (identifier 2) expires; then
a poll tick sees the value at 0.1, 1000 ms pass, and the two timers that tick
has set (identifiers 3 and 4) expire.  `none` if one of the expiries were not
possible. -/
def sc_tank_low : Option State :=
  (mgos_timer_fire sc_tank_high 2).bind (fun s3 =>
    (mgos_timer_fire (mgos_advance (mgos_alarm_timer s3 in_low pv_01) 1000) 3).bind (fun s4 =>
      mgos_timer_fire s4 4))

/-- Scenario: an analog alarm "valve" is registered. -/
def sc_valve_analog : State :=
  (mgos_add_a_alarm init_state true 0 (CFloat.fin 1) (CFloat.fin 2) (CFloat.fin 3)
    (CFloat.fin 4) 1000 (some "valve") true).2

/-- Scenario: a digital alarm "valve" is then registered, disabled. -/
def sc_valve_both : State :=
  (mgos_add_d_alarm sc_valve_analog false 0 mgos_d_alarm_mode.ACTIVE_LOW 10 10
    (some "valve") true).2
/-- The timer service is well formed: pending timers have distinct, positive
identifiers below the next fresh one. -/
def ts_wf (ts : timer_service) : Prop :=
  (∀ t ∈ ts.pending, 0 < t.id ∧ t.id < ts.next_id) ∧
  (ts.pending.map (fun t => t.id)).Nodup ∧ 0 < ts.next_id

/-- The identifier a digital record stores is below the next fresh one, and a
pending timer with that identifier is a digital timer pointing to the record. -/
def d_owns (da : d_alarm_info) (ts : timer_service) : Prop :=
  da.timer_id < ts.next_id ∧
  ∀ t ∈ ts.pending, t.id = da.timer_id →
    t.cb = timer_cb.cb_d_alarm_timer ∧ t.arg = da.addr

/-- A second invariant of the reachable states: all linked blocks have
distinct addresses, the timer service is well formed, and every digital record
owns the timer whose identifier it stores. -/
structure Inv2 (s : State) : Prop where
  addrs : (s.d_alarms.map (fun da => da.addr) ++ s.a_alarms.map (fun aa => aa.addr)).Nodup
  ts_ok : ts_wf s.ts
  d_owned : ∀ da ∈ s.d_alarms, d_owns da s.ts
/-- The record of "door" once it has been disabled with its set timer pending. -/
def door_disabled : d_alarm_info :=
  { active := false
    enabled := false
    input := 0
    mode := mgos_d_alarm_mode.ACTIVE_HIGH
    set_interval := 1000
    reset_interval := 500
    name := "door"
    timer_id := 2
    addr := 1 }

/-- Every process-value address holds 0.35. -/
def pv_035 : Nat → CFloat := fun _ => CFloat.fin (35 / 100)

/-- Every process-value address holds 0.25. -/
def pv_025 : Nat → CFloat := fun _ => CFloat.fin (25 / 100)

/-- Scenario: after "tank" is registered, a poll tick sees the value at 0.45. -/
def sc_tank_armed : State := mgos_alarm_timer sc_tank_added in_low pv_045

/-- Scenario: the next poll tick sees the value back at 0.35, between `l_sv`
and `h_sv`. -/
def sc_tank_back : State := mgos_alarm_timer sc_tank_armed in_low pv_035

/-- Scenario: the poll tick after that sees the value at 0.25, between `ll_sv`
and `l_sv`. -/
def sc_tank_dip : State := mgos_alarm_timer sc_tank_back in_low pv_025

/-- The state after `n` further poll ticks that see the value at 0.25. -/
def tank_dips : Nat → State → State
  | 0, s => s
  | n + 1, s => mgos_alarm_timer (tank_dips n s) in_low pv_025

/-- The pending timers whose callback is `a_alarm_timer` and whose argument is
the block at address `addr`. -/
def a_timers_of (s : State) (addr : Nat) : List timer :=
  s.ts.pending.filter (fun t => t.cb == timer_cb.cb_a_alarm_timer && t.arg == addr)

/-- A registry whose digital length counter is one short of the number of
linked records; no sequence of calls produces it. -/
def st_short_counter : State :=
  { sc_pump_twice with d_length := 0 }

/-- Every process-value address holds 0.6. -/
def pv_06 : Nat → CFloat := fun _ => CFloat.fin (6 / 10)

/-- The state `n` further poll ticks at 0.25 lead to from `sc_tank_dip`, in
closed form: the record stores the identifier of the last timer set, and one
timer per tick has joined the pending ones. -/
def tank_dipped (n : Nat) : State :=
  { d_alarms := []
    d_length := 0
    a_alarms :=
      [{ enabled := true
         state := mgos_a_alarm_state.NOM
         pv := 0
         ll_sv := CFloat.fin (2 / 10)
         l_sv := CFloat.fin (3 / 10)
         h_sv := CFloat.fin (4 / 10)
         hh_sv := CFloat.fin (5 / 10)
         set_interval := 1000
         name := "tank"
         up_timer_id := 4 + n
         down_timer_id := 3
         addr := 1 }]
    a_length := 1
    d_freed := []
    a_freed := []
    next_addr := 2
    ts :=
      { pending :=
          [{ id := 2, due := 1000, cb := timer_cb.cb_a_alarm_timer, arg := 1 },
           { id := 3, due := 1000, cb := timer_cb.cb_a_alarm_timer, arg := 1 },
           { id := 4, due := 1000, cb := timer_cb.cb_a_alarm_timer, arg := 1 }] ++
          (List.range n).map (fun i =>
            { id := 5 + i, due := 1000, cb := timer_cb.cb_a_alarm_timer, arg := 1 })
        next_id := 5 + n
        now := 0 }
    events := [] }

/-- Scenario: the digital alarm "door" is registered after the digital alarm
"pump". -/
def sc_pump_door : State :=
  (mgos_add_d_alarm sc_pump_added true 1 mgos_d_alarm_mode.ACTIVE_LOW 200 200 (some "door")
    true).2

/-! # Theorems -/

/-! ## Lemmas on registration -/

theorem add_d_false_same (s : State) (enabled : Bool) (input : Nat) (mode : mgos_d_alarm_mode)
    (si ri : Int) (name : Option String) (mem : Bool)
    (h : (mgos_add_d_alarm s enabled input mode si ri name mem).1 = false) :
    (mgos_add_d_alarm s enabled input mode si ri name mem).2 = s := by
  unfold mgos_add_d_alarm at h ⊢
  cases name with
  | none => rfl
  | some n =>
    simp only at h ⊢
    split_ifs at h ⊢ <;> simp_all

theorem add_a_false_same (s : State) (enabled : Bool) (pv : Nat) (ll l h hh : CFloat)
    (si : Int) (name : Option String) (mem : Bool)
    (hf : (mgos_add_a_alarm s enabled pv ll l h hh si name mem).1 = false) :
    same_collections s (mgos_add_a_alarm s enabled pv ll l h hh si name mem).2 := by
  unfold mgos_add_a_alarm at hf ⊢
  cases name with
  | none => exact ⟨rfl, rfl, rfl, rfl⟩
  | some n =>
    cases hsv : sv_loop ll [l, h, hh] <;> simp only [hsv] at hf ⊢ <;> split_ifs at hf ⊢ <;>
      exact ⟨rfl, rfl, rfl, rfl⟩

theorem add_a_dup (s : State) (enabled : Bool) (pv : Nat) (ll l h hh : CFloat)
    (si : Int) (n : String) (mem : Bool)
    (hn : n ∈ s.a_alarms.map (fun aa => aa.name)) :
    mgos_add_a_alarm s enabled pv ll l h hh si (some n) mem = (false, s) := by
  have hany : s.a_alarms.any (fun aa => n == aa.name) = true := by
    simp only [List.mem_map] at hn
    obtain ⟨aa, haa, rfl⟩ := hn
    simp only [List.any_eq_true]
    exact ⟨aa, haa, by simp⟩
  unfold mgos_add_a_alarm
  simp only [hany]
  split_ifs <;> rfl

theorem add_d_dup (s : State) (enabled : Bool) (input : Nat) (mode : mgos_d_alarm_mode)
    (si ri : Int) (n : String) (mem : Bool)
    (hn : n ∈ s.d_alarms.map (fun da => da.name)) :
    mgos_add_d_alarm s enabled input mode si ri (some n) mem = (false, s) := by
  have hany : s.d_alarms.any (fun da => n == da.name) = true := by
    simp only [List.mem_map] at hn
    obtain ⟨da, hda, rfl⟩ := hn
    simp only [List.any_eq_true]
    exact ⟨da, hda, by simp⟩
  unfold mgos_add_d_alarm
  simp only [hany]
  split_ifs <;> rfl

theorem add_a_sv_rejected (s : State) (enabled : Bool) (pv : Nat) (ll l h hh : CFloat)
    (si : Int) (name : Option String) (mem : Bool)
    (hsv : sv_loop ll [l, h, hh] = none) :
    (mgos_add_a_alarm s enabled pv ll l h hh si name mem).1 = false := by
  unfold mgos_add_a_alarm
  cases name with
  | none => rfl
  | some n =>
    simp only [hsv]
    split_ifs <;> rfl

/-! ## Lemmas on the list traversals -/

theorem remove_first_sublist {α : Type} (p : α → Bool) :
    ∀ (l : List α) (x : α) (r : List α), remove_first p l = some (x, r) →
      r.Sublist l ∧ r.length + 1 = l.length ∧ x ∈ l ∧ p x = true := by
  intro l
  induction l with
  | nil => intro x r h; simp [remove_first] at h
  | cons y ys ih =>
    intro x r h
    unfold remove_first at h
    by_cases hp : p y = true
    · simp only [hp, if_true, Option.some.injEq, Prod.mk.injEq] at h
      obtain ⟨rfl, rfl⟩ := h
      exact ⟨List.sublist_cons_self _ _, by simp, by simp, hp⟩
    · rw [if_neg hp] at h
      cases hr : remove_first p ys with
      | none => simp [hr] at h
      | some q =>
        obtain ⟨z, zs⟩ := q
        obtain ⟨h1, h2, h3, h4⟩ := ih z zs hr
        simp only [hr, Option.some.injEq, Prod.mk.injEq] at h
        obtain ⟨hzx, hr2⟩ := h
        subst hzx
        subst hr2
        exact ⟨h1.cons₂ y, by simp [h2], List.mem_cons_of_mem _ h3, h4⟩

theorem remove_first_none {α : Type} (p : α → Bool) :
    ∀ (l : List α), remove_first p l = none → ∀ x ∈ l, p x = false := by
  intro l
  induction l with
  | nil => intro _ x hx; simp at hx
  | cons y ys ih =>
    intro h x hx
    unfold remove_first at h
    by_cases hp : p y = true
    · simp [hp] at h
    · rw [if_neg hp] at h
      cases hr : remove_first p ys with
      | none =>
        rcases List.mem_cons.mp hx with rfl | hx
        · simpa using hp
        · exact ih hr x hx
      | some q => obtain ⟨z, zs⟩ := q; simp [hr] at h

theorem update_first_map {α β : Type} (p : α → Bool) (f : α → α) (g : α → β)
    (hg : ∀ x, g (f x) = g x) :
    ∀ (l l1 : List α), update_first p f l = some l1 → l1.map g = l.map g := by
  intro l
  induction l with
  | nil => intro l1 h; simp [update_first] at h
  | cons y ys ih =>
    intro l1 h
    unfold update_first at h
    by_cases hp : p y = true
    · simp only [hp, if_true, Option.some.injEq] at h
      subst h
      simp [hg]
    · rw [if_neg hp] at h
      cases hr : update_first p f ys with
      | none => simp [hr] at h
      | some zs =>
        simp only [hr, Option.some.injEq] at h
        subst h
        simp [ih zs hr]

theorem update_first_mem {α : Type} (p : α → Bool) (f : α → α) :
    ∀ (l l1 : List α), update_first p f l = some l1 →
      ∀ y ∈ l1, y ∈ l ∨ ∃ x ∈ l, p x = true ∧ y = f x := by
  intro l
  induction l with
  | nil => intro l1 h; simp [update_first] at h
  | cons z zs ih =>
    intro l1 h y hy
    unfold update_first at h
    by_cases hp : p z = true
    · simp only [hp, if_true, Option.some.injEq] at h
      subst h
      rcases List.mem_cons.mp hy with rfl | hy
      · exact Or.inr ⟨z, by simp, hp, rfl⟩
      · exact Or.inl (List.mem_cons_of_mem _ hy)
    · rw [if_neg hp] at h
      cases hr : update_first p f zs with
      | none => simp [hr] at h
      | some ws =>
        simp only [hr, Option.some.injEq] at h
        subst h
        rcases List.mem_cons.mp hy with rfl | hy
        · exact Or.inl (by simp)
        · rcases ih ws hr y hy with h1 | ⟨x, hx, hpx, rfl⟩
          · exact Or.inl (List.mem_cons_of_mem _ h1)
          · exact Or.inr ⟨x, List.mem_cons_of_mem _ hx, hpx, rfl⟩

theorem update_first_none {α : Type} (p : α → Bool) (f : α → α) :
    ∀ (l : List α), update_first p f l = none → ∀ x ∈ l, p x = false := by
  intro l
  induction l with
  | nil => intro _ x hx; simp at hx
  | cons y ys ih =>
    intro h x hx
    unfold update_first at h
    by_cases hp : p y = true
    · simp [hp] at h
    · rw [if_neg hp] at h
      cases hr : update_first p f ys with
      | none =>
        rcases List.mem_cons.mp hx with rfl | hx
        · simpa using hp
        · exact ih hr x hx
      | some q => simp [hr] at h

/-! ## Lemmas on the state-machine logic -/

/-- The three things one evaluation of the digital logic can do. -/
theorem d_logic_cases (da : d_alarm_info) (inp : Bool) (ts : timer_service) :
    mgos_d_alarm_logic da inp ts = (da, ts) ∨
    (da.timer_id ≠ 0 ∧ mgos_d_alarm_logic da inp ts =
        ({ da with timer_id := 0 }, mgos_clear_timer ts da.timer_id)) ∨
    (da.timer_id = 0 ∧ ∃ msecs : Int, mgos_d_alarm_logic da inp ts =
        ({ da with timer_id := ts.next_id },
         (mgos_set_timer ts msecs timer_cb.cb_d_alarm_timer da.addr).2)) := by
  unfold mgos_d_alarm_logic
  simp only [MGOS_INVALID_TIMER_ID]
  split_ifs with h1 h2 h3 h4 h5
  · right; left
    simp only [Bool.and_eq_true, bne_iff_ne, ne_eq] at h2
    exact ⟨h2.2, rfl⟩
  · right; right
    simp only [Bool.and_eq_true, beq_iff_eq] at h3
    exact ⟨h3.2, _, rfl⟩
  · left; rfl
  · right; left
    simp only [Bool.and_eq_true, bne_iff_ne, ne_eq] at h4
    exact ⟨h4.2, rfl⟩
  · right; right
    simp only [Bool.and_eq_true, beq_iff_eq] at h5
    exact ⟨h5.2, _, rfl⟩
  · left; rfl

/-- What one evaluation of the analog logic leaves alone, and which timers it
can add. -/
theorem a_logic_frame (aa : a_alarm_info) (pv : CFloat) (ts : timer_service) :
    (mgos_a_alarm_logic aa pv ts).1.name = aa.name ∧
    (mgos_a_alarm_logic aa pv ts).1.addr = aa.addr ∧
    (mgos_a_alarm_logic aa pv ts).1.state = aa.state ∧
    (mgos_a_alarm_logic aa pv ts).1.enabled = aa.enabled ∧
    (mgos_a_alarm_logic aa pv ts).2.now = ts.now ∧
    ts.next_id ≤ (mgos_a_alarm_logic aa pv ts).2.next_id ∧
    ∀ t ∈ (mgos_a_alarm_logic aa pv ts).2.pending,
      t ∈ ts.pending ∨
      (t.cb = timer_cb.cb_a_alarm_timer ∧ t.arg = aa.addr ∧ ts.next_id ≤ t.id) := by
  unfold mgos_a_alarm_logic a_branch_down mgos_set_timer
  dsimp only
  split_ifs <;>
    (refine ⟨rfl, rfl, rfl, rfl, rfl, by dsimp only; omega, ?_⟩
     intro t ht
     simp only [List.mem_append, List.mem_singleton] at ht
     first
       | exact Or.inl ht
       | (rcases ht with ht | rfl
          · exact Or.inl ht
          · right; simp)
       | (rcases ht with (ht | rfl) | rfl
          · exact Or.inl ht
          · right; simp
          · right; simp))

/-! ## Lemmas on the poll loops -/

/-- One iteration of the digital poll loop. -/
theorem d_step_spec (da : d_alarm_info) (inp : Bool) (ts : timer_service)
    (hpos : ∀ t ∈ ts.pending, 0 < t.id) (hnext : 0 < ts.next_id)
    (hown : ∀ t ∈ ts.pending, t.cb = timer_cb.cb_d_alarm_timer → t.arg = da.addr →
      t.id = da.timer_id) :
    (if da.enabled then mgos_d_alarm_logic da inp ts else (da, ts)).1 =
      { da with timer_id :=
          (if da.enabled then mgos_d_alarm_logic da inp ts else (da, ts)).1.timer_id } ∧
    (∀ t ∈ (if da.enabled then mgos_d_alarm_logic da inp ts else (da, ts)).2.pending, 0 < t.id) ∧
    0 < (if da.enabled then mgos_d_alarm_logic da inp ts else (da, ts)).2.next_id ∧
    (if da.enabled then mgos_d_alarm_logic da inp ts else (da, ts)).2.now = ts.now ∧
    (∀ t ∈ (if da.enabled then mgos_d_alarm_logic da inp ts else (da, ts)).2.pending,
      t ∈ ts.pending ∨ (t.cb = timer_cb.cb_d_alarm_timer ∧ t.arg = da.addr)) ∧
    (∀ t ∈ (if da.enabled then mgos_d_alarm_logic da inp ts else (da, ts)).2.pending,
      t.cb = timer_cb.cb_d_alarm_timer → t.arg = da.addr →
      t.id = (if da.enabled then mgos_d_alarm_logic da inp ts else (da, ts)).1.timer_id) := by
  by_cases hen : da.enabled = true
  · simp only [if_pos hen]
    rcases d_logic_cases da inp ts with h | ⟨hne, h⟩ | ⟨h0, msecs, h⟩
    · rw [h]
      exact ⟨rfl, hpos, hnext, rfl, fun t ht => Or.inl ht, hown⟩
    · rw [h]
      refine ⟨rfl, ?_, hnext, rfl, ?_, ?_⟩
      · intro t ht
        simp only [mgos_clear_timer, List.mem_filter] at ht
        exact hpos t ht.1
      · intro t ht
        simp only [mgos_clear_timer, List.mem_filter] at ht
        exact Or.inl ht.1
      · intro t ht hcb harg
        simp only [mgos_clear_timer, List.mem_filter, bne_iff_ne, ne_eq] at ht
        exact absurd (hown t ht.1 hcb harg) ht.2
    · rw [h]
      refine ⟨rfl, ?_, ?_, rfl, ?_, ?_⟩
      · intro t ht
        simp only [mgos_set_timer, List.mem_append, List.mem_singleton] at ht
        rcases ht with ht | rfl
        · exact hpos t ht
        · exact hnext
      · simp only [mgos_set_timer]; omega
      · intro t ht
        simp only [mgos_set_timer, List.mem_append, List.mem_singleton] at ht
        rcases ht with ht | rfl
        · exact Or.inl ht
        · exact Or.inr ⟨rfl, rfl⟩
      · intro t ht hcb harg
        simp only [mgos_set_timer, List.mem_append, List.mem_singleton] at ht
        rcases ht with ht | rfl
        · have h1 : t.id = 0 := (hown t ht hcb harg).trans h0
          have h2 := hpos t ht
          rw [h1] at h2
          exact absurd h2 (Nat.lt_irrefl 0)
        · rfl
  · rw [if_neg hen]
    exact ⟨rfl, hpos, hnext, rfl, fun t ht => Or.inl ht, hown⟩

theorem d_alarm_loop_cons (inputs : Nat → Bool) (da : d_alarm_info) (rest : List d_alarm_info)
    (ts : timer_service) :
    d_alarm_loop inputs (da :: rest) ts =
      ((if da.enabled then mgos_d_alarm_logic da (inputs da.input) ts else (da, ts)).1 ::
        (d_alarm_loop inputs rest
          (if da.enabled then mgos_d_alarm_logic da (inputs da.input) ts else (da, ts)).2).1,
       (d_alarm_loop inputs rest
          (if da.enabled then mgos_d_alarm_logic da (inputs da.input) ts else (da, ts)).2).2) :=
  rfl

/-- The digital poll loop keeps names and addresses, and keeps every pending
digital timer that points to a record of the list equal to the timer the
record stores. -/
theorem d_loop_spec (inputs : Nat → Bool) :
    ∀ (l : List d_alarm_info) (ts : timer_service),
      (l.map (fun da => da.addr)).Nodup →
      (∀ t ∈ ts.pending, 0 < t.id) → 0 < ts.next_id →
      (∀ t ∈ ts.pending, t.cb = timer_cb.cb_d_alarm_timer →
        ∀ da ∈ l, t.arg = da.addr → t.id = da.timer_id) →
      (d_alarm_loop inputs l ts).1.map (fun da => da.name) = l.map (fun da => da.name) ∧
      (d_alarm_loop inputs l ts).1.map (fun da => da.addr) = l.map (fun da => da.addr) ∧
      (∀ t ∈ (d_alarm_loop inputs l ts).2.pending, 0 < t.id) ∧
      0 < (d_alarm_loop inputs l ts).2.next_id ∧
      (d_alarm_loop inputs l ts).2.now = ts.now ∧
      (∀ t ∈ (d_alarm_loop inputs l ts).2.pending,
        t ∈ ts.pending ∨
        (t.cb = timer_cb.cb_d_alarm_timer ∧ t.arg ∈ l.map (fun da => da.addr))) ∧
      (∀ t ∈ (d_alarm_loop inputs l ts).2.pending, t.cb = timer_cb.cb_d_alarm_timer →
        ∀ da ∈ (d_alarm_loop inputs l ts).1, t.arg = da.addr → t.id = da.timer_id) := by
  intro l
  induction l with
  | nil =>
    intro ts _ hpos hnext _
    exact ⟨rfl, rfl, hpos, hnext, rfl, fun t ht => Or.inl ht, fun t _ _ da hda => by
      simp [d_alarm_loop] at hda⟩
  | cons da rest ih =>
    intro ts hnd hpos hnext hown
    rw [d_alarm_loop_cons]
    have hnd2 : da.addr ∉ rest.map (fun da => da.addr) ∧ (rest.map (fun da => da.addr)).Nodup := by
      simpa using hnd
    obtain ⟨s1, s2, s3, s4, s5, s6⟩ := d_step_spec da (inputs da.input) ts hpos hnext
      (fun t ht hcb harg => hown t ht hcb da (by simp) harg)
    generalize hr : (if da.enabled then mgos_d_alarm_logic da (inputs da.input) ts
      else (da, ts)) = r at s1 s2 s3 s4 s5 s6 ⊢
    have hown2 : ∀ t ∈ r.2.pending, t.cb = timer_cb.cb_d_alarm_timer →
        ∀ x ∈ rest, t.arg = x.addr → t.id = x.timer_id := by
      intro t ht hcb x hx harg
      rcases s5 t ht with h | ⟨_, h⟩
      · exact hown t h hcb x (List.mem_cons_of_mem _ hx) harg
      · exfalso
        apply hnd2.1
        rw [← h, harg]
        exact List.mem_map_of_mem _ hx
    obtain ⟨i1, i2, i3, i4, i5, i6, i7⟩ := ih r.2 hnd2.2 s2 s3 hown2
    have hname : r.1.name = da.name := by rw [s1]
    have haddr : r.1.addr = da.addr := by rw [s1]
    refine ⟨?_, ?_, i3, i4, by rw [i5, s4], ?_, ?_⟩
    · simp only [List.map_cons, i1, hname]
    · simp only [List.map_cons, i2, haddr]
    · intro t ht
      rcases i6 t ht with h | ⟨hcb, h⟩
      · rcases s5 t h with h1 | ⟨hcb, h1⟩
        · exact Or.inl h1
        · exact Or.inr ⟨hcb, by simp [h1]⟩
      · exact Or.inr ⟨hcb, by simp [h]⟩
    · intro t ht hcb x hx harg
      rcases List.mem_cons.mp hx with rfl | hx
      · rcases i6 t ht with h | ⟨_, h⟩
        · exact s6 t h hcb (by rw [harg, haddr])
        · exfalso
          apply hnd2.1
          rw [← haddr, ← harg]
          exact h
      · exact i7 t ht hcb x hx harg

theorem a_alarm_loop_cons (pvs : Nat → CFloat) (aa : a_alarm_info) (rest : List a_alarm_info)
    (ts : timer_service) :
    a_alarm_loop pvs (aa :: rest) ts =
      ((if aa.enabled then mgos_a_alarm_logic aa (pvs aa.pv) ts else (aa, ts)).1 ::
        (a_alarm_loop pvs rest
          (if aa.enabled then mgos_a_alarm_logic aa (pvs aa.pv) ts else (aa, ts)).2).1,
       (a_alarm_loop pvs rest
          (if aa.enabled then mgos_a_alarm_logic aa (pvs aa.pv) ts else (aa, ts)).2).2) :=
  rfl

/-- One iteration of the analog poll loop. -/
theorem a_step_spec (aa : a_alarm_info) (pv : CFloat) (ts : timer_service) :
    (if aa.enabled then mgos_a_alarm_logic aa pv ts else (aa, ts)).1.name = aa.name ∧
    (if aa.enabled then mgos_a_alarm_logic aa pv ts else (aa, ts)).1.addr = aa.addr ∧
    (if aa.enabled then mgos_a_alarm_logic aa pv ts else (aa, ts)).1.state = aa.state ∧
    (if aa.enabled then mgos_a_alarm_logic aa pv ts else (aa, ts)).1.enabled = aa.enabled ∧
    (if aa.enabled then mgos_a_alarm_logic aa pv ts else (aa, ts)).2.now = ts.now ∧
    ts.next_id ≤ (if aa.enabled then mgos_a_alarm_logic aa pv ts else (aa, ts)).2.next_id ∧
    ∀ t ∈ (if aa.enabled then mgos_a_alarm_logic aa pv ts else (aa, ts)).2.pending,
      t ∈ ts.pending ∨
      (t.cb = timer_cb.cb_a_alarm_timer ∧ t.arg = aa.addr ∧ ts.next_id ≤ t.id) := by
  by_cases hen : aa.enabled = true
  · simp only [if_pos hen]
    exact a_logic_frame aa pv ts
  · rw [if_neg hen]
    exact ⟨rfl, rfl, rfl, rfl, rfl, le_refl _, fun t ht => Or.inl ht⟩

/-- The analog poll loop keeps names, addresses and states, and only adds
analog timers that point to records of the list. -/
theorem a_loop_spec (pvs : Nat → CFloat) :
    ∀ (l : List a_alarm_info) (ts : timer_service),
      (a_alarm_loop pvs l ts).1.map (fun aa => aa.name) = l.map (fun aa => aa.name) ∧
      (a_alarm_loop pvs l ts).1.map (fun aa => aa.addr) = l.map (fun aa => aa.addr) ∧
      (a_alarm_loop pvs l ts).1.map (fun aa => aa.state) = l.map (fun aa => aa.state) ∧
      (a_alarm_loop pvs l ts).2.now = ts.now ∧
      ts.next_id ≤ (a_alarm_loop pvs l ts).2.next_id ∧
      (∀ t ∈ (a_alarm_loop pvs l ts).2.pending,
        t ∈ ts.pending ∨
        (t.cb = timer_cb.cb_a_alarm_timer ∧ t.arg ∈ l.map (fun aa => aa.addr) ∧
          ts.next_id ≤ t.id)) := by
  intro l
  induction l with
  | nil =>
    intro ts
    exact ⟨rfl, rfl, rfl, rfl, le_refl _, fun t ht => Or.inl ht⟩
  | cons aa rest ih =>
    intro ts
    rw [a_alarm_loop_cons]
    obtain ⟨s1, s2, s3, _, s5, s6, s7⟩ := a_step_spec aa (pvs aa.pv) ts
    generalize (if aa.enabled then mgos_a_alarm_logic aa (pvs aa.pv) ts else (aa, ts)) = r
      at s1 s2 s3 s5 s6 s7 ⊢
    obtain ⟨i1, i2, i3, i4, i5, i6⟩ := ih r.2
    refine ⟨?_, ?_, ?_, by rw [i4, s5], le_trans s6 i5, ?_⟩
    · simp only [List.map_cons, i1, s1]
    · simp only [List.map_cons, i2, s2]
    · simp only [List.map_cons, i3, s3]
    · intro t ht
      rcases i6 t ht with h | ⟨hcb, h, hle⟩
      · rcases s7 t h with h1 | ⟨hcb, h1, hle⟩
        · exact Or.inl h1
        · exact Or.inr ⟨hcb, by simp [h1], hle⟩
      · exact Or.inr ⟨hcb, by simp [h], le_trans s6 hle⟩

theorem exists_of_map_eq {α β : Type} (g : α → β) {l l1 : List α}
    (h : l1.map g = l.map g) : ∀ y ∈ l1, ∃ x ∈ l, g x = g y := by
  intro y hy
  have : g y ∈ l.map g := by rw [← h]; exact List.mem_map_of_mem g hy
  simpa using this

theorem exists_of_map_sublist {α β : Type} (g : α → β) {l l1 : List α}
    (h : (l1.map g).Sublist (l.map g)) : ∀ y ∈ l1, ∃ x ∈ l, g x = g y := by
  intro y hy
  have : g y ∈ l.map g := h.subset (List.mem_map_of_mem g hy)
  simpa using this

/-- The invariant is kept by every step that drops or keeps records (names,
addresses and stored timers untouched), drops or keeps pending timers, and
publishes digital events only. -/
theorem Inv.of_frame {s s1 : State} (h : Inv s)
    (hd : (s1.d_alarms.map (fun da => (da.name, da.addr, da.timer_id))).Sublist
      (s.d_alarms.map (fun da => (da.name, da.addr, da.timer_id))))
    (ha : (s1.a_alarms.map (fun aa => (aa.name, aa.addr))).Sublist
      (s.a_alarms.map (fun aa => (aa.name, aa.addr))))
    (hst : ∀ aa ∈ s1.a_alarms, aa.state = mgos_a_alarm_state.NOM)
    (hna : s.next_addr ≤ s1.next_addr)
    (hts : ∀ t ∈ s1.ts.pending, t ∈ s.ts.pending)
    (hnid : 0 < s1.ts.next_id)
    (hdl : s1.d_length = s1.d_alarms.length)
    (hal : s1.a_length = s1.a_alarms.length)
    (hev : ∀ e ∈ s1.events, e.2.type = mgos_alarm_type.DIGITAL) : Inv s1 := by
  have hdm := exists_of_map_sublist _ hd
  have ham := exists_of_map_sublist _ ha
  refine ⟨?_, ?_, ?_, ?_, ?_, ?_, ?_, hnid, ?_, hdl, hal, hst, hev⟩
  · have := hd.map (fun p => p.1)
    simp only [List.map_map] at this
    exact h.d_names.sublist this
  · have := ha.map (fun p => p.1)
    simp only [List.map_map] at this
    exact h.a_names.sublist this
  · have := hd.map (fun p => p.2.1)
    simp only [List.map_map] at this
    exact h.d_addrs.sublist this
  · intro da hda
    obtain ⟨x, hx, hxe⟩ := hdm da hda
    simp only [Prod.mk.injEq] at hxe
    have := h.d_addr_lt x hx
    omega
  · intro aa haa
    obtain ⟨x, hx, hxe⟩ := ham aa haa
    simp only [Prod.mk.injEq] at hxe
    have := h.a_addr_lt x hx
    omega
  · intro t ht
    have := h.t_arg_lt t (hts t ht)
    omega
  · intro t ht
    exact h.t_id_pos t (hts t ht)
  · intro t ht hcb da hda harg
    obtain ⟨x, hx, hxe⟩ := hdm da hda
    simp only [Prod.mk.injEq] at hxe
    have := h.d_timer t (hts t ht) hcb x hx (by rw [harg, hxe.2.1])
    rw [this, hxe.2.2]

/-! ## The invariant holds in every reachable state -/

theorem inv_init (p : Int) (s : State) (h : mgos_alarm_init p true true true = some s) :
    Inv s := by
  simp only [mgos_alarm_init, Bool.not_true, Bool.false_eq_true, if_false,
    Option.some.injEq] at h
  subst h
  constructor <;> simp

theorem not_mem_names_of_any_false_d {l : List d_alarm_info} {n : String}
    (h : ¬ l.any (fun da => n == da.name) = true) : n ∉ l.map (fun da => da.name) := by
  intro hm
  apply h
  simp only [List.mem_map] at hm
  obtain ⟨da, hda, rfl⟩ := hm
  simp only [List.any_eq_true]
  exact ⟨da, hda, by simp⟩

theorem not_mem_names_of_any_false_a {l : List a_alarm_info} {n : String}
    (h : ¬ l.any (fun aa => n == aa.name) = true) : n ∉ l.map (fun aa => aa.name) := by
  intro hm
  apply h
  simp only [List.mem_map] at hm
  obtain ⟨aa, haa, rfl⟩ := hm
  simp only [List.any_eq_true]
  exact ⟨aa, haa, by simp⟩

theorem inv_bump {s : State} (h : Inv s) : Inv { s with next_addr := s.next_addr + 1 } :=
  Inv.of_frame h (List.Sublist.refl _) (List.Sublist.refl _) h.a_nom (Nat.le_succ _)
    (fun _ ht => ht) h.next_id_pos h.d_len h.a_len h.ev_digital

theorem inv_add_d (s : State) (enabled : Bool) (input : Nat) (mode : mgos_d_alarm_mode)
    (si ri : Int) (name : Option String) (mem : Bool) (h : Inv s) :
    Inv (mgos_add_d_alarm s enabled input mode si ri name mem).2 := by
  unfold mgos_add_d_alarm
  cases name with
  | none => exact h
  | some n =>
    dsimp only
    by_cases h1 : n = ""
    · rw [if_pos h1]; exact h
    · rw [if_neg h1]
      by_cases h2 : (!mem) = true
      · rw [if_pos h2]; exact h
      · rw [if_neg h2]
        by_cases h3 : s.d_alarms.any (fun da => n == da.name) = true
        · rw [if_pos h3]; exact h
        · rw [if_neg h3]
          have hn := not_mem_names_of_any_false_d h3
          refine ⟨?_, h.a_names, ?_, ?_, ?_, ?_, h.t_id_pos, h.next_id_pos, ?_, ?_, h.a_len,
            h.a_nom, h.ev_digital⟩
          · simp only [List.map_cons, List.nodup_cons]
            exact ⟨hn, h.d_names⟩
          · simp only [List.map_cons, List.nodup_cons]
            refine ⟨?_, h.d_addrs⟩
            intro hm
            simp only [List.mem_map] at hm
            obtain ⟨da, hda, he⟩ := hm
            have := h.d_addr_lt da hda
            omega
          · intro da hda
            rcases List.mem_cons.mp hda with rfl | hda
            · exact Nat.lt_succ_self _
            · exact Nat.lt_succ_of_lt (h.d_addr_lt da hda)
          · intro aa haa
            exact Nat.lt_succ_of_lt (h.a_addr_lt aa haa)
          · intro t ht
            exact Nat.lt_succ_of_lt (h.t_arg_lt t ht)
          · intro t ht hcb da hda harg
            rcases List.mem_cons.mp hda with rfl | hda
            · have := h.t_arg_lt t ht
              simp only at harg
              omega
            · exact h.d_timer t ht hcb da hda harg
          · simp only [List.length_cons, Nat.cast_add, Nat.cast_one, h.d_len]

theorem inv_add_a (s : State) (enabled : Bool) (pv : Nat) (ll l hs hh : CFloat)
    (si : Int) (name : Option String) (mem : Bool) (h : Inv s) :
    Inv (mgos_add_a_alarm s enabled pv ll l hs hh si name mem).2 := by
  unfold mgos_add_a_alarm
  cases name with
  | none => exact h
  | some n =>
    dsimp only
    by_cases h1 : n = ""
    · rw [if_pos h1]; exact h
    · rw [if_neg h1]
      by_cases h2 : (!mem) = true
      · rw [if_pos h2]; exact h
      · rw [if_neg h2]
        by_cases h3 : s.a_alarms.any (fun aa => n == aa.name) = true
        · rw [if_pos h3]; exact h
        · rw [if_neg h3]
          have hn := not_mem_names_of_any_false_a h3
          cases sv_loop ll [l, hs, hh] with
          | none => exact inv_bump h
          | some tf =>
            dsimp only
            by_cases h4 : CFloat.eq tf NAN = true
            · rw [if_pos h4]; exact inv_bump h
            · rw [if_neg h4]
              refine ⟨h.d_names, ?_, h.d_addrs, ?_, ?_, ?_, h.t_id_pos, h.next_id_pos,
                h.d_timer, h.d_len, ?_, ?_, h.ev_digital⟩
              · simp only [List.map_cons, List.nodup_cons]
                exact ⟨hn, h.a_names⟩
              · intro da hda
                exact Nat.lt_succ_of_lt (h.d_addr_lt da hda)
              · intro aa haa
                rcases List.mem_cons.mp haa with rfl | haa
                · exact Nat.lt_succ_self _
                · exact Nat.lt_succ_of_lt (h.a_addr_lt aa haa)
              · intro t ht
                exact Nat.lt_succ_of_lt (h.t_arg_lt t ht)
              · simp only [List.length_cons, Nat.cast_add, Nat.cast_one, h.a_len]
              · intro aa haa
                rcases List.mem_cons.mp haa with rfl | haa
                · rfl
                · exact h.a_nom aa haa

theorem inv_remove (s : State) (name : Option String) (h : Inv s) :
    Inv (mgos_remove_alarm s name).2 := by
  unfold mgos_remove_alarm
  cases name with
  | none => exact h
  | some n =>
    dsimp only
    cases hd : remove_first (fun da => n == da.name) s.d_alarms with
    | some q =>
      obtain ⟨da, rest⟩ := q
      obtain ⟨hsub, hlen, _, _⟩ := remove_first_sublist _ _ _ _ hd
      dsimp only
      refine Inv.of_frame h (hsub.map _) (List.Sublist.refl _) h.a_nom (le_refl _)
        (fun _ ht => ht) h.next_id_pos ?_ h.a_len h.ev_digital
      simp only [h.d_len, ← hlen]
      push_cast
      ring
    | none =>
      dsimp only
      cases ha : remove_first (fun aa => n == aa.name) s.a_alarms with
      | some q =>
        obtain ⟨aa, rest⟩ := q
        obtain ⟨hsub, hlen, _, _⟩ := remove_first_sublist _ _ _ _ ha
        dsimp only
        refine Inv.of_frame h (List.Sublist.refl _) (hsub.map _)
          (fun x hx => h.a_nom x (hsub.subset hx)) (le_refl _)
          (fun _ ht => ht) h.next_id_pos h.d_len ?_ h.ev_digital
        simp only [h.a_len, ← hlen]
        push_cast
        ring
      | none => exact h

theorem inv_update (s : State) (h : Inv s) (n : String)
    (fd : d_alarm_info → d_alarm_info) (fa : a_alarm_info → a_alarm_info)
    (hfd : ∀ x, ((fd x).name, (fd x).addr, (fd x).timer_id) = (x.name, x.addr, x.timer_id))
    (hfa : ∀ x, ((fa x).name, (fa x).addr) = (x.name, x.addr))
    (hfs : ∀ x, (fa x).state = mgos_a_alarm_state.NOM) :
    Inv (match update_first (fun (da : d_alarm_info) => n == da.name) fd s.d_alarms with
      | some l => (true, { s with d_alarms := l })
      | none =>
        match update_first (fun (aa : a_alarm_info) => n == aa.name) fa s.a_alarms with
        | some l => (true, { s with a_alarms := l })
        | none => (false, s)).2 := by
  cases hd : update_first (fun (da : d_alarm_info) => n == da.name) fd s.d_alarms with
  | some l1 =>
    have hm := update_first_map _ fd (fun da => (da.name, da.addr, da.timer_id)) hfd _ _ hd
    refine Inv.of_frame h (by rw [hm]) (List.Sublist.refl _) h.a_nom (le_refl _)
      (fun _ ht => ht) h.next_id_pos ?_ h.a_len h.ev_digital
    have := congrArg List.length hm
    simp only [List.length_map] at this
    simp only [h.d_len, this]
  | none =>
    dsimp only
    cases ha : update_first (fun (aa : a_alarm_info) => n == aa.name) fa s.a_alarms with
    | some l1 =>
      have hm := update_first_map _ fa (fun aa => (aa.name, aa.addr)) hfa _ _ ha
      refine Inv.of_frame h (List.Sublist.refl _) (by rw [hm]) ?_ (le_refl _)
        (fun _ ht => ht) h.next_id_pos h.d_len ?_ h.ev_digital
      · intro y hy
        rcases update_first_mem _ fa _ _ ha y hy with h1 | ⟨x, _, _, rfl⟩
        · exact h.a_nom y h1
        · exact hfs x
      · have := congrArg List.length hm
        simp only [List.length_map] at this
        simp only [h.a_len, this]
    | none => exact h

theorem inv_disable (s : State) (name : Option String) (h : Inv s) :
    Inv (mgos_disable_alarm s name).2 := by
  unfold mgos_disable_alarm
  cases name with
  | none => exact h
  | some n =>
    exact inv_update s h n
      (fun da_info => { da_info with active := false, enabled := false })
      (fun aa_info => { aa_info with state := mgos_a_alarm_state.NOM, enabled := false })
      (fun _ => rfl) (fun _ => rfl) (fun _ => rfl)

theorem inv_reset (s : State) (name : Option String) (h : Inv s) :
    Inv (mgos_reset_alarm s name).2 := by
  unfold mgos_reset_alarm
  cases name with
  | none => exact h
  | some n =>
    exact inv_update s h n
      (fun da_info => { da_info with active := false })
      (fun aa_info => { aa_info with state := mgos_a_alarm_state.NOM })
      (fun _ => rfl) (fun _ => rfl) (fun _ => rfl)

theorem inv_tick (s : State) (inputs : Nat → Bool) (pvs : Nat → CFloat) (h : Inv s) :
    Inv (mgos_alarm_timer s inputs pvs) := by
  unfold mgos_alarm_timer
  dsimp only
  obtain ⟨d1, d2, d3, d4, _, d6, d7⟩ :=
    d_loop_spec inputs s.d_alarms s.ts h.d_addrs h.t_id_pos h.next_id_pos h.d_timer
  generalize d_alarm_loop inputs s.d_alarms s.ts = rd at d1 d2 d3 d4 d6 d7 ⊢
  obtain ⟨a1, a2, a3, _, a5, a6⟩ := a_loop_spec pvs s.a_alarms rd.2
  generalize a_alarm_loop pvs s.a_alarms rd.2 = ra at a1 a2 a3 a5 a6 ⊢
  refine ⟨by rw [d1]; exact h.d_names, by rw [a1]; exact h.a_names,
    by rw [d2]; exact h.d_addrs, ?_, ?_, ?_, ?_, lt_of_lt_of_le d4 a5, ?_, ?_, ?_, ?_, h.ev_digital⟩
  · intro da hda
    obtain ⟨x, hx, hxe⟩ := exists_of_map_eq _ d2 da hda
    have := h.d_addr_lt x hx
    dsimp only at hxe ⊢
    omega
  · intro aa haa
    obtain ⟨x, hx, hxe⟩ := exists_of_map_eq _ a2 aa haa
    have := h.a_addr_lt x hx
    dsimp only at hxe ⊢
    omega
  · intro t ht
    rcases a6 t ht with h1 | ⟨_, h1, _⟩
    · rcases d6 t h1 with h2 | ⟨_, h2⟩
      · exact h.t_arg_lt t h2
      · simp only [List.mem_map] at h2
        obtain ⟨x, hx, hxe⟩ := h2
        have := h.d_addr_lt x hx
        dsimp only at hxe ⊢
        omega
    · simp only [List.mem_map] at h1
      obtain ⟨x, hx, hxe⟩ := h1
      have := h.a_addr_lt x hx
      dsimp only at hxe ⊢
      omega
  · intro t ht
    rcases a6 t ht with h1 | ⟨_, _, h1⟩
    · exact d3 t h1
    · exact lt_of_lt_of_le d4 h1
  · intro t ht hcb da hda harg
    rcases a6 t ht with h1 | ⟨h1, _, _⟩
    · exact d7 t h1 hcb da hda harg
    · rw [hcb] at h1
      exact absurd h1 (by decide)
  · have := congrArg List.length d1
    simp only [List.length_map] at this
    rw [h.d_len, this]
  · have := congrArg List.length a1
    simp only [List.length_map] at this
    rw [h.a_len, this]
  · intro aa haa
    obtain ⟨x, hx, hxe⟩ := exists_of_map_eq _ a3 aa haa
    rw [← hxe]
    exact h.a_nom x hx

theorem d_at_addr_map {β : Type} (a : Nat) (f : d_alarm_info → d_alarm_info)
    (g : d_alarm_info → β) (hg : ∀ x, g (f x) = g x) (l : List d_alarm_info) :
    (d_at_addr a f l).map g = l.map g := by
  unfold d_at_addr
  rw [List.map_map]
  apply List.map_congr_left
  intro x _
  simp only [Function.comp]
  split_ifs
  · exact hg x
  · rfl

theorem a_at_addr_timer (a : Nat) (l : List a_alarm_info) :
    a_at_addr a a_alarm_timer l = l := by
  unfold a_at_addr a_alarm_timer
  simp

theorem d_alarm_timer_type (da : d_alarm_info) :
    (d_alarm_timer da).2.2.type = mgos_alarm_type.DIGITAL := by
  unfold d_alarm_timer
  dsimp only
  split_ifs <;> rfl

theorem inv_fire (s s1 : State) (id : mgos_timer_id) (h : Inv s)
    (hf : mgos_timer_fire s id = some s1) : Inv s1 := by
  unfold mgos_timer_fire at hf
  cases ht : s.ts.pending.find? (fun t => t.id == id) with
  | none => simp [ht] at hf
  | some t =>
    simp only [ht] at hf
    by_cases hdue : s.ts.now < t.due
    · simp [hdue] at hf
    · rw [if_neg hdue] at hf
      have hsub : ∀ u ∈ (mgos_clear_timer s.ts id).pending, u ∈ s.ts.pending := by
        intro u hu
        simp only [mgos_clear_timer, List.mem_filter] at hu
        exact hu.1
      cases hcb : t.cb with
      | cb_a_alarm_timer =>
        simp only [hcb, Option.some.injEq] at hf
        subst hf
        rw [a_at_addr_timer]
        exact Inv.of_frame h (List.Sublist.refl _) (List.Sublist.refl _) h.a_nom (le_refl _)
          hsub h.next_id_pos h.d_len h.a_len h.ev_digital
      | cb_d_alarm_timer =>
        simp only [hcb] at hf
        cases hl : s.d_alarms.find? (fun da => da.addr == t.arg) with
        | some da =>
          simp only [hl, Option.some.injEq] at hf
          subst hf
          refine Inv.of_frame h ?_ (List.Sublist.refl _) h.a_nom (le_refl _)
            hsub h.next_id_pos ?_ h.a_len ?_
          · dsimp only
            rw [d_at_addr_map _ _ _ (fun x => by unfold d_alarm_timer; dsimp only; split_ifs <;> rfl)]
          · dsimp only
            rw [h.d_len]
            simp [d_at_addr]
          · intro e he
            dsimp only at he
            rcases List.mem_append.mp he with he | he
            · exact h.ev_digital e he
            · simp only [List.mem_singleton] at he
              subst he
              exact d_alarm_timer_type da
        | none =>
          simp only [hl] at hf
          cases hl2 : s.d_freed.find? (fun da => da.addr == t.arg) with
          | some da =>
            simp only [hl2, Option.some.injEq] at hf
            subst hf
            refine Inv.of_frame h (List.Sublist.refl _) (List.Sublist.refl _) h.a_nom
              (le_refl _) hsub h.next_id_pos h.d_len h.a_len ?_
            intro e he
            dsimp only at he
            rcases List.mem_append.mp he with he | he
            · exact h.ev_digital e he
            · simp only [List.mem_singleton] at he
              subst he
              exact d_alarm_timer_type da
          | none => simp [hl2] at hf

theorem inv_advance (s : State) (dt : Nat) (h : Inv s) : Inv (mgos_advance s dt) :=
  Inv.of_frame h (List.Sublist.refl _) (List.Sublist.refl _) h.a_nom (le_refl _)
    (fun _ ht => ht) h.next_id_pos h.d_len h.a_len h.ev_digital

/-- Every reachable state satisfies the invariant. -/
theorem reachable_inv {s : State} (h : Reachable s) : Inv s := by
  induction h with
  | init p s h => exact inv_init p s h
  | add_d s enabled input mode si ri name mem _ ih => exact inv_add_d s _ _ _ _ _ _ _ ih
  | add_a s enabled pv ll l hs hh si name mem _ ih => exact inv_add_a s _ _ _ _ _ _ _ _ _ ih
  | remove s name _ ih => exact inv_remove s name ih
  | disable s name _ ih => exact inv_disable s name ih
  | reset s name _ ih => exact inv_reset s name ih
  | tick s inputs pvs _ ih => exact inv_tick s inputs pvs ih
  | fire s s1 id _ hf ih => exact inv_fire s s1 id ih hf
  | advance s dt _ ih => exact inv_advance s dt ih

/-! ## Lemmas for the digital debounce -/

/-- No pending digital timer points to a linked record that stores no timer. -/
theorem no_timer_targets {s : State} (h : Inv s) (da : d_alarm_info) (hda : da ∈ s.d_alarms)
    (ht : da.timer_id = MGOS_INVALID_TIMER_ID) :
    ∀ t ∈ s.ts.pending, ¬ (t.cb = timer_cb.cb_d_alarm_timer ∧ t.arg = da.addr) := by
  intro t htm hc
  have h1 := h.d_timer t htm hc.1 da hda hc.2
  have h2 := h.t_id_pos t htm
  rw [h1, ht] at h2
  exact absurd h2 (Nat.lt_irrefl 0)

/-- An active record that still stores the identifier of its expired timer is
left alone by a poll tick that observes the input false. -/
theorem stuck_step (s : State) (h1 : s.d_alarms = [door_active]) (h2 : s.a_alarms = [])
    (h3 : s.ts.pending = []) (h4 : s.events = [door_set_event]) :
    (mgos_alarm_timer (mgos_advance s 500) in_low pv_zero).d_alarms = [door_active] ∧
    (mgos_alarm_timer (mgos_advance s 500) in_low pv_zero).a_alarms = [] ∧
    (mgos_alarm_timer (mgos_advance s 500) in_low pv_zero).ts.pending = [] ∧
    (mgos_alarm_timer (mgos_advance s 500) in_low pv_zero).events = [door_set_event] := by
  simp [mgos_alarm_timer, mgos_advance, h1, h2, h3, h4, d_alarm_loop, a_alarm_loop,
    mgos_d_alarm_logic, door_active, in_low, MGOS_INVALID_TIMER_ID]

theorem hold_low_stuck : ∀ n : Nat,
    (hold_low n sc_door_active).d_alarms = [door_active] ∧
    (hold_low n sc_door_active).a_alarms = [] ∧
    (hold_low n sc_door_active).ts.pending = [] ∧
    (hold_low n sc_door_active).events = [door_set_event] := by
  intro n
  induction n with
  | zero => exact ⟨rfl, rfl, rfl, rfl⟩
  | succ n ih => exact stuck_step _ ih.1 ih.2.1 ih.2.2.1 ih.2.2.2

theorem reachable_init_state : Reachable init_state :=
  Reachable.init 500 init_state (by decide)

theorem reachable_door_timing : Reachable sc_door_timing :=
  Reachable.tick _ _ _ (Reachable.add_d _ _ _ _ _ _ _ _ reachable_init_state)

theorem reachable_pump_added : Reachable sc_pump_added :=
  Reachable.add_d _ _ _ _ _ _ _ _ reachable_init_state

/-! ## The statements of the specification, one by one -/

/-- C1 (the code at the failing input): after the digital alarm "pump" is
registered, a call of `mgos_add_a_alarm` with the same name returns true, the
total number of registered alarms grows by one, and the listing holds two live
alarms named "pump".  The lookups by name then find the digital record only:
`mgos_disable_alarm` and `mgos_reset_alarm` with "pump" leave the analog record
as it is, and `mgos_remove_alarm` with "pump" unlinks the digital record and
leaves the analog one linked. -/
theorem C1_cross_collection_duplicate_accepted :
    Reachable sc_pump_added ∧
    "pump" ∈ sc_pump_added.d_alarms.map (fun da => da.name) ∧
    (mgos_add_a_alarm sc_pump_added true 0 (CFloat.fin 1) (CFloat.fin 2) (CFloat.fin 3)
      (CFloat.fin 4) 1000 (some "pump") true).1 = true ∧
    sc_pump_twice.d_length + sc_pump_twice.a_length =
      sc_pump_added.d_length + sc_pump_added.a_length + 1 ∧
    "pump" ∈ sc_pump_twice.d_alarms.map (fun da => da.name) ∧
    "pump" ∈ sc_pump_twice.a_alarms.map (fun aa => aa.name) ∧
    mgos_list_alarms sc_pump_twice = Except.ok (some
      { info := [{ name := "pump", enabled := true, type := mgos_alarm_type.DIGITAL,
                   state := alarm_state.d_state false },
                 { name := "pump", enabled := true, type := mgos_alarm_type.ANALOG,
                   state := alarm_state.a_state mgos_a_alarm_state.NOM }]
        length := 2
        capacity := 2 }) ∧
    (mgos_disable_alarm sc_pump_twice (some "pump")).1 = true ∧
    (mgos_disable_alarm sc_pump_twice (some "pump")).2.d_alarms.map
        (fun da => (da.name, da.enabled)) = [("pump", false)] ∧
    (mgos_disable_alarm sc_pump_twice (some "pump")).2.a_alarms = sc_pump_twice.a_alarms ∧
    (mgos_reset_alarm sc_pump_twice (some "pump")).2.a_alarms = sc_pump_twice.a_alarms ∧
    (mgos_remove_alarm sc_pump_twice (some "pump")).1 = true ∧
    (mgos_remove_alarm sc_pump_twice (some "pump")).2.d_alarms = [] ∧
    (mgos_remove_alarm sc_pump_twice (some "pump")).2.a_alarms = sc_pump_twice.a_alarms :=
  ⟨reachable_pump_added, by decide, by decide, by decide, by decide, by decide, by rfl,
   by decide, by decide, by rfl, by rfl, by decide, by decide, by rfl⟩

/-- Within one collection the name check works: in every reachable state, a
call of `mgos_add_d_alarm` with a name already in the digital list, and a call
of `mgos_add_a_alarm` with a name already in the analog list, returns false and
leaves the state as it is; and no two records of the same list share a name. -/
theorem same_collection_duplicate_rejected (s : State) (hs : Reachable s) (name : String)
    (enabled : Bool) (input pv : Nat) (mode : mgos_d_alarm_mode) (set_interval reset_interval : Int)
    (ll_sv l_sv h_sv hh_sv : CFloat) (mem : Bool) :
    (name ∈ s.d_alarms.map (fun da => da.name) →
      mgos_add_d_alarm s enabled input mode set_interval reset_interval (some name) mem =
        (false, s)) ∧
    (name ∈ s.a_alarms.map (fun aa => aa.name) →
      mgos_add_a_alarm s enabled pv ll_sv l_sv h_sv hh_sv set_interval (some name) mem =
        (false, s)) ∧
    (s.d_alarms.map (fun da => da.name)).Nodup ∧
    (s.a_alarms.map (fun aa => aa.name)).Nodup :=
  ⟨add_d_dup s enabled input mode set_interval reset_interval name mem,
   add_a_dup s enabled pv ll_sv l_sv h_sv hh_sv set_interval name mem,
   (reachable_inv hs).d_names, (reachable_inv hs).a_names⟩

/-- At the state where the digital alarm "pump" is registered, registering a
digital alarm "pump" again is refused. -/
theorem same_collection_duplicate_rejected_at_pump :
    Reachable sc_pump_added ∧
    "pump" ∈ sc_pump_added.d_alarms.map (fun da => da.name) ∧
    mgos_add_d_alarm sc_pump_added true 0 mgos_d_alarm_mode.ACTIVE_HIGH 1000 500
      (some "pump") true = (false, sc_pump_added) :=
  ⟨reachable_pump_added, by decide,
   (same_collection_duplicate_rejected sc_pump_added reachable_pump_added "pump" true 0 0
      mgos_d_alarm_mode.ACTIVE_HIGH 1000 500 NAN NAN NAN NAN true).1 (by decide)⟩

/-- C2 (the code at the failing schedule): "door" is enabled, ACTIVE_HIGH,
inactive, without timer; a tick sees the input true and 1000 ms later the set
timer expires: one set event, `active` true.  The input then falls before the
next poll tick.  However many rounds of 500 ms and a poll tick that sees the
input false follow, the record stays active, no timer is pending and the only
event ever published is the set event: no reset event. -/
theorem C2_reset_timer_never_started :
    sc_door_added.d_alarms.map (fun da => (da.enabled, da.mode, da.active, da.timer_id)) =
      [(true, mgos_d_alarm_mode.ACTIVE_HIGH, false, MGOS_INVALID_TIMER_ID)] ∧
    mgos_timer_fire sc_door_due 2 = some sc_door_active ∧
    door_active.active = true ∧
    ∀ n : Nat,
      (hold_low n sc_door_active).d_alarms = [door_active] ∧
      (hold_low n sc_door_active).ts.pending = [] ∧
      (hold_low n sc_door_active).events = [door_set_event] :=
  ⟨by decide, by decide, rfl, fun n =>
    ⟨(hold_low_stuck n).1, (hold_low_stuck n).2.2.1, (hold_low_stuck n).2.2.2⟩⟩

/-- C4 (the code at the failing input): with `ll_sv` = 5, `l_sv` unset,
`h_sv` = 3 and `hh_sv` unset the set thresholds decrease, yet
`mgos_add_a_alarm` returns true and links the record; a decrease between two
set thresholds that follow each other directly (`l_sv` = 5, `h_sv` = 3) is
refused. -/
theorem C4_decreasing_thresholds_across_unset_accepted :
    (mgos_add_a_alarm init_state true 0 (CFloat.fin 5) NAN (CFloat.fin 3) NAN 1000
      (some "tank") true).1 = true ∧
    (mgos_add_a_alarm init_state true 0 (CFloat.fin 5) NAN (CFloat.fin 3) NAN 1000
      (some "tank") true).2.a_alarms.map
        (fun aa => (aa.name, aa.ll_sv, aa.l_sv, aa.h_sv, aa.hh_sv)) =
      [("tank", CFloat.fin 5, NAN, CFloat.fin 3, NAN)] ∧
    (mgos_add_a_alarm init_state true 0 (CFloat.fin 5) NAN (CFloat.fin 3) NAN 1000
      (some "tank") true).2.a_length = 1 ∧
    (mgos_add_a_alarm init_state true 0 (CFloat.fin 1) (CFloat.fin 5) (CFloat.fin 3)
      (CFloat.fin 9) 1000 (some "tank") true).1 = false :=
  ⟨by decide, by decide, by decide, by decide⟩

/-- C5 (the code at the failing input): the comparison `tf == NAN` is false for
every `tf`, so the all-unset check never fires: with the four thresholds NaN
`mgos_add_a_alarm` returns true and links the record. -/
theorem C5_all_unset_thresholds_accepted :
    (∀ tf : CFloat, CFloat.eq tf NAN = false) ∧
    (mgos_add_a_alarm init_state true 0 NAN NAN NAN NAN 1000 (some "tank") true).1 = true ∧
    (mgos_add_a_alarm init_state true 0 NAN NAN NAN NAN 1000 (some "tank") true).2.a_alarms.map
        (fun aa => (aa.name, aa.ll_sv, aa.l_sv, aa.h_sv, aa.hh_sv)) =
      [("tank", NAN, NAN, NAN, NAN)] ∧
    (mgos_add_a_alarm init_state true 0 NAN NAN NAN NAN 1000 (some "tank") true).2.a_length = 1 :=
  ⟨fun tf => by cases tf <;> rfl, by decide, by decide, by decide⟩

/-- C6 (the code at the failing input): "tank" has the thresholds 0.2, 0.3,
0.4, 0.5 and `set_interval` 1000 ms.  The value 0.45 is seen by three poll
ticks over 1000 ms: one timer (identifier 2) is set.  When it expires the state
is still NOM and no event is published.  After a tick that sees 0.1, 1000 ms
and the expiry of the two timers that tick has set, the state is still NOM and
still no event has been published. -/
theorem C6_analog_expiry_confirms_nothing :
    sc_tank_added.a_alarms.map (fun aa => (aa.enabled, aa.state, aa.set_interval)) =
      [(true, mgos_a_alarm_state.NOM, 1000)] ∧
    sc_tank_high.ts.pending =
      [{ id := 2, due := 1000, cb := timer_cb.cb_a_alarm_timer, arg := 1 }] ∧
    sc_tank_high.ts.now = 1000 ∧
    (mgos_timer_fire sc_tank_high 2).map
        (fun s => (s.a_alarms.map (fun aa => aa.state), s.events)) =
      some ([mgos_a_alarm_state.NOM], []) ∧
    sc_tank_low.map
        (fun s => (s.a_alarms.map (fun aa => aa.state), s.events, s.ts.pending)) =
      some ([mgos_a_alarm_state.NOM], [], []) :=
  ⟨by decide!, by decide!, by decide!, by decide!, by decide!⟩

/-- C7 (the code at the failing input): the record with `h_sv` = 0.4 and the
other thresholds unset is what `mgos_add_a_alarm` links; at the value 0.45 the
raw band of the specification is H, but `mgos_a_alarm_logic` takes no branch:
the record is left as it is and no timer is set. -/
theorem C7_h_band_not_acted_on_when_hh_unset :
    (mgos_add_a_alarm init_state true 0 NAN NAN (CFloat.fin (4 / 10)) NAN 1000
      (some "tank") true).2.a_alarms = [tank_h_only] ∧
    raw_band_spec tank_h_only.ll_sv tank_h_only.l_sv tank_h_only.h_sv tank_h_only.hh_sv
      (CFloat.fin (45 / 100)) = mgos_a_alarm_state.H ∧
    tank_h_only.state = mgos_a_alarm_state.NOM ∧
    ∀ ts : timer_service,
      mgos_a_alarm_logic tank_h_only (CFloat.fin (45 / 100)) ts = (tank_h_only, ts) :=
  ⟨by decide!, by decide!, rfl, fun ts => by
    simp [mgos_a_alarm_logic, tank_h_only, CFloat.lt, CFloat.le, CFloat.ge, CFloat.gt, NAN]⟩

/-- C8 (the code at the failing input): "door" is removed while its set timer
(identifier 2) is pending.  `mgos_remove_alarm` returns true and the listing is
empty, but the timer is still pending, pointing to the freed block; when it
expires, a set event named "door" is published. -/
theorem C8_timer_of_removed_alarm_fires :
    sc_door_timing.ts.pending =
      [{ id := 2, due := 1000, cb := timer_cb.cb_d_alarm_timer, arg := 1 }] ∧
    (mgos_remove_alarm sc_door_timing (some "door")).1 = true ∧
    sc_door_removed.d_alarms = [] ∧
    sc_door_removed.d_freed.map (fun da => da.addr) = [1] ∧
    mgos_list_alarms sc_door_removed =
      Except.ok (some { info := [], length := 0, capacity := 0 }) ∧
    sc_door_removed.ts.pending =
      [{ id := 2, due := 1000, cb := timer_cb.cb_d_alarm_timer, arg := 1 }] ∧
    (mgos_timer_fire (mgos_advance sc_door_removed 1000) 2).map (fun s => s.events) =
      some [door_set_event] :=
  ⟨by decide, by decide, by decide, by decide, by rfl, by decide, by decide⟩

/-- C9 (the code at the failing input): "door" is disabled while its set timer
(identifier 2) is pending.  `mgos_disable_alarm` returns true and leaves the
record disabled and inactive, but the timer stays pending; when it expires the
disabled record becomes active and a set event is published. -/
theorem C9_timer_of_disabled_alarm_fires :
    (mgos_disable_alarm sc_door_timing (some "door")).1 = true ∧
    sc_door_disabled.d_alarms.map (fun da => (da.name, da.enabled, da.active)) =
      [("door", false, false)] ∧
    sc_door_disabled.ts.pending =
      [{ id := 2, due := 1000, cb := timer_cb.cb_d_alarm_timer, arg := 1 }] ∧
    (mgos_timer_fire (mgos_advance sc_door_disabled 1000) 2).map
        (fun s => (s.d_alarms.map (fun da => (da.name, da.enabled, da.active)), s.events)) =
      some ([("door", false, true)],
        [(mgos_alarm_event.MGOS_ALARM_EV_SET,
          { name := "door", enabled := false, type := mgos_alarm_type.DIGITAL,
            state := alarm_state.d_state true })]) :=
  ⟨by decide, by decide, by decide, by decide⟩

/-- C10: whenever `mgos_add_d_alarm` or `mgos_add_a_alarm` returns false, both
collections are those before the call (same records, same order, same length
counters); and the call returns false for the empty name, for a name already
in the list the call adds to, and when the threshold loop rejects. -/
theorem C10_failed_add_leaves_collections (s : State) (enabled : Bool) (input pv : Nat)
    (mode : mgos_d_alarm_mode) (set_interval reset_interval : Int)
    (ll_sv l_sv h_sv hh_sv : CFloat) (name : Option String) (mem : Bool) :
    ((mgos_add_d_alarm s enabled input mode set_interval reset_interval name mem).1 = false →
      same_collections s
        (mgos_add_d_alarm s enabled input mode set_interval reset_interval name mem).2) ∧
    ((mgos_add_a_alarm s enabled pv ll_sv l_sv h_sv hh_sv set_interval name mem).1 = false →
      same_collections s
        (mgos_add_a_alarm s enabled pv ll_sv l_sv h_sv hh_sv set_interval name mem).2) ∧
    (mgos_add_d_alarm s enabled input mode set_interval reset_interval (some "") mem).1 = false ∧
    (mgos_add_a_alarm s enabled pv ll_sv l_sv h_sv hh_sv set_interval (some "") mem).1 = false ∧
    (∀ n : String, n ∈ s.d_alarms.map (fun da => da.name) →
      (mgos_add_d_alarm s enabled input mode set_interval reset_interval (some n) mem).1 =
        false) ∧
    (∀ n : String, n ∈ s.a_alarms.map (fun aa => aa.name) →
      (mgos_add_a_alarm s enabled pv ll_sv l_sv h_sv hh_sv set_interval (some n) mem).1 =
        false) ∧
    (sv_loop ll_sv [l_sv, h_sv, hh_sv] = none →
      (mgos_add_a_alarm s enabled pv ll_sv l_sv h_sv hh_sv set_interval name mem).1 = false) := by
  refine ⟨?_, add_a_false_same s enabled pv ll_sv l_sv h_sv hh_sv set_interval name mem,
    rfl, rfl, ?_, ?_, add_a_sv_rejected s enabled pv ll_sv l_sv h_sv hh_sv set_interval name mem⟩
  · intro h
    rw [add_d_false_same s enabled input mode set_interval reset_interval name mem h]
    exact ⟨rfl, rfl, rfl, rfl⟩
  · intro n hn
    rw [add_d_dup s enabled input mode set_interval reset_interval n mem hn]
  · intro n hn
    rw [add_a_dup s enabled pv ll_sv l_sv h_sv hh_sv set_interval n mem hn]

/-- C10, at the state where the digital alarm "pump" is registered: adding a
digital alarm "pump" again returns false and both collections are unchanged. -/
theorem C10_failed_add_leaves_collections_witness :
    (mgos_add_d_alarm sc_pump_added true 0 mgos_d_alarm_mode.ACTIVE_HIGH 1000 500
      (some "pump") true).1 = false ∧
    same_collections sc_pump_added
      (mgos_add_d_alarm sc_pump_added true 0 mgos_d_alarm_mode.ACTIVE_HIGH 1000 500
        (some "pump") true).2 :=
  ⟨by decide,
   (C10_failed_add_leaves_collections sc_pump_added true 0 0 mgos_d_alarm_mode.ACTIVE_HIGH
      1000 500 NAN NAN NAN NAN (some "pump") true).1 (by decide)⟩

/-! ## Lemmas on listing -/

/-- The listing loop appends the entries when the array has room for them. -/
theorem list_loop_ok : ∀ (es : List alarm_info) (al : alarm_list),
    (al.length : Int) + es.length ≤ al.capacity →
    list_loop al es =
      Except.ok { al with info := al.info ++ es, length := al.length + es.length } := by
  intro es
  induction es with
  | nil => intro al _; simp [list_loop]
  | cons e rest ih =>
    intro al h
    have h1 : (al.length : Int) < al.capacity := by
      simp only [List.length_cons, Nat.cast_add, Nat.cast_one] at h
      omega
    simp only [list_loop, list_write, if_pos h1]
    rw [ih]
    · simp [Nat.add_comm, Nat.add_left_comm, Nat.add_assoc]
    · simp only [List.length_cons, Nat.cast_add, Nat.cast_one] at h ⊢
      omega

/-- When the length counters count the linked records, the listing is the
digital entries followed by the analog entries. -/
theorem list_alarms_of_len (s : State) (hd : s.d_length = s.d_alarms.length)
    (ha : s.a_length = s.a_alarms.length) :
    mgos_list_alarms s =
      Except.ok (some
        { info := s.d_alarms.map d_entry ++ s.a_alarms.map a_entry
          length := s.d_alarms.length + s.a_alarms.length
          capacity := s.a_length + s.d_length }) := by
  unfold mgos_list_alarms
  dsimp only
  rw [list_loop_ok]
  · dsimp only
    rw [list_loop_ok]
    · simp
    · simp only [List.length_map, hd, ha]
      push_cast
      omega
  · simp only [List.length_map, hd, ha]
    push_cast
    omega

/-- The pointer returned by the listing is never `NULL`. -/
theorem list_alarms_not_null (s : State) : mgos_list_alarms s ≠ Except.ok none := by
  unfold mgos_list_alarms
  dsimp only
  cases list_loop { info := [], length := 0, capacity := s.a_length + s.d_length }
      (s.d_alarms.map d_entry) with
  | error f => simp
  | ok al1 =>
    dsimp only
    cases list_loop al1 (s.a_alarms.map a_entry) with
    | error f => simp
    | ok al2 => simp

/-- What a successful `mgos_add_d_alarm` has done. -/
theorem add_d_true (s : State) (enabled : Bool) (input : Nat) (mode : mgos_d_alarm_mode)
    (si ri : Int) (name : Option String) (mem : Bool)
    (h : (mgos_add_d_alarm s enabled input mode si ri name mem).1 = true) :
    ∃ n : String, name = some n ∧ n ≠ "" ∧ n ∉ s.d_alarms.map (fun da => da.name) ∧
      (mgos_add_d_alarm s enabled input mode si ri name mem).2 =
        { s with
          next_addr := s.next_addr + 1
          d_length := s.d_length + 1
          d_alarms :=
            { active := false
              enabled := enabled
              input := input
              mode := mode
              set_interval := if si < 0 then 0 else si
              reset_interval := if ri < 0 then 0 else ri
              name := n
              timer_id := MGOS_INVALID_TIMER_ID
              addr := s.next_addr } :: s.d_alarms } := by
  unfold mgos_add_d_alarm at h ⊢
  cases name with
  | none => simp at h
  | some n =>
    dsimp only at h ⊢
    by_cases h1 : n = ""
    · simp [h1] at h
    · rw [if_neg h1] at h ⊢
      by_cases h2 : (!mem) = true
      · simp [h2] at h
      · rw [if_neg h2] at h ⊢
        by_cases h3 : s.d_alarms.any (fun da => n == da.name) = true
        · simp [h3] at h
        · rw [if_neg h3]
          exact ⟨n, rfl, h1, not_mem_names_of_any_false_d h3, rfl⟩

/-- What a successful `mgos_add_a_alarm` has done. -/
theorem add_a_true (s : State) (enabled : Bool) (pv : Nat) (ll l hs hh : CFloat)
    (si : Int) (name : Option String) (mem : Bool)
    (h : (mgos_add_a_alarm s enabled pv ll l hs hh si name mem).1 = true) :
    ∃ n : String, name = some n ∧ n ≠ "" ∧ n ∉ s.a_alarms.map (fun aa => aa.name) ∧
      (mgos_add_a_alarm s enabled pv ll l hs hh si name mem).2 =
        { s with
          next_addr := s.next_addr + 1
          a_length := s.a_length + 1
          a_alarms :=
            { enabled := enabled
              state := mgos_a_alarm_state.NOM
              pv := pv
              ll_sv := ll
              l_sv := l
              h_sv := hs
              hh_sv := hh
              set_interval := if si < 0 then 0 else si
              name := n
              up_timer_id := MGOS_INVALID_TIMER_ID
              down_timer_id := MGOS_INVALID_TIMER_ID
              addr := s.next_addr } :: s.a_alarms } := by
  unfold mgos_add_a_alarm at h ⊢
  cases name with
  | none => simp at h
  | some n =>
    dsimp only at h ⊢
    by_cases h1 : n = ""
    · simp [h1] at h
    · rw [if_neg h1] at h ⊢
      by_cases h2 : (!mem) = true
      · simp [h2] at h
      · rw [if_neg h2] at h ⊢
        by_cases h3 : s.a_alarms.any (fun aa => n == aa.name) = true
        · simp [h3] at h
        · rw [if_neg h3] at h ⊢
          cases hsv : sv_loop ll [l, hs, hh] with
          | none => simp [hsv] at h
          | some tf =>
            simp only [hsv] at h ⊢
            by_cases h4 : CFloat.eq tf NAN = true
            · simp [h4] at h
            · rw [if_neg h4]
              exact ⟨n, rfl, h1, not_mem_names_of_any_false_a h3, rfl⟩
theorem reachable_valve_analog : Reachable sc_valve_analog :=
  Reachable.add_a _ _ _ _ _ _ _ _ _ _ reachable_init_state

/-- Among the digital entries of a list whose names differ from `n`, followed
by analog entries, no entry is a digital entry named `n`. -/
theorem filter_digital_entries (n : String) (ds : List d_alarm_info) (as : List a_alarm_info)
    (hn : n ∉ ds.map (fun da => da.name)) :
    (ds.map d_entry ++ as.map a_entry).filter
      (fun e => decide (e.name = n ∧ e.type = mgos_alarm_type.DIGITAL)) = [] := by
  rw [List.filter_eq_nil_iff]
  intro e he
  simp only [List.mem_append, List.mem_map] at he
  rcases he with ⟨da, hda, rfl⟩ | ⟨aa, _, rfl⟩
  · simp only [d_entry, decide_eq_true_eq, not_and]
    intro hname
    exfalso
    exact hn (by rw [← hname]; exact List.mem_map_of_mem (fun da => da.name) hda)
  · simp [a_entry]

/-- Among digital entries, followed by the analog entries of a list whose
names differ from `n`, no entry is an analog entry named `n`. -/
theorem filter_analog_entries (n : String) (ds : List d_alarm_info) (as : List a_alarm_info)
    (hn : n ∉ as.map (fun aa => aa.name)) :
    (ds.map d_entry ++ as.map a_entry).filter
      (fun e => decide (e.name = n ∧ e.type = mgos_alarm_type.ANALOG)) = [] := by
  rw [List.filter_eq_nil_iff]
  intro e he
  simp only [List.mem_append, List.mem_map] at he
  rcases he with ⟨da, _, rfl⟩ | ⟨aa, haa, rfl⟩
  · simp [d_entry]
  · simp only [a_entry, decide_eq_true_eq, not_and]
    intro hname
    exfalso
    exact hn (by rw [← hname]; exact List.mem_map_of_mem (fun aa => aa.name) haa)

/-- No entry of the listing is named `n` when no record is. -/
theorem filter_name_entries (n : String) (ds : List d_alarm_info) (as : List a_alarm_info)
    (hd : n ∉ ds.map (fun da => da.name)) (ha : n ∉ as.map (fun aa => aa.name)) :
    (ds.map d_entry ++ as.map a_entry).filter (fun e => decide (e.name = n)) = [] := by
  rw [List.filter_eq_nil_iff]
  intro e he
  simp only [List.mem_append, List.mem_map] at he
  rcases he with ⟨da, hda, rfl⟩ | ⟨aa, haa, rfl⟩
  · simp only [d_entry, decide_eq_true_eq]
    intro hname
    exfalso
    exact hd (by rw [← hname]; exact List.mem_map_of_mem (fun da => da.name) hda)
  · simp only [a_entry, decide_eq_true_eq]
    intro hname
    exfalso
    exact ha (by rw [← hname]; exact List.mem_map_of_mem (fun aa => aa.name) haa)
/-! ## Lemmas on the lookups by name -/

/-- The record unlinked by `remove_first` is the first one satisfying `p`. -/
theorem remove_first_split {α : Type} (p : α → Bool) :
    ∀ (l : List α) (x : α) (r : List α), remove_first p l = some (x, r) →
      ∃ pre post, l = pre ++ x :: post ∧ r = pre ++ post ∧ p x = true ∧
        ∀ y ∈ pre, p y = false := by
  intro l
  induction l with
  | nil => intro x r h; simp [remove_first] at h
  | cons y ys ih =>
    intro x r h
    unfold remove_first at h
    by_cases hp : p y = true
    · simp only [hp, if_true, Option.some.injEq, Prod.mk.injEq] at h
      obtain ⟨hyx, hr⟩ := h
      subst hyx
      subst hr
      exact ⟨[], ys, rfl, rfl, hp, by simp⟩
    · rw [if_neg hp] at h
      cases hr : remove_first p ys with
      | none => simp [hr] at h
      | some q =>
        obtain ⟨z, zs⟩ := q
        obtain ⟨pre, post, h1, h2, h3, h4⟩ := ih z zs hr
        simp only [hr, Option.some.injEq, Prod.mk.injEq] at h
        obtain ⟨hzx, hr2⟩ := h
        subst hzx
        subst hr2
        refine ⟨y :: pre, post, by simp [h1], by simp [h2], h3, ?_⟩
        intro w hw
        rcases List.mem_cons.mp hw with rfl | hw
        · simpa using hp
        · exact h4 w hw

/-- A record satisfying `p` makes `remove_first` succeed. -/
theorem remove_first_isSome {α : Type} (p : α → Bool) (l : List α) (x : α) (hx : x ∈ l)
    (hp : p x = true) : ∃ q, remove_first p l = some q := by
  cases h : remove_first p l with
  | some q => exact ⟨q, rfl⟩
  | none =>
    have := remove_first_none p l h x hx
    rw [hp] at this
    exact absurd this (by decide)

/-- The record overwritten by `update_first` is the first one satisfying `p`. -/
theorem update_first_split {α : Type} (p : α → Bool) (f : α → α) :
    ∀ (l l1 : List α), update_first p f l = some l1 →
      ∃ pre x post, l = pre ++ x :: post ∧ l1 = pre ++ f x :: post ∧ p x = true ∧
        ∀ y ∈ pre, p y = false := by
  intro l
  induction l with
  | nil => intro l1 h; simp [update_first] at h
  | cons y ys ih =>
    intro l1 h
    unfold update_first at h
    by_cases hp : p y = true
    · simp only [hp, if_true, Option.some.injEq] at h
      subst h
      exact ⟨[], y, ys, rfl, rfl, hp, by simp⟩
    · rw [if_neg hp] at h
      cases hr : update_first p f ys with
      | none => simp [hr] at h
      | some zs =>
        obtain ⟨pre, x, post, h1, h2, h3, h4⟩ := ih zs hr
        simp only [hr, Option.some.injEq] at h
        subst h
        refine ⟨y :: pre, x, post, by simp [h1], by simp [h2], h3, ?_⟩
        intro w hw
        rcases List.mem_cons.mp hw with rfl | hw
        · simpa using hp
        · exact h4 w hw

/-- `update_first` on a list split at its first record satisfying `p`. -/
theorem update_first_append {α : Type} (p : α → Bool) (f : α → α) :
    ∀ (pre : List α) (x : α) (post : List α), (∀ y ∈ pre, p y = false) → p x = true →
      update_first p f (pre ++ x :: post) = some (pre ++ f x :: post) := by
  intro pre
  induction pre with
  | nil => intro x post _ hp; simp [update_first, hp]
  | cons y ys ih =>
    intro x post hpre hp
    have hy : p y = false := hpre y (by simp)
    have := ih x post (fun w hw => hpre w (List.mem_cons_of_mem _ hw)) hp
    simp [update_first, hy, this]

/-- A record satisfying `p` makes `update_first` succeed. -/
theorem update_first_isSome {α : Type} (p : α → Bool) (f : α → α) (l : List α) (x : α)
    (hx : x ∈ l) (hp : p x = true) : ∃ l1, update_first p f l = some l1 := by
  cases h : update_first p f l with
  | some q => exact ⟨q, rfl⟩
  | none =>
    have := update_first_none p f l h x hx
    rw [hp] at this
    exact absurd this (by decide)

/-- Membership of a name among the names of the digital records, in terms of
the test the lookups use. -/
theorem mem_d_names_iff (n : String) (l : List d_alarm_info) :
    n ∈ l.map (fun da => da.name) ↔ ∃ x ∈ l, (n == x.name) = true := by
  simp only [List.mem_map, beq_iff_eq]
  constructor
  · rintro ⟨x, hx, rfl⟩; exact ⟨x, hx, rfl⟩
  · rintro ⟨x, hx, h⟩; exact ⟨x, hx, h.symm⟩

/-- Membership of a name among the names of the analog records, in terms of
the test the lookups use. -/
theorem mem_a_names_iff (n : String) (l : List a_alarm_info) :
    n ∈ l.map (fun aa => aa.name) ↔ ∃ x ∈ l, (n == x.name) = true := by
  simp only [List.mem_map, beq_iff_eq]
  constructor
  · rintro ⟨x, hx, rfl⟩; exact ⟨x, hx, rfl⟩
  · rintro ⟨x, hx, h⟩; exact ⟨x, hx, h.symm⟩
theorem not_mem_d_names_of_none (n : String) (l : List d_alarm_info)
    (h : ∀ x ∈ l, (n == x.name) = false) : n ∉ l.map (fun da => da.name) := by
  rw [mem_d_names_iff]
  rintro ⟨x, hx, hp⟩
  rw [h x hx] at hp
  exact absurd hp (by decide)

theorem not_mem_a_names_of_none (n : String) (l : List a_alarm_info)
    (h : ∀ x ∈ l, (n == x.name) = false) : n ∉ l.map (fun aa => aa.name) := by
  rw [mem_a_names_iff]
  rintro ⟨x, hx, hp⟩
  rw [h x hx] at hp
  exact absurd hp (by decide)

/-- The lookup shared by `mgos_disable_alarm` and `mgos_reset_alarm`: the
first digital record with the name is overwritten, else the first analog one;
the result is true exactly when the name is in one of the lists, and nothing
else changes. -/
theorem update_lookup_spec (s : State) (n : String) (fd : d_alarm_info → d_alarm_info)
    (fa : a_alarm_info → a_alarm_info) (r : Bool × State)
    (hr : r =
      match update_first (fun (da : d_alarm_info) => n == da.name) fd s.d_alarms with
      | some l => (true, { s with d_alarms := l })
      | none =>
        match update_first (fun (aa : a_alarm_info) => n == aa.name) fa s.a_alarms with
        | some l => (true, { s with a_alarms := l })
        | none => (false, s)) :
    (r.1 = true ↔
      (n ∈ s.d_alarms.map (fun da => da.name) ∨ n ∈ s.a_alarms.map (fun aa => aa.name))) ∧
    (r.1 = true →
      (∃ pre x post, s.d_alarms = pre ++ x :: post ∧ x.name = n ∧ (∀ y ∈ pre, y.name ≠ n) ∧
        r.2 = { s with d_alarms := pre ++ fd x :: post }) ∨
      (n ∉ s.d_alarms.map (fun da => da.name) ∧
        ∃ pre x post, s.a_alarms = pre ++ x :: post ∧ x.name = n ∧ (∀ y ∈ pre, y.name ≠ n) ∧
          r.2 = { s with a_alarms := pre ++ fa x :: post })) ∧
    (r.1 = false → r.2 = s) := by
  cases hd : update_first (fun (da : d_alarm_info) => n == da.name) fd s.d_alarms with
  | some l =>
    rw [hd] at hr
    subst hr
    obtain ⟨pre, x, post, h1, h2, h3, h4⟩ := update_first_split _ _ _ _ hd
    have hx : x.name = n := (beq_iff_eq.mp h3).symm
    refine ⟨⟨fun _ => Or.inl ?_, fun _ => rfl⟩, fun _ => Or.inl ⟨pre, x, post, h1, hx, ?_, ?_⟩,
      fun h => by simp at h⟩
    · rw [mem_d_names_iff]
      exact ⟨x, by rw [h1]; simp, h3⟩
    · intro y hy hyn
      have := h4 y hy
      simp [hyn] at this
    · rw [h2]
  | none =>
    rw [hd] at hr
    have hnd := not_mem_d_names_of_none n _ (update_first_none _ _ _ hd)
    cases ha : update_first (fun (aa : a_alarm_info) => n == aa.name) fa s.a_alarms with
    | some l =>
      rw [ha] at hr
      subst hr
      obtain ⟨pre, x, post, h1, h2, h3, h4⟩ := update_first_split _ _ _ _ ha
      have hx : x.name = n := (beq_iff_eq.mp h3).symm
      refine ⟨⟨fun _ => Or.inr ?_, fun _ => rfl⟩,
        fun _ => Or.inr ⟨hnd, pre, x, post, h1, hx, ?_, ?_⟩, fun h => by simp at h⟩
      · rw [mem_a_names_iff]
        exact ⟨x, by rw [h1]; simp, h3⟩
      · intro y hy hyn
        have := h4 y hy
        simp [hyn] at this
      · rw [h2]
    | none =>
      rw [ha] at hr
      subst hr
      have hna := not_mem_a_names_of_none n _ (update_first_none _ _ _ ha)
      refine ⟨⟨fun h => by simp at h, fun h => ?_⟩, fun h => by simp at h, fun _ => rfl⟩
      rcases h with h | h
      · exact absurd h hnd
      · exact absurd h hna
/-- `update_first` finds nothing when no record satisfies `p`. -/
theorem update_first_eq_none {α : Type} (p : α → Bool) (f : α → α) (l : List α)
    (h : ∀ x ∈ l, p x = false) : update_first p f l = none := by
  cases hu : update_first p f l with
  | none => rfl
  | some l1 =>
    obtain ⟨pre, x, post, h1, _, h3, _⟩ := update_first_split p f l l1 hu
    have := h x (by rw [h1]; simp)
    rw [h3] at this
    exact absurd this (by decide)

theorem name_test_false_of_not_mem_d (n : String) (l : List d_alarm_info)
    (h : n ∉ l.map (fun da => da.name)) : ∀ x ∈ l, (n == x.name) = false := by
  intro x hx
  cases hb : (n == x.name) with
  | false => rfl
  | true => exact absurd ((mem_d_names_iff n l).mpr ⟨x, hx, hb⟩) h

theorem name_test_false_of_ne_d (n : String) (pre : List d_alarm_info)
    (h : ∀ y ∈ pre, y.name ≠ n) : ∀ y ∈ pre, (n == y.name) = false := by
  intro y hy
  cases hb : (n == y.name) with
  | false => rfl
  | true => exact absurd (beq_iff_eq.mp hb).symm (h y hy)

theorem name_test_false_of_ne_a (n : String) (pre : List a_alarm_info)
    (h : ∀ y ∈ pre, y.name ≠ n) : ∀ y ∈ pre, (n == y.name) = false := by
  intro y hy
  cases hb : (n == y.name) with
  | false => rfl
  | true => exact absurd (beq_iff_eq.mp hb).symm (h y hy)
/-! ## Lemmas on the timer service -/

theorem ts_wf_set (ts : timer_service) (msecs : Int) (cb : timer_cb) (arg : Nat)
    (h : ts_wf ts) : ts_wf (mgos_set_timer ts msecs cb arg).2 := by
  obtain ⟨h1, h2, h3⟩ := h
  refine ⟨?_, ?_, ?_⟩
  · intro t ht
    simp only [mgos_set_timer, List.mem_append, List.mem_singleton] at ht ⊢
    rcases ht with ht | rfl
    · have := h1 t ht
      unfold mgos_timer_id at *
      omega
    · dsimp only
      unfold mgos_timer_id at *
      omega
  · simp only [mgos_set_timer, List.map_append, List.map_cons, List.map_nil]
    rw [List.nodup_append]
    refine ⟨h2, by simp, ?_⟩
    intro a ha hb
    simp only [List.mem_singleton] at hb
    simp only [List.mem_map] at ha
    obtain ⟨t, ht, rfl⟩ := ha
    have := (h1 t ht).2
    unfold mgos_timer_id at *
    omega
  · simp only [mgos_set_timer]
    unfold mgos_timer_id at *
    omega

theorem ts_wf_clear (ts : timer_service) (id : mgos_timer_id) (h : ts_wf ts) :
    ts_wf (mgos_clear_timer ts id) := by
  obtain ⟨h1, h2, h3⟩ := h
  refine ⟨?_, ?_, h3⟩
  · intro t ht
    simp only [mgos_clear_timer, List.mem_filter] at ht
    exact h1 t ht.1
  · simp only [mgos_clear_timer]
    exact h2.sublist ((List.filter_sublist _).map _)

/-- A bystander keeps owning its timer when a timer is set. -/
theorem d_owns_set (x : d_alarm_info) (ts : timer_service) (msecs : Int) (cb : timer_cb)
    (arg : Nat) (h : d_owns x ts) : d_owns x (mgos_set_timer ts msecs cb arg).2 := by
  obtain ⟨h1, h2⟩ := h
  refine ⟨?_, ?_⟩
  · simp only [mgos_set_timer]
    unfold mgos_timer_id at *
    omega
  · intro t ht hid
    simp only [mgos_set_timer, List.mem_append, List.mem_singleton] at ht
    rcases ht with ht | rfl
    · exact h2 t ht hid
    · dsimp only at hid
      unfold mgos_timer_id at *
      omega

/-- A bystander keeps owning its timer when a timer is cleared. -/
theorem d_owns_clear (x : d_alarm_info) (ts : timer_service) (id : mgos_timer_id)
    (h : d_owns x ts) : d_owns x (mgos_clear_timer ts id) := by
  obtain ⟨h1, h2⟩ := h
  refine ⟨h1, ?_⟩
  intro t ht hid
  simp only [mgos_clear_timer, List.mem_filter] at ht
  exact h2 t ht.1 hid

/-- One evaluation of the digital logic keeps the timer service well formed,
leaves the ownership of every bystander, and makes the evaluated record own
its timer. -/
theorem d_logic_owns (da : d_alarm_info) (inp : Bool) (ts : timer_service)
    (hts : ts_wf ts) :
    ts_wf (mgos_d_alarm_logic da inp ts).2 ∧
    (∀ x : d_alarm_info, d_owns x ts → d_owns x (mgos_d_alarm_logic da inp ts).2) ∧
    (d_owns da ts → d_owns (mgos_d_alarm_logic da inp ts).1 (mgos_d_alarm_logic da inp ts).2) := by
  rcases d_logic_cases da inp ts with h | ⟨_, h⟩ | ⟨_, msecs, h⟩
  · rw [h]
    exact ⟨hts, fun _ hx => hx, fun hd => hd⟩
  · rw [h]
    refine ⟨ts_wf_clear ts _ hts, fun x hx => d_owns_clear x ts _ hx, fun _ => ⟨hts.2.2, ?_⟩⟩
    intro t ht hid
    simp only [mgos_clear_timer, List.mem_filter] at ht
    have := (hts.1 t ht.1).1
    dsimp only at hid
    unfold mgos_timer_id at *
    omega
  · rw [h]
    refine ⟨ts_wf_set ts _ _ _ hts, fun x hx => d_owns_set x ts _ _ _ hx, fun _ => ⟨?_, ?_⟩⟩
    · simp only [mgos_set_timer]
      unfold mgos_timer_id at *
      omega
    · intro t ht hid
      simp only [mgos_set_timer, List.mem_append, List.mem_singleton] at ht
      rcases ht with ht | rfl
      · have := (hts.1 t ht).2
        dsimp only at hid
        unfold mgos_timer_id at *
        omega
      · exact ⟨rfl, rfl⟩
/-- The timer service after one evaluation of the analog logic: nothing, one or
two analog timers pointing to the record have been set. -/
theorem a_logic_ts_cases (aa : a_alarm_info) (pv : CFloat) (ts : timer_service) :
    (mgos_a_alarm_logic aa pv ts).2 = ts ∨
    (∃ m : Int, (mgos_a_alarm_logic aa pv ts).2 =
      (mgos_set_timer ts m timer_cb.cb_a_alarm_timer aa.addr).2) ∨
    (∃ m m1 : Int, (mgos_a_alarm_logic aa pv ts).2 =
      (mgos_set_timer (mgos_set_timer ts m timer_cb.cb_a_alarm_timer aa.addr).2 m1
        timer_cb.cb_a_alarm_timer aa.addr).2) := by
  unfold mgos_a_alarm_logic a_branch_down
  dsimp only
  split_ifs <;>
    first
      | (left; rfl)
      | (right; left; exact ⟨_, rfl⟩)
      | (right; right; exact ⟨_, _, rfl⟩)

/-- Setting a timer changes the pending timers only by a timer with the given
callback and argument. -/
theorem set_timer_frame (ts : timer_service) (msecs : Int) (cb : timer_cb) (arg : Nat)
    (t : timer) (h : ¬ (t.cb = cb ∧ t.arg = arg)) :
    t ∈ (mgos_set_timer ts msecs cb arg).2.pending ↔ t ∈ ts.pending := by
  simp only [mgos_set_timer, List.mem_append, List.mem_singleton]
  constructor
  · rintro (ht | rfl)
    · exact ht
    · exact absurd ⟨rfl, rfl⟩ h
  · intro ht
    exact Or.inl ht

/-- One evaluation of the analog logic keeps the timer service well formed,
leaves the ownership of every digital record, and changes the pending timers
only by analog timers pointing to the record. -/
theorem a_logic_owns (aa : a_alarm_info) (pv : CFloat) (ts : timer_service) (hts : ts_wf ts) :
    ts_wf (mgos_a_alarm_logic aa pv ts).2 ∧
    (∀ x : d_alarm_info, d_owns x ts → d_owns x (mgos_a_alarm_logic aa pv ts).2) ∧
    (∀ t : timer, ¬ (t.cb = timer_cb.cb_a_alarm_timer ∧ t.arg = aa.addr) →
      (t ∈ (mgos_a_alarm_logic aa pv ts).2.pending ↔ t ∈ ts.pending)) := by
  rcases a_logic_ts_cases aa pv ts with h | ⟨m, h⟩ | ⟨m, m1, h⟩
  · rw [h]
    exact ⟨hts, fun _ hx => hx, fun _ _ => Iff.rfl⟩
  · rw [h]
    exact ⟨ts_wf_set ts _ _ _ hts, fun x hx => d_owns_set x ts _ _ _ hx,
      fun t ht => set_timer_frame ts _ _ _ t ht⟩
  · rw [h]
    exact ⟨ts_wf_set _ _ _ _ (ts_wf_set ts _ _ _ hts),
      fun x hx => d_owns_set x _ _ _ _ (d_owns_set x ts _ _ _ hx),
      fun t ht => (set_timer_frame _ _ _ _ t ht).trans (set_timer_frame ts _ _ _ t ht)⟩

/-- One evaluation of the digital logic changes the pending timers only by
digital timers pointing to the record. -/
theorem d_logic_frame (da : d_alarm_info) (inp : Bool) (ts : timer_service)
    (hown : d_owns da ts) (t : timer)
    (ht : ¬ (t.cb = timer_cb.cb_d_alarm_timer ∧ t.arg = da.addr)) :
    t ∈ (mgos_d_alarm_logic da inp ts).2.pending ↔ t ∈ ts.pending := by
  rcases d_logic_cases da inp ts with h | ⟨_, h⟩ | ⟨_, msecs, h⟩
  · rw [h]
  · rw [h]
    simp only [mgos_clear_timer, List.mem_filter, bne_iff_ne, ne_eq, and_iff_left_iff_imp]
    intro hm hid
    exact ht (hown.2 t hm hid)
  · rw [h]
    exact set_timer_frame ts _ _ _ t ht

/-- The digital poll loop keeps the timer service well formed, keeps the
ownership of every bystander and makes every record of the list own its
timer. -/
theorem d_loop_owns (inputs : Nat → Bool) :
    ∀ (l : List d_alarm_info) (ts : timer_service), ts_wf ts → (∀ da ∈ l, d_owns da ts) →
      ts_wf (d_alarm_loop inputs l ts).2 ∧
      (∀ da ∈ (d_alarm_loop inputs l ts).1, d_owns da (d_alarm_loop inputs l ts).2) ∧
      (∀ x : d_alarm_info, d_owns x ts → d_owns x (d_alarm_loop inputs l ts).2) := by
  intro l
  induction l with
  | nil =>
    intro ts hts _
    exact ⟨hts, fun da hda => by simp [d_alarm_loop] at hda, fun _ hx => hx⟩
  | cons da rest ih =>
    intro ts hts hown
    rw [d_alarm_loop_cons]
    have hstep : ts_wf (if da.enabled then mgos_d_alarm_logic da (inputs da.input) ts
          else (da, ts)).2 ∧
        (∀ x : d_alarm_info, d_owns x ts →
          d_owns x (if da.enabled then mgos_d_alarm_logic da (inputs da.input) ts
            else (da, ts)).2) ∧
        d_owns (if da.enabled then mgos_d_alarm_logic da (inputs da.input) ts else (da, ts)).1
          (if da.enabled then mgos_d_alarm_logic da (inputs da.input) ts else (da, ts)).2 := by
      by_cases hen : da.enabled = true
      · simp only [if_pos hen]
        obtain ⟨h1, h2, h3⟩ := d_logic_owns da (inputs da.input) ts hts
        exact ⟨h1, h2, h3 (hown da (by simp))⟩
      · rw [if_neg hen]
        exact ⟨hts, fun _ hx => hx, hown da (by simp)⟩
    obtain ⟨s1, s2, s3⟩ := hstep
    generalize (if da.enabled then mgos_d_alarm_logic da (inputs da.input) ts
      else (da, ts)) = r at s1 s2 s3 ⊢
    obtain ⟨i1, i2, i3⟩ := ih r.2 s1
      (fun x hx => s2 x (hown x (List.mem_cons_of_mem _ hx)))
    refine ⟨i1, ?_, fun x hx => i3 x (s2 x hx)⟩
    intro x hx
    rcases List.mem_cons.mp hx with rfl | hx
    · exact i3 _ s3
    · exact i2 x hx

/-- The analog poll loop keeps the timer service well formed and keeps the
ownership of every digital record. -/
theorem a_loop_owns (pvs : Nat → CFloat) :
    ∀ (l : List a_alarm_info) (ts : timer_service), ts_wf ts →
      ts_wf (a_alarm_loop pvs l ts).2 ∧
      (∀ x : d_alarm_info, d_owns x ts → d_owns x (a_alarm_loop pvs l ts).2) := by
  intro l
  induction l with
  | nil =>
    intro ts hts
    exact ⟨hts, fun _ hx => hx⟩
  | cons aa rest ih =>
    intro ts hts
    rw [a_alarm_loop_cons]
    have hstep : ts_wf (if aa.enabled then mgos_a_alarm_logic aa (pvs aa.pv) ts
          else (aa, ts)).2 ∧
        (∀ x : d_alarm_info, d_owns x ts →
          d_owns x (if aa.enabled then mgos_a_alarm_logic aa (pvs aa.pv) ts
            else (aa, ts)).2) := by
      by_cases hen : aa.enabled = true
      · simp only [if_pos hen]
        obtain ⟨h1, h2, _⟩ := a_logic_owns aa (pvs aa.pv) ts hts
        exact ⟨h1, h2⟩
      · rw [if_neg hen]
        exact ⟨hts, fun _ hx => hx⟩
    obtain ⟨s1, s2⟩ := hstep
    generalize (if aa.enabled then mgos_a_alarm_logic aa (pvs aa.pv) ts
      else (aa, ts)) = r at s1 s2 ⊢
    obtain ⟨i1, i2⟩ := ih r.2 s1
    exact ⟨i1, fun x hx => i2 x (s2 x hx)⟩
/-! ## The second invariant holds in every reachable state -/

/-- The second invariant is kept by every step that drops or keeps records
(addresses and stored timers untouched) and drops or keeps pending timers. -/
theorem inv2_of_frame {s s1 : State} (h : Inv2 s)
    (hd : (s1.d_alarms.map (fun da => (da.name, da.addr, da.timer_id))).Sublist
      (s.d_alarms.map (fun da => (da.name, da.addr, da.timer_id))))
    (ha : (s1.a_alarms.map (fun aa => (aa.name, aa.addr))).Sublist
      (s.a_alarms.map (fun aa => (aa.name, aa.addr))))
    (hts : s1.ts.pending.Sublist s.ts.pending)
    (hnid : s1.ts.next_id = s.ts.next_id) : Inv2 s1 := by
  have hdm := exists_of_map_sublist _ hd
  refine ⟨?_, ⟨?_, ?_, ?_⟩, ?_⟩
  · have h1 := hd.map (fun p => p.2.1)
    have h2 := ha.map (fun p => p.2)
    simp only [List.map_map] at h1 h2
    exact h.addrs.sublist (h1.append h2)
  · intro t ht
    rw [hnid]
    exact h.ts_ok.1 t (hts.subset ht)
  · exact h.ts_ok.2.1.sublist (hts.map _)
  · rw [hnid]
    exact h.ts_ok.2.2
  · intro da hda
    obtain ⟨x, hx, hxe⟩ := hdm da hda
    simp only [Prod.mk.injEq] at hxe
    obtain ⟨o1, o2⟩ := h.d_owned x hx
    refine ⟨?_, ?_⟩
    · rw [hnid, ← hxe.2.2]
      exact o1
    · intro t ht hid
      rw [← hxe.2.1]
      exact o2 t (hts.subset ht) (by rw [hid, hxe.2.2])

theorem inv2_init (p : Int) (s : State) (h : mgos_alarm_init p true true true = some s) :
    Inv2 s := by
  simp only [mgos_alarm_init, Bool.not_true, Bool.false_eq_true, if_false,
    Option.some.injEq] at h
  subst h
  refine ⟨by simp, ⟨by simp, by simp, by simp⟩, by simp⟩

theorem inv2_add_d (s : State) (enabled : Bool) (input : Nat) (mode : mgos_d_alarm_mode)
    (si ri : Int) (name : Option String) (mem : Bool) (h1 : Inv s) (h : Inv2 s) :
    Inv2 (mgos_add_d_alarm s enabled input mode si ri name mem).2 := by
  cases hb : (mgos_add_d_alarm s enabled input mode si ri name mem).1 with
  | false => rw [add_d_false_same s enabled input mode si ri name mem hb]; exact h
  | true =>
    obtain ⟨n, _, _, _, hst⟩ := add_d_true s enabled input mode si ri name mem hb
    rw [hst]
    refine ⟨?_, h.ts_ok, ?_⟩
    · simp only [List.map_cons, List.cons_append, List.nodup_cons]
      refine ⟨?_, h.addrs⟩
      intro hm
      simp only [List.mem_append, List.mem_map] at hm
      rcases hm with ⟨x, hx, he⟩ | ⟨x, hx, he⟩
      · have := h1.d_addr_lt x hx
        omega
      · have := h1.a_addr_lt x hx
        omega
    · intro da hda
      rcases List.mem_cons.mp hda with rfl | hda
      · refine ⟨h.ts_ok.2.2, ?_⟩
        intro t ht hid
        have := (h.ts_ok.1 t ht).1
        simp only [MGOS_INVALID_TIMER_ID] at hid
        unfold mgos_timer_id at *
        omega
      · exact h.d_owned da hda

theorem inv2_add_a (s : State) (enabled : Bool) (pv : Nat) (ll l hs hh : CFloat)
    (si : Int) (name : Option String) (mem : Bool) (h1 : Inv s) (h : Inv2 s) :
    Inv2 (mgos_add_a_alarm s enabled pv ll l hs hh si name mem).2 := by
  cases hb : (mgos_add_a_alarm s enabled pv ll l hs hh si name mem).1 with
  | false =>
    obtain ⟨e1, _, e3, _⟩ := add_a_false_same s enabled pv ll l hs hh si name mem hb
    refine inv2_of_frame h (by rw [e1]) (by rw [e3]) ?_ ?_
    · unfold mgos_add_a_alarm
      cases name with
      | none => exact List.Sublist.refl _
      | some n =>
        dsimp only
        cases sv_loop ll [l, hs, hh] <;> dsimp only <;> split_ifs <;>
          exact List.Sublist.refl _
    · unfold mgos_add_a_alarm
      cases name with
      | none => rfl
      | some n =>
        dsimp only
        cases sv_loop ll [l, hs, hh] <;> dsimp only <;> split_ifs <;> rfl
  | true =>
    obtain ⟨n, _, _, _, hst⟩ := add_a_true s enabled pv ll l hs hh si name mem hb
    rw [hst]
    refine ⟨?_, h.ts_ok, h.d_owned⟩
    simp only [List.map_cons]
    rw [List.nodup_middle, List.nodup_cons]
    refine ⟨?_, h.addrs⟩
    intro hm
    simp only [List.mem_append, List.mem_map] at hm
    rcases hm with ⟨x, hx, he⟩ | ⟨x, hx, he⟩
    · have := h1.d_addr_lt x hx
      omega
    · have := h1.a_addr_lt x hx
      omega

theorem inv2_remove (s : State) (name : Option String) (h : Inv2 s) :
    Inv2 (mgos_remove_alarm s name).2 := by
  unfold mgos_remove_alarm
  cases name with
  | none => exact h
  | some n =>
    dsimp only
    cases hd : remove_first (fun da => n == da.name) s.d_alarms with
    | some q =>
      obtain ⟨da, rest⟩ := q
      obtain ⟨hsub, _, _, _⟩ := remove_first_sublist _ _ _ _ hd
      exact inv2_of_frame h (hsub.map _) (List.Sublist.refl _) (List.Sublist.refl _) rfl
    | none =>
      dsimp only
      cases ha : remove_first (fun aa => n == aa.name) s.a_alarms with
      | some q =>
        obtain ⟨aa, rest⟩ := q
        obtain ⟨hsub, _, _, _⟩ := remove_first_sublist _ _ _ _ ha
        exact inv2_of_frame h (List.Sublist.refl _) (hsub.map _) (List.Sublist.refl _) rfl
      | none => exact h

theorem inv2_update (s : State) (h : Inv2 s) (n : String)
    (fd : d_alarm_info → d_alarm_info) (fa : a_alarm_info → a_alarm_info)
    (hfd : ∀ x, ((fd x).name, (fd x).addr, (fd x).timer_id) = (x.name, x.addr, x.timer_id))
    (hfa : ∀ x, ((fa x).name, (fa x).addr) = (x.name, x.addr)) :
    Inv2 (match update_first (fun (da : d_alarm_info) => n == da.name) fd s.d_alarms with
      | some l => (true, { s with d_alarms := l })
      | none =>
        match update_first (fun (aa : a_alarm_info) => n == aa.name) fa s.a_alarms with
        | some l => (true, { s with a_alarms := l })
        | none => (false, s)).2 := by
  cases hd : update_first (fun (da : d_alarm_info) => n == da.name) fd s.d_alarms with
  | some l1 =>
    have hm := update_first_map _ fd (fun da => (da.name, da.addr, da.timer_id)) hfd _ _ hd
    exact inv2_of_frame h (by rw [hm]) (List.Sublist.refl _) (List.Sublist.refl _) rfl
  | none =>
    dsimp only
    cases ha : update_first (fun (aa : a_alarm_info) => n == aa.name) fa s.a_alarms with
    | some l1 =>
      have hm := update_first_map _ fa (fun aa => (aa.name, aa.addr)) hfa _ _ ha
      exact inv2_of_frame h (List.Sublist.refl _) (by rw [hm]) (List.Sublist.refl _) rfl
    | none => exact h

theorem inv2_disable (s : State) (name : Option String) (h : Inv2 s) :
    Inv2 (mgos_disable_alarm s name).2 := by
  unfold mgos_disable_alarm
  cases name with
  | none => exact h
  | some n =>
    exact inv2_update s h n
      (fun da_info => { da_info with active := false, enabled := false })
      (fun aa_info => { aa_info with state := mgos_a_alarm_state.NOM, enabled := false })
      (fun _ => rfl) (fun _ => rfl)

theorem inv2_reset (s : State) (name : Option String) (h : Inv2 s) :
    Inv2 (mgos_reset_alarm s name).2 := by
  unfold mgos_reset_alarm
  cases name with
  | none => exact h
  | some n =>
    exact inv2_update s h n
      (fun da_info => { da_info with active := false })
      (fun aa_info => { aa_info with state := mgos_a_alarm_state.NOM })
      (fun _ => rfl) (fun _ => rfl)

theorem inv2_tick (s : State) (inputs : Nat → Bool) (pvs : Nat → CFloat) (h1 : Inv s)
    (h : Inv2 s) : Inv2 (mgos_alarm_timer s inputs pvs) := by
  unfold mgos_alarm_timer
  dsimp only
  obtain ⟨_, d2, _, _, _, _, _⟩ :=
    d_loop_spec inputs s.d_alarms s.ts h1.d_addrs h1.t_id_pos h1.next_id_pos h1.d_timer
  obtain ⟨o1, o2, _⟩ := d_loop_owns inputs s.d_alarms s.ts h.ts_ok h.d_owned
  generalize d_alarm_loop inputs s.d_alarms s.ts = rd at d2 o1 o2 ⊢
  obtain ⟨_, a2, _, _, _, _⟩ := a_loop_spec pvs s.a_alarms rd.2
  obtain ⟨p1, p2⟩ := a_loop_owns pvs s.a_alarms rd.2 o1
  generalize a_alarm_loop pvs s.a_alarms rd.2 = ra at a2 p1 p2 ⊢
  refine ⟨?_, p1, fun da hda => p2 da (o2 da hda)⟩
  dsimp only
  rw [d2, a2]
  exact h.addrs

theorem inv2_fire (s s1 : State) (id : mgos_timer_id) (h : Inv2 s)
    (hf : mgos_timer_fire s id = some s1) : Inv2 s1 := by
  unfold mgos_timer_fire at hf
  cases ht : s.ts.pending.find? (fun t => t.id == id) with
  | none => simp [ht] at hf
  | some t =>
    simp only [ht] at hf
    by_cases hdue : s.ts.now < t.due
    · simp [hdue] at hf
    · rw [if_neg hdue] at hf
      have hsub : (mgos_clear_timer s.ts id).pending.Sublist s.ts.pending := by
        simp only [mgos_clear_timer]
        exact List.filter_sublist _
      cases hcb : t.cb with
      | cb_a_alarm_timer =>
        simp only [hcb, Option.some.injEq] at hf
        subst hf
        rw [a_at_addr_timer]
        exact inv2_of_frame h (List.Sublist.refl _) (List.Sublist.refl _) hsub rfl
      | cb_d_alarm_timer =>
        simp only [hcb] at hf
        cases hl : s.d_alarms.find? (fun da => da.addr == t.arg) with
        | some da =>
          simp only [hl, Option.some.injEq] at hf
          subst hf
          refine inv2_of_frame h ?_ (List.Sublist.refl _) hsub rfl
          dsimp only
          rw [d_at_addr_map _ _ _ (fun x => by unfold d_alarm_timer; dsimp only; split_ifs <;> rfl)]
        | none =>
          simp only [hl] at hf
          cases hl2 : s.d_freed.find? (fun da => da.addr == t.arg) with
          | some da =>
            simp only [hl2, Option.some.injEq] at hf
            subst hf
            exact inv2_of_frame h (List.Sublist.refl _) (List.Sublist.refl _) hsub rfl
          | none => simp [hl2] at hf

theorem inv2_advance (s : State) (dt : Nat) (h : Inv2 s) : Inv2 (mgos_advance s dt) :=
  inv2_of_frame h (List.Sublist.refl _) (List.Sublist.refl _) (List.Sublist.refl _) rfl

/-- Every reachable state satisfies the second invariant. -/
theorem reachable_inv2 {s : State} (h : Reachable s) : Inv2 s := by
  induction h with
  | init p s h => exact inv2_init p s h
  | add_d s enabled input mode si ri name mem hr ih =>
    exact inv2_add_d s _ _ _ _ _ _ _ (reachable_inv hr) ih
  | add_a s enabled pv ll l hs hh si name mem hr ih =>
    exact inv2_add_a s _ _ _ _ _ _ _ _ _ (reachable_inv hr) ih
  | remove s name _ ih => exact inv2_remove s name ih
  | disable s name _ ih => exact inv2_disable s name ih
  | reset s name _ ih => exact inv2_reset s name ih
  | tick s inputs pvs hr ih => exact inv2_tick s inputs pvs (reachable_inv hr) ih
  | fire s s1 id _ hf ih => exact inv2_fire s s1 id ih hf
  | advance s dt _ ih => exact inv2_advance s dt ih
/-! ## Lemmas on what a poll tick does to one record -/

/-- The digital poll loop leaves a disabled record in its place as it is. -/
theorem d_loop_disabled_get (inputs : Nat → Bool) :
    ∀ (l : List d_alarm_info) (ts : timer_service) (i : Nat) (x : d_alarm_info),
      l[i]? = some x → x.enabled = false → (d_alarm_loop inputs l ts).1[i]? = some x := by
  intro l
  induction l with
  | nil => intro ts i x h; simp at h
  | cons da rest ih =>
    intro ts i x h hen
    rw [d_alarm_loop_cons]
    cases i with
    | zero =>
      simp only [List.getElem?_cons_zero, Option.some.injEq] at h ⊢
      subst h
      simp [hen]
    | succ k =>
      simp only [List.getElem?_cons_succ] at h ⊢
      exact ih _ k x h hen

/-- The digital poll loop hands an enabled record, in its place, to the
logic. -/
theorem d_loop_enabled_get (inputs : Nat → Bool) :
    ∀ (l : List d_alarm_info) (ts : timer_service) (i : Nat) (x : d_alarm_info),
      l[i]? = some x → x.enabled = true →
      ∃ ts1, (d_alarm_loop inputs l ts).1[i]? =
        some (mgos_d_alarm_logic x (inputs x.input) ts1).1 := by
  intro l
  induction l with
  | nil => intro ts i x h; simp at h
  | cons da rest ih =>
    intro ts i x h hen
    rw [d_alarm_loop_cons]
    cases i with
    | zero =>
      simp only [List.getElem?_cons_zero, Option.some.injEq] at h ⊢
      subst h
      exact ⟨ts, by simp [hen]⟩
    | succ k =>
      simp only [List.getElem?_cons_succ] at h ⊢
      exact ih _ k x h hen

/-- The analog poll loop leaves a disabled record in its place as it is. -/
theorem a_loop_disabled_get (pvs : Nat → CFloat) :
    ∀ (l : List a_alarm_info) (ts : timer_service) (i : Nat) (x : a_alarm_info),
      l[i]? = some x → x.enabled = false → (a_alarm_loop pvs l ts).1[i]? = some x := by
  intro l
  induction l with
  | nil => intro ts i x h; simp at h
  | cons aa rest ih =>
    intro ts i x h hen
    rw [a_alarm_loop_cons]
    cases i with
    | zero =>
      simp only [List.getElem?_cons_zero, Option.some.injEq] at h ⊢
      subst h
      simp [hen]
    | succ k =>
      simp only [List.getElem?_cons_succ] at h ⊢
      exact ih _ k x h hen

/-- The analog poll loop hands an enabled record, in its place, to the logic. -/
theorem a_loop_enabled_get (pvs : Nat → CFloat) :
    ∀ (l : List a_alarm_info) (ts : timer_service) (i : Nat) (x : a_alarm_info),
      l[i]? = some x → x.enabled = true →
      ∃ ts1, (a_alarm_loop pvs l ts).1[i]? =
        some (mgos_a_alarm_logic x (pvs x.pv) ts1).1 := by
  intro l
  induction l with
  | nil => intro ts i x h; simp at h
  | cons aa rest ih =>
    intro ts i x h hen
    rw [a_alarm_loop_cons]
    cases i with
    | zero =>
      simp only [List.getElem?_cons_zero, Option.some.injEq] at h ⊢
      subst h
      exact ⟨ts, by simp [hen]⟩
    | succ k =>
      simp only [List.getElem?_cons_succ] at h ⊢
      exact ih _ k x h hen

/-- The digital poll loop sets and clears only digital timers that point to
enabled records of the list. -/
theorem d_loop_frame (inputs : Nat → Bool) :
    ∀ (l : List d_alarm_info) (ts : timer_service), ts_wf ts → (∀ da ∈ l, d_owns da ts) →
      ∀ t : timer,
        (∀ r ∈ l, r.enabled = true → ¬ (t.cb = timer_cb.cb_d_alarm_timer ∧ t.arg = r.addr)) →
        (t ∈ (d_alarm_loop inputs l ts).2.pending ↔ t ∈ ts.pending) := by
  intro l
  induction l with
  | nil => intro ts _ _ t _; exact Iff.rfl
  | cons da rest ih =>
    intro ts hts hown t ht
    rw [d_alarm_loop_cons]
    by_cases hen : da.enabled = true
    · simp only [if_pos hen]
      obtain ⟨h1, h2, _⟩ := d_logic_owns da (inputs da.input) ts hts
      have hf := d_logic_frame da (inputs da.input) ts (hown da (by simp)) t
        (ht da (by simp) hen)
      exact (ih _ h1 (fun x hx => h2 x (hown x (List.mem_cons_of_mem _ hx))) t
        (fun r hr => ht r (List.mem_cons_of_mem _ hr))).trans hf
    · rw [if_neg hen]
      exact ih ts hts (fun x hx => hown x (List.mem_cons_of_mem _ hx)) t
        (fun r hr => ht r (List.mem_cons_of_mem _ hr))

/-- The analog poll loop sets only analog timers that point to enabled records
of the list, and clears none. -/
theorem a_loop_frame (pvs : Nat → CFloat) :
    ∀ (l : List a_alarm_info) (ts : timer_service), ts_wf ts →
      ∀ t : timer,
        (∀ r ∈ l, r.enabled = true → ¬ (t.cb = timer_cb.cb_a_alarm_timer ∧ t.arg = r.addr)) →
        (t ∈ (a_alarm_loop pvs l ts).2.pending ↔ t ∈ ts.pending) := by
  intro l
  induction l with
  | nil => intro ts _ t _; exact Iff.rfl
  | cons aa rest ih =>
    intro ts hts t ht
    rw [a_alarm_loop_cons]
    by_cases hen : aa.enabled = true
    · simp only [if_pos hen]
      obtain ⟨h1, _, h3⟩ := a_logic_owns aa (pvs aa.pv) ts hts
      exact (ih _ h1 t (fun r hr => ht r (List.mem_cons_of_mem _ hr))).trans
        (h3 t (ht aa (by simp) hen))
    · rw [if_neg hen]
      exact ih ts hts t (fun r hr => ht r (List.mem_cons_of_mem _ hr))

/-- A poll tick sets and clears only timers that point to an enabled record. -/
theorem tick_frame (s : State) (inputs : Nat → Bool) (pvs : Nat → CFloat) (h2 : Inv2 s)
    (t : timer)
    (hd : ∀ r ∈ s.d_alarms, r.enabled = true → t.arg ≠ r.addr)
    (ha : ∀ r ∈ s.a_alarms, r.enabled = true → t.arg ≠ r.addr) :
    t ∈ (mgos_alarm_timer s inputs pvs).ts.pending ↔ t ∈ s.ts.pending := by
  unfold mgos_alarm_timer
  dsimp only
  have f1 := d_loop_frame inputs s.d_alarms s.ts h2.ts_ok h2.d_owned t
    (fun r hr hen hc => hd r hr hen hc.2)
  obtain ⟨o1, _, _⟩ := d_loop_owns inputs s.d_alarms s.ts h2.ts_ok h2.d_owned
  have f2 := a_loop_frame pvs s.a_alarms (d_alarm_loop inputs s.d_alarms s.ts).2 o1 t
    (fun r hr hen hc => ha r hr hen hc.2)
  exact f2.trans f1
/-! ## Lemmas on timer expiry -/

theorem reachable_door_due : Reachable sc_door_due :=
  Reachable.advance _ _ reachable_door_timing

theorem reachable_door_active : Reachable sc_door_active :=
  Reachable.fire sc_door_due sc_door_active 2 reachable_door_due (by decide)

theorem reachable_door_disabled : Reachable sc_door_disabled :=
  Reachable.disable _ _ reachable_door_timing

/-! ## The statements of the specification, continued -/

/-- C11 (the code at the failing input): with the analog alarm "valve"
registered, `mgos_add_d_alarm` with the name "valve" returns true, and the
listing right afterwards holds two entries named "valve", not exactly one. -/
theorem C11_listing_two_entries_same_name :
    Reachable sc_valve_analog ∧
    (mgos_add_d_alarm sc_valve_analog false 0 mgos_d_alarm_mode.ACTIVE_LOW 10 10
      (some "valve") true).1 = true ∧
    mgos_list_alarms sc_valve_both = Except.ok (some
      { info := [{ name := "valve", enabled := false, type := mgos_alarm_type.DIGITAL,
                   state := alarm_state.d_state false },
                 { name := "valve", enabled := true, type := mgos_alarm_type.ANALOG,
                   state := alarm_state.a_state mgos_a_alarm_state.NOM }]
        length := 2
        capacity := 2 }) ∧
    ([({ name := "valve", enabled := false, type := mgos_alarm_type.DIGITAL,
         state := alarm_state.d_state false } : alarm_info),
      { name := "valve", enabled := true, type := mgos_alarm_type.ANALOG,
        state := alarm_state.a_state mgos_a_alarm_state.NOM }].filter
        (fun e => decide (e.name = "valve"))).length = 2 :=
  ⟨reachable_valve_analog, by decide, by rfl, by decide⟩

/-- Among the entries of its own type the new alarm is alone with its name:
in a reachable state, after a call of `mgos_add_d_alarm` (`mgos_add_a_alarm`)
that returns true, the listing holds exactly one entry
with the given name and the type DIGITAL (ANALOG); that entry has the given
enabled flag and the state false (NOM); and it is the only entry with that
name when no alarm of the other collection has the name. -/
theorem listing_after_successful_add (s : State) (hs : Reachable s) (enabled : Bool)
    (input pv : Nat) (mode : mgos_d_alarm_mode) (set_interval reset_interval : Int)
    (ll_sv l_sv h_sv hh_sv : CFloat) (name : Option String) (mem : Bool) :
    ((mgos_add_d_alarm s enabled input mode set_interval reset_interval name mem).1 = true →
      ∃ (n : String) (al : alarm_list), name = some n ∧
        mgos_list_alarms
          (mgos_add_d_alarm s enabled input mode set_interval reset_interval name mem).2 =
          Except.ok (some al) ∧
        al.info.filter (fun e => decide (e.name = n ∧ e.type = mgos_alarm_type.DIGITAL)) =
          [{ name := n, enabled := enabled, type := mgos_alarm_type.DIGITAL,
             state := alarm_state.d_state false }] ∧
        (n ∉ s.a_alarms.map (fun aa => aa.name) →
          al.info.filter (fun e => decide (e.name = n)) =
            [{ name := n, enabled := enabled, type := mgos_alarm_type.DIGITAL,
               state := alarm_state.d_state false }])) ∧
    ((mgos_add_a_alarm s enabled pv ll_sv l_sv h_sv hh_sv set_interval name mem).1 = true →
      ∃ (n : String) (al : alarm_list), name = some n ∧
        mgos_list_alarms
          (mgos_add_a_alarm s enabled pv ll_sv l_sv h_sv hh_sv set_interval name mem).2 =
          Except.ok (some al) ∧
        al.info.filter (fun e => decide (e.name = n ∧ e.type = mgos_alarm_type.ANALOG)) =
          [{ name := n, enabled := enabled, type := mgos_alarm_type.ANALOG,
             state := alarm_state.a_state mgos_a_alarm_state.NOM }] ∧
        (n ∉ s.d_alarms.map (fun da => da.name) →
          al.info.filter (fun e => decide (e.name = n)) =
            [{ name := n, enabled := enabled, type := mgos_alarm_type.ANALOG,
               state := alarm_state.a_state mgos_a_alarm_state.NOM }])) := by
  have hinv := reachable_inv hs
  constructor
  · intro h
    obtain ⟨n, hname, _, hnd, hst⟩ :=
      add_d_true s enabled input mode set_interval reset_interval name mem h
    have hi := inv_add_d s enabled input mode set_interval reset_interval name mem hinv
    have hl := list_alarms_of_len _ hi.d_len hi.a_len
    rw [hst] at hl ⊢
    refine ⟨n, _, hname, hl, ?_, ?_⟩
    · dsimp only
      rw [List.map_cons, List.cons_append, List.filter_cons_of_pos (by simp [d_entry]),
        filter_digital_entries n _ _ hnd]
      rfl
    · intro hna
      dsimp only
      rw [List.map_cons, List.cons_append, List.filter_cons_of_pos (by simp [d_entry]),
        filter_name_entries n _ _ hnd hna]
      rfl
  · intro h
    obtain ⟨n, hname, _, hna, hst⟩ :=
      add_a_true s enabled pv ll_sv l_sv h_sv hh_sv set_interval name mem h
    have hi := inv_add_a s enabled pv ll_sv l_sv h_sv hh_sv set_interval name mem hinv
    have hl := list_alarms_of_len _ hi.d_len hi.a_len
    rw [hst] at hl ⊢
    refine ⟨n, _, hname, hl, ?_, ?_⟩
    · dsimp only
      rw [List.map_cons, List.filter_append, List.filter_cons_of_pos (by simp [a_entry])]
      have h0 := filter_analog_entries n s.d_alarms s.a_alarms hna
      rw [List.filter_append, List.append_eq_nil] at h0
      rw [h0.1, h0.2]
      rfl
    · intro hnd
      dsimp only
      rw [List.map_cons, List.filter_append, List.filter_cons_of_pos (by simp [a_entry])]
      have h0 := filter_name_entries n s.d_alarms s.a_alarms hnd hna
      rw [List.filter_append, List.append_eq_nil] at h0
      rw [h0.1, h0.2]
      rfl

/-- At the state where the analog alarm "valve" is registered and the digital
alarm "valve" is added: the listing holds exactly one digital
entry named "valve", disabled and inactive. -/
theorem listing_after_successful_add_at_valve :
    Reachable sc_valve_analog ∧
    ∃ (n : String) (al : alarm_list), some "valve" = some n ∧
      mgos_list_alarms
        (mgos_add_d_alarm sc_valve_analog false 0 mgos_d_alarm_mode.ACTIVE_LOW 10 10
          (some "valve") true).2 = Except.ok (some al) ∧
      al.info.filter (fun e => decide (e.name = n ∧ e.type = mgos_alarm_type.DIGITAL)) =
        [{ name := n, enabled := false, type := mgos_alarm_type.DIGITAL,
           state := alarm_state.d_state false }] ∧
      (n ∉ sc_valve_analog.a_alarms.map (fun aa => aa.name) →
        al.info.filter (fun e => decide (e.name = n)) =
          [{ name := n, enabled := false, type := mgos_alarm_type.DIGITAL,
             state := alarm_state.d_state false }]) :=
  ⟨reachable_valve_analog,
   (listing_after_successful_add sc_valve_analog reachable_valve_analog false 0 0
      mgos_d_alarm_mode.ACTIVE_LOW 10 10 NAN NAN NAN NAN (some "valve") true).1 (by decide)⟩
theorem reachable_pump_twice : Reachable sc_pump_twice :=
  Reachable.add_a _ _ _ _ _ _ _ _ _ _ reachable_pump_added

/-- C15: in every reachable state `mgos_list_alarms` returns a list whose
length is the number of digital records plus the number of analog records,
with one entry per record carrying its name, enabled flag, type and current
state, the digital entries (in list order) before the analog ones; for an
empty registry the length is 0. -/
theorem C15_listing_contents (s : State) (hs : Reachable s) :
    ∃ al : alarm_list, mgos_list_alarms s = Except.ok (some al) ∧
      al.length = s.d_alarms.length + s.a_alarms.length ∧
      al.info.length = al.length ∧
      al.info =
        s.d_alarms.map (fun da =>
          ({ name := da.name, enabled := da.enabled, type := mgos_alarm_type.DIGITAL,
             state := alarm_state.d_state da.active } : alarm_info)) ++
        s.a_alarms.map (fun aa =>
          ({ name := aa.name, enabled := aa.enabled, type := mgos_alarm_type.ANALOG,
             state := alarm_state.a_state aa.state } : alarm_info)) ∧
      (s.d_alarms = [] → s.a_alarms = [] → al.length = 0) := by
  have hinv := reachable_inv hs
  refine ⟨_, list_alarms_of_len s hinv.d_len hinv.a_len, rfl, ?_, rfl, ?_⟩
  · simp
  · intro hd ha
    simp [hd, ha]

/-- C15, at the state with the digital and the analog alarm "pump": the listing
has length 2. -/
theorem C15_listing_contents_witness :
    Reachable sc_pump_twice ∧
    ∃ al : alarm_list, mgos_list_alarms sc_pump_twice = Except.ok (some al) ∧
      al.length = sc_pump_twice.d_alarms.length + sc_pump_twice.a_alarms.length ∧
      al.info.length = al.length ∧
      al.info =
        sc_pump_twice.d_alarms.map (fun da =>
          ({ name := da.name, enabled := da.enabled, type := mgos_alarm_type.DIGITAL,
             state := alarm_state.d_state da.active } : alarm_info)) ++
        sc_pump_twice.a_alarms.map (fun aa =>
          ({ name := aa.name, enabled := aa.enabled, type := mgos_alarm_type.ANALOG,
             state := alarm_state.a_state aa.state } : alarm_info)) ∧
      (sc_pump_twice.d_alarms = [] → sc_pump_twice.a_alarms = [] → al.length = 0) :=
  ⟨reachable_pump_twice, C15_listing_contents sc_pump_twice reachable_pump_twice⟩

/-- C16 (the code at the failing input): right after initialisation no alarm
is registered, and `mgos_list_alarms` returns the allocated list with length 0,
not `NULL`; it returns `NULL` in no state at all. -/
theorem C16_listing_of_empty_registry_not_null :
    init_state.d_alarms = [] ∧ init_state.a_alarms = [] ∧
    mgos_list_alarms init_state =
      Except.ok (some { info := [], length := 0, capacity := 0 }) ∧
    ∀ s : State, mgos_list_alarms s ≠ Except.ok none :=
  ⟨rfl, rfl, by rfl, list_alarms_not_null⟩

/-- C17: a successful `mgos_add_d_alarm` links at the head a record whose
`set_interval` and `reset_interval` are the maximum of 0 and the given values,
and a successful `mgos_add_a_alarm` one whose `set_interval` is the maximum of
0 and the given value; values that are not negative are stored as given. -/
theorem C17_stored_delays_clamped (s : State) (enabled : Bool) (input pv : Nat)
    (mode : mgos_d_alarm_mode) (set_interval reset_interval : Int)
    (ll_sv l_sv h_sv hh_sv : CFloat) (name : Option String) (mem : Bool) :
    ((mgos_add_d_alarm s enabled input mode set_interval reset_interval name mem).1 = true →
      ∃ da : d_alarm_info,
        (mgos_add_d_alarm s enabled input mode set_interval reset_interval name mem).2.d_alarms =
          da :: s.d_alarms ∧
        name = some da.name ∧
        da.set_interval = max 0 set_interval ∧
        da.reset_interval = max 0 reset_interval ∧
        (0 ≤ set_interval → da.set_interval = set_interval) ∧
        (0 ≤ reset_interval → da.reset_interval = reset_interval)) ∧
    ((mgos_add_a_alarm s enabled pv ll_sv l_sv h_sv hh_sv set_interval name mem).1 = true →
      ∃ aa : a_alarm_info,
        (mgos_add_a_alarm s enabled pv ll_sv l_sv h_sv hh_sv set_interval name mem).2.a_alarms =
          aa :: s.a_alarms ∧
        name = some aa.name ∧
        aa.set_interval = max 0 set_interval ∧
        (0 ≤ set_interval → aa.set_interval = set_interval)) := by
  constructor
  · intro h
    obtain ⟨n, hname, _, _, hst⟩ :=
      add_d_true s enabled input mode set_interval reset_interval name mem h
    rw [hst]
    refine ⟨_, rfl, hname, ?_, ?_, ?_, ?_⟩ <;> dsimp only <;> split_ifs <;> omega
  · intro h
    obtain ⟨n, hname, _, _, hst⟩ :=
      add_a_true s enabled pv ll_sv l_sv h_sv hh_sv set_interval name mem h
    rw [hst]
    refine ⟨_, rfl, hname, ?_, ?_⟩ <;> dsimp only <;> split_ifs <;> omega

/-- C17, for a digital alarm registered with the delays -5 and 7: the stored
delays are 0 and 7. -/
theorem C17_stored_delays_clamped_witness :
    ∃ da : d_alarm_info,
      (mgos_add_d_alarm init_state true 0 mgos_d_alarm_mode.ACTIVE_HIGH (-5) 7
        (some "fan") true).2.d_alarms = da :: init_state.d_alarms ∧
      some "fan" = some da.name ∧
      da.set_interval = max 0 (-5) ∧
      da.reset_interval = max 0 7 ∧
      ((0 : Int) ≤ -5 → da.set_interval = -5) ∧
      ((0 : Int) ≤ 7 → da.reset_interval = 7) :=
  (C17_stored_delays_clamped init_state true 0 0 mgos_d_alarm_mode.ACTIVE_HIGH (-5) 7
    NAN NAN NAN NAN (some "fan") true).1 (by decide)
/-- C12: `mgos_remove_alarm(name)` returns true exactly when the name is in the
digital or in the analog list.  When it returns true, exactly one record is
unlinked: the first digital record with the name, or, when no digital record
has the name, the first analog one; the length counter of that list decreases
by one and the other list is untouched.  When it returns false the state is
unchanged. -/
theorem C12_remove_alarm (s : State) (n : String) :
    ((mgos_remove_alarm s (some n)).1 = true ↔
      (n ∈ s.d_alarms.map (fun da => da.name) ∨ n ∈ s.a_alarms.map (fun aa => aa.name))) ∧
    ((mgos_remove_alarm s (some n)).1 = true →
      (∃ pre x post, s.d_alarms = pre ++ x :: post ∧ x.name = n ∧ (∀ y ∈ pre, y.name ≠ n) ∧
        (mgos_remove_alarm s (some n)).2.d_alarms = pre ++ post ∧
        (mgos_remove_alarm s (some n)).2.d_length = s.d_length - 1 ∧
        (mgos_remove_alarm s (some n)).2.a_alarms = s.a_alarms ∧
        (mgos_remove_alarm s (some n)).2.a_length = s.a_length) ∨
      (n ∉ s.d_alarms.map (fun da => da.name) ∧
        ∃ pre x post, s.a_alarms = pre ++ x :: post ∧ x.name = n ∧ (∀ y ∈ pre, y.name ≠ n) ∧
          (mgos_remove_alarm s (some n)).2.a_alarms = pre ++ post ∧
          (mgos_remove_alarm s (some n)).2.a_length = s.a_length - 1 ∧
          (mgos_remove_alarm s (some n)).2.d_alarms = s.d_alarms ∧
          (mgos_remove_alarm s (some n)).2.d_length = s.d_length)) ∧
    ((mgos_remove_alarm s (some n)).1 = false → (mgos_remove_alarm s (some n)).2 = s) := by
  unfold mgos_remove_alarm
  dsimp only
  cases hd : remove_first (fun (da : d_alarm_info) => n == da.name) s.d_alarms with
  | some q =>
    obtain ⟨x, rest⟩ := q
    obtain ⟨pre, post, h1, h2, h3, h4⟩ := remove_first_split _ _ _ _ hd
    have hx : x.name = n := (beq_iff_eq.mp h3).symm
    dsimp only
    refine ⟨⟨fun _ => Or.inl ?_, fun _ => rfl⟩,
      fun _ => Or.inl ⟨pre, x, post, h1, hx, ?_, h2, rfl, rfl, rfl⟩, fun h => by simp at h⟩
    · rw [mem_d_names_iff]
      exact ⟨x, by rw [h1]; simp, h3⟩
    · intro y hy hyn
      have := h4 y hy
      simp [hyn] at this
  | none =>
    have hnd := not_mem_d_names_of_none n _ (remove_first_none _ _ hd)
    dsimp only
    cases ha : remove_first (fun (aa : a_alarm_info) => n == aa.name) s.a_alarms with
    | some q =>
      obtain ⟨x, rest⟩ := q
      obtain ⟨pre, post, h1, h2, h3, h4⟩ := remove_first_split _ _ _ _ ha
      have hx : x.name = n := (beq_iff_eq.mp h3).symm
      dsimp only
      refine ⟨⟨fun _ => Or.inr ?_, fun _ => rfl⟩,
        fun _ => Or.inr ⟨hnd, pre, x, post, h1, hx, ?_, h2, rfl, rfl, rfl⟩,
        fun h => by simp at h⟩
      · rw [mem_a_names_iff]
        exact ⟨x, by rw [h1]; simp, h3⟩
      · intro y hy hyn
        have := h4 y hy
        simp [hyn] at this
    | none =>
      have hna := not_mem_a_names_of_none n _ (remove_first_none _ _ ha)
      dsimp only
      refine ⟨⟨fun h => by simp at h, fun h => ?_⟩, fun h => by simp at h, fun _ => rfl⟩
      rcases h with h | h
      · exact absurd h hnd
      · exact absurd h hna

/-- C12, at the state with the digital and the analog alarm "pump": removing
"pump" returns true. -/
theorem C12_remove_alarm_witness :
    "pump" ∈ sc_pump_twice.d_alarms.map (fun da => da.name) ∧
    (mgos_remove_alarm sc_pump_twice (some "pump")).1 = true :=
  ⟨by decide, (C12_remove_alarm sc_pump_twice "pump").1.mpr (Or.inl (by decide))⟩

/-- C13: `mgos_disable_alarm(name)` returns true exactly when the name is in
the digital or in the analog list.  When it returns true, the first digital
record with the name has `active` and `enabled` set to false, or, when no
digital record has the name, the first analog one has `state` set to NOM and
`enabled` to false; nothing else in the state changes, so no event is
published.  When it returns false the state is unchanged. -/
theorem C13_disable_alarm (s : State) (n : String) :
    ((mgos_disable_alarm s (some n)).1 = true ↔
      (n ∈ s.d_alarms.map (fun da => da.name) ∨ n ∈ s.a_alarms.map (fun aa => aa.name))) ∧
    ((mgos_disable_alarm s (some n)).1 = true →
      (∃ pre x post, s.d_alarms = pre ++ x :: post ∧ x.name = n ∧ (∀ y ∈ pre, y.name ≠ n) ∧
        (mgos_disable_alarm s (some n)).2 =
          { s with d_alarms := pre ++ { x with active := false, enabled := false } :: post }) ∨
      (n ∉ s.d_alarms.map (fun da => da.name) ∧
        ∃ pre x post, s.a_alarms = pre ++ x :: post ∧ x.name = n ∧ (∀ y ∈ pre, y.name ≠ n) ∧
          (mgos_disable_alarm s (some n)).2 =
            { s with a_alarms :=
                pre ++ { x with state := mgos_a_alarm_state.NOM, enabled := false } :: post })) ∧
    (mgos_disable_alarm s (some n)).2.events = s.events ∧
    ((mgos_disable_alarm s (some n)).1 = false → (mgos_disable_alarm s (some n)).2 = s) := by
  obtain ⟨h1, h2, h3⟩ := update_lookup_spec s n
    (fun da_info => { da_info with active := false, enabled := false })
    (fun aa_info => { aa_info with state := mgos_a_alarm_state.NOM, enabled := false })
    (mgos_disable_alarm s (some n)) rfl
  refine ⟨h1, h2, ?_, h3⟩
  cases hb : (mgos_disable_alarm s (some n)).1 with
  | false => rw [h3 hb]
  | true =>
    rcases h2 hb with ⟨_, _, _, _, _, _, he⟩ | ⟨_, _, _, _, _, _, _, he⟩ <;> rw [he]

/-- C13, at the state with the digital and the analog alarm "pump": disabling
"pump" returns true. -/
theorem C13_disable_alarm_witness :
    "pump" ∈ sc_pump_twice.d_alarms.map (fun da => da.name) ∧
    (mgos_disable_alarm sc_pump_twice (some "pump")).1 = true :=
  ⟨by decide, (C13_disable_alarm sc_pump_twice "pump").1.mpr (Or.inl (by decide))⟩

/-- C14: `mgos_reset_alarm(name)` returns true exactly when the name is in the
digital or in the analog list.  When it returns true, the first digital record
with the name has `active` set to false, or, when no digital record has the
name, the first analog one has `state` set to NOM; `enabled` and everything
else is unchanged; and a second call returns true again and leaves the state
reached by the first call as it is.  When it returns false the state is
unchanged. -/
theorem C14_reset_alarm (s : State) (n : String) :
    ((mgos_reset_alarm s (some n)).1 = true ↔
      (n ∈ s.d_alarms.map (fun da => da.name) ∨ n ∈ s.a_alarms.map (fun aa => aa.name))) ∧
    ((mgos_reset_alarm s (some n)).1 = true →
      (∃ pre x post, s.d_alarms = pre ++ x :: post ∧ x.name = n ∧ (∀ y ∈ pre, y.name ≠ n) ∧
        (mgos_reset_alarm s (some n)).2 =
          { s with d_alarms := pre ++ { x with active := false } :: post }) ∨
      (n ∉ s.d_alarms.map (fun da => da.name) ∧
        ∃ pre x post, s.a_alarms = pre ++ x :: post ∧ x.name = n ∧ (∀ y ∈ pre, y.name ≠ n) ∧
          (mgos_reset_alarm s (some n)).2 =
            { s with a_alarms := pre ++ { x with state := mgos_a_alarm_state.NOM } :: post })) ∧
    ((mgos_reset_alarm s (some n)).1 = true →
      mgos_reset_alarm (mgos_reset_alarm s (some n)).2 (some n) =
        (true, (mgos_reset_alarm s (some n)).2)) ∧
    ((mgos_reset_alarm s (some n)).1 = false → (mgos_reset_alarm s (some n)).2 = s) := by
  obtain ⟨h1, h2, h3⟩ := update_lookup_spec s n
    (fun da_info => { da_info with active := false })
    (fun aa_info => { aa_info with state := mgos_a_alarm_state.NOM })
    (mgos_reset_alarm s (some n)) rfl
  refine ⟨h1, h2, ?_, h3⟩
  intro hb
  rcases h2 hb with ⟨pre, x, post, _, hx, hpre, he⟩ | ⟨hnd, pre, x, post, _, hx, hpre, he⟩
  · rw [he]
    have hu := update_first_append (fun (da : d_alarm_info) => n == da.name)
      (fun da_info => { da_info with active := false }) pre
      { x with active := false } post (name_test_false_of_ne_d n pre hpre)
      (by simp [hx])
    simp only [mgos_reset_alarm, hu]
  · rw [he]
    have hu0 := update_first_eq_none (fun (da : d_alarm_info) => n == da.name)
      (fun da_info => { da_info with active := false }) s.d_alarms
      (name_test_false_of_not_mem_d n _ hnd)
    have hu := update_first_append (fun (aa : a_alarm_info) => n == aa.name)
      (fun aa_info => { aa_info with state := mgos_a_alarm_state.NOM }) pre
      { x with state := mgos_a_alarm_state.NOM } post (name_test_false_of_ne_a n pre hpre)
      (by simp [hx])
    simp only [mgos_reset_alarm, hu0, hu]

/-- C14, at the state where "door" is active: resetting "door" returns true,
and resetting it a second time returns true and changes nothing. -/
theorem C14_reset_alarm_witness :
    "door" ∈ sc_door_active.d_alarms.map (fun da => da.name) ∧
    (mgos_reset_alarm sc_door_active (some "door")).1 = true ∧
    mgos_reset_alarm (mgos_reset_alarm sc_door_active (some "door")).2 (some "door") =
      (true, (mgos_reset_alarm sc_door_active (some "door")).2) :=
  ⟨by decide, (C14_reset_alarm sc_door_active "door").1.mpr (Or.inl (by decide)),
   (C14_reset_alarm sc_door_active "door").2.2.1 (by decide)⟩

/-- The cases of one evaluation by `mgos_d_alarm_logic`, with `trigger` the
value (mode is ACTIVE_HIGH and input) or (mode is ACTIVE_LOW and not input),
in terms of what the function tests, namely whether the record stores a timer
identifier (`timer_id` differs from `MGOS_INVALID_TIMER_ID`): active,
trigger and a stored timer: the timer is cleared and the identifier reset;
active, no trigger and no stored timer: a one-shot timer of `reset_interval`
is set and stored; inactive, no trigger and a stored timer: cleared; inactive,
trigger and no stored timer: a one-shot timer of `set_interval` is set and
stored; in all other cases record and timer service are unchanged.  `active`
and `enabled` never change, after a clear no timer with the cleared
identifier is pending, in a reachable state a record to which a pending
digital timer points does store an identifier, and a poll tick publishes no
event. -/
theorem digital_logic_cases_by_stored_id (da : d_alarm_info) (input : Bool) (ts : timer_service)
    (trigger : Bool)
    (htrig : trigger =
      ((da.mode == mgos_d_alarm_mode.ACTIVE_HIGH && input) ||
       (da.mode == mgos_d_alarm_mode.ACTIVE_LOW && !input))) :
    (da.active = true → trigger = true → da.timer_id ≠ MGOS_INVALID_TIMER_ID →
      mgos_d_alarm_logic da input ts =
        ({ da with timer_id := MGOS_INVALID_TIMER_ID }, mgos_clear_timer ts da.timer_id)) ∧
    (da.active = true → trigger = false → da.timer_id = MGOS_INVALID_TIMER_ID →
      mgos_d_alarm_logic da input ts =
        ({ da with timer_id := ts.next_id },
         { ts with
           pending := ts.pending ++
             [{ id := ts.next_id, due := ts.now + da.reset_interval,
                cb := timer_cb.cb_d_alarm_timer, arg := da.addr }]
           next_id := ts.next_id + 1 })) ∧
    (da.active = false → trigger = false → da.timer_id ≠ MGOS_INVALID_TIMER_ID →
      mgos_d_alarm_logic da input ts =
        ({ da with timer_id := MGOS_INVALID_TIMER_ID }, mgos_clear_timer ts da.timer_id)) ∧
    (da.active = false → trigger = true → da.timer_id = MGOS_INVALID_TIMER_ID →
      mgos_d_alarm_logic da input ts =
        ({ da with timer_id := ts.next_id },
         { ts with
           pending := ts.pending ++
             [{ id := ts.next_id, due := ts.now + da.set_interval,
                cb := timer_cb.cb_d_alarm_timer, arg := da.addr }]
           next_id := ts.next_id + 1 })) ∧
    (da.active = true → (trigger = true ↔ da.timer_id = MGOS_INVALID_TIMER_ID) →
      mgos_d_alarm_logic da input ts = (da, ts)) ∧
    (da.active = false → (trigger = false ↔ da.timer_id = MGOS_INVALID_TIMER_ID) →
      mgos_d_alarm_logic da input ts = (da, ts)) ∧
    (mgos_d_alarm_logic da input ts).1.active = da.active ∧
    (mgos_d_alarm_logic da input ts).1.enabled = da.enabled ∧
    (∀ t ∈ (mgos_clear_timer ts da.timer_id).pending, t.id ≠ da.timer_id) ∧
    (∀ s : State, Reachable s → da ∈ s.d_alarms →
      (∃ t ∈ s.ts.pending, t.cb = timer_cb.cb_d_alarm_timer ∧ t.arg = da.addr) →
      da.timer_id ≠ MGOS_INVALID_TIMER_ID) ∧
    (∀ (s : State) (inputs : Nat → Bool) (pvs : Nat → CFloat),
      (mgos_alarm_timer s inputs pvs).events = s.events) := by
  subst htrig
  refine ⟨?_, ?_, ?_, ?_, ?_, ?_, ?_, ?_, ?_, ?_, fun _ _ _ => rfl⟩
  · intro h1 h2 h3
    unfold mgos_d_alarm_logic
    simp [h1, h2, h3]
  · intro h1 h2 h3
    unfold mgos_d_alarm_logic mgos_set_timer
    simp [h1, h2, h3]
  · intro h1 h2 h3
    unfold mgos_d_alarm_logic
    simp [h1, h2, h3]
  · intro h1 h2 h3
    unfold mgos_d_alarm_logic mgos_set_timer
    simp [h1, h2, h3]
  · intro h1 h2
    unfold mgos_d_alarm_logic
    by_cases h3 : da.timer_id = MGOS_INVALID_TIMER_ID
    · simp [h1, h2.mpr h3, h3]
    · have h4 : ¬ ((da.mode == mgos_d_alarm_mode.ACTIVE_HIGH && input ||
          da.mode == mgos_d_alarm_mode.ACTIVE_LOW && !input) = true) :=
        fun h => h3 (h2.mp h)
      simp [h1, h3, h4]
  · intro h1 h2
    unfold mgos_d_alarm_logic
    by_cases h3 : da.timer_id = MGOS_INVALID_TIMER_ID
    · simp [h1, h2.mpr h3, h3]
    · have h4 : (da.mode == mgos_d_alarm_mode.ACTIVE_HIGH && input ||
          da.mode == mgos_d_alarm_mode.ACTIVE_LOW && !input) = true := by
        cases hb : (da.mode == mgos_d_alarm_mode.ACTIVE_HIGH && input ||
          da.mode == mgos_d_alarm_mode.ACTIVE_LOW && !input) with
        | true => rfl
        | false => exact absurd (h2.mp hb) h3
      simp [h1, h3, h4]
  · rcases d_logic_cases da input ts with h | ⟨_, h⟩ | ⟨_, _, h⟩ <;> rw [h]
  · rcases d_logic_cases da input ts with h | ⟨_, h⟩ | ⟨_, _, h⟩ <;> rw [h]
  · intro t ht
    simp only [mgos_clear_timer, List.mem_filter, bne_iff_ne, ne_eq] at ht
    exact ht.2
  · rintro s hs hda ⟨t, ht, hc⟩ h0
    exact no_timer_targets (reachable_inv hs) da hda h0 t ht hc

/-- For the record of "door" with its set timer stored, the input false and
the timer service of that scenario: the timer is cleared and the stored
identifier reset. -/
theorem digital_logic_cases_by_stored_id_at_door :
    mgos_d_alarm_logic door_timing false sc_door_timing.ts =
      ({ door_timing with timer_id := MGOS_INVALID_TIMER_ID },
       mgos_clear_timer sc_door_timing.ts door_timing.timer_id) ∧
    (mgos_clear_timer sc_door_timing.ts door_timing.timer_id).pending = [] :=
  ⟨(digital_logic_cases_by_stored_id door_timing false sc_door_timing.ts false (by decide)).2.2.1
      (by decide) rfl (by decide),
   by decide⟩

/-- C18 (the code at the failing input): right after its set timer has
expired, "door" is enabled, ACTIVE_HIGH and active, no timer is pending, and
the record still stores the identifier 2 of the expired timer.  Evaluated with
the input false (active, no trigger, no timer pending), `mgos_d_alarm_logic`
starts no reset timer: record and timer service are left as they are, whatever
the timer service holds.  Evaluated with the input true (active, trigger, no
timer pending), it rewrites the record, resetting the stored identifier.  The
poll tick shows the same on the whole state. -/
theorem C18_expired_timer_taken_for_pending :
    Reachable sc_door_active ∧
    sc_door_active.d_alarms = [door_active] ∧
    (door_active.enabled, door_active.active, door_active.mode, door_active.timer_id) =
      (true, true, mgos_d_alarm_mode.ACTIVE_HIGH, 2) ∧
    sc_door_active.ts.pending = [] ∧
    (∀ ts : timer_service, mgos_d_alarm_logic door_active false ts = (door_active, ts)) ∧
    mgos_d_alarm_logic door_active true sc_door_active.ts =
      ({ door_active with timer_id := MGOS_INVALID_TIMER_ID }, sc_door_active.ts) ∧
    ({ door_active with timer_id := MGOS_INVALID_TIMER_ID } : d_alarm_info) ≠ door_active ∧
    mgos_alarm_timer sc_door_active in_low pv_zero = sc_door_active ∧
    (mgos_alarm_timer sc_door_active in_high pv_zero).d_alarms =
      [{ door_active with timer_id := MGOS_INVALID_TIMER_ID }] ∧
    (mgos_alarm_timer sc_door_active in_high pv_zero).ts.pending = [] :=
  ⟨reachable_door_active, rfl, rfl, rfl,
   fun ts => by simp [mgos_d_alarm_logic, door_active, MGOS_INVALID_TIMER_ID],
   by decide, by decide, by decide, by decide, by decide⟩

/-- C20: in a reachable state, one poll tick leaves every disabled record,
digital or analog, in its place with all its fields, and the pending timers
that point to it are the same before and after the tick (none set, none
cleared); every enabled record, in its place, is what the state-machine logic
returns for it. -/
theorem C20_poll_tick_skips_disabled (s : State) (hs : Reachable s) (inputs : Nat → Bool)
    (pvs : Nat → CFloat) :
    (∀ (i : Nat) (da : d_alarm_info), s.d_alarms[i]? = some da → da.enabled = false →
      (mgos_alarm_timer s inputs pvs).d_alarms[i]? = some da ∧
      ∀ t : timer, t.arg = da.addr →
        (t ∈ (mgos_alarm_timer s inputs pvs).ts.pending ↔ t ∈ s.ts.pending)) ∧
    (∀ (i : Nat) (aa : a_alarm_info), s.a_alarms[i]? = some aa → aa.enabled = false →
      (mgos_alarm_timer s inputs pvs).a_alarms[i]? = some aa ∧
      ∀ t : timer, t.arg = aa.addr →
        (t ∈ (mgos_alarm_timer s inputs pvs).ts.pending ↔ t ∈ s.ts.pending)) ∧
    (∀ (i : Nat) (da : d_alarm_info), s.d_alarms[i]? = some da → da.enabled = true →
      ∃ ts1, (mgos_alarm_timer s inputs pvs).d_alarms[i]? =
        some (mgos_d_alarm_logic da (inputs da.input) ts1).1) ∧
    (∀ (i : Nat) (aa : a_alarm_info), s.a_alarms[i]? = some aa → aa.enabled = true →
      ∃ ts1, (mgos_alarm_timer s inputs pvs).a_alarms[i]? =
        some (mgos_a_alarm_logic aa (pvs aa.pv) ts1).1) := by
  have h1 := reachable_inv hs
  have h2 := reachable_inv2 hs
  have hdisj := List.disjoint_of_nodup_append h2.addrs
  have haddrs : (s.a_alarms.map (fun aa => aa.addr)).Nodup := h2.addrs.of_append_right
  refine ⟨?_, ?_, ?_, ?_⟩
  · intro i da hi hen
    refine ⟨d_loop_disabled_get inputs s.d_alarms s.ts i da hi hen, ?_⟩
    intro t harg
    have hda := List.getElem?_mem hi
    apply tick_frame s inputs pvs h2 t
    · intro r hr hren he
      have : r = da := List.inj_on_of_nodup_map h1.d_addrs hr hda (by rw [← he, harg])
      rw [this, hen] at hren
      exact absurd hren (by decide)
    · intro r hr _ he
      exact hdisj (List.mem_map_of_mem (fun da => da.addr) hda)
        (by rw [← harg, he]; exact List.mem_map_of_mem (fun aa => aa.addr) hr)
  · intro i aa hi hen
    refine ⟨a_loop_disabled_get pvs s.a_alarms _ i aa hi hen, ?_⟩
    intro t harg
    have haa := List.getElem?_mem hi
    apply tick_frame s inputs pvs h2 t
    · intro r hr _ he
      exact hdisj (List.mem_map_of_mem (fun da => da.addr) hr)
        (by rw [← he, harg]; exact List.mem_map_of_mem (fun aa => aa.addr) haa)
    · intro r hr hren he
      have : r = aa := List.inj_on_of_nodup_map haddrs hr haa (by rw [← he, harg])
      rw [this, hen] at hren
      exact absurd hren (by decide)
  · intro i da hi hen
    exact d_loop_enabled_get inputs s.d_alarms s.ts i da hi hen
  · intro i aa hi hen
    exact a_loop_enabled_get pvs s.a_alarms _ i aa hi hen

/-- C20, at the state where "door" has been disabled with its set timer
pending: a poll tick that sees the input true leaves the record and its
pending timer as they are. -/
theorem C20_poll_tick_skips_disabled_witness :
    Reachable sc_door_disabled ∧ sc_door_disabled.d_alarms[0]? = some door_disabled ∧
    (mgos_alarm_timer sc_door_disabled in_high pv_zero).d_alarms[0]? = some door_disabled ∧
    ∀ t : timer, t.arg = door_disabled.addr →
      (t ∈ (mgos_alarm_timer sc_door_disabled in_high pv_zero).ts.pending ↔
        t ∈ sc_door_disabled.ts.pending) :=
  ⟨reachable_door_disabled, by decide,
   (C20_poll_tick_skips_disabled sc_door_disabled reachable_door_disabled in_high pv_zero).1
     0 door_disabled (by decide) rfl⟩

/-! ## Lemmas on the analog timers -/

/-- The scenario state `sc_tank_dip` is the closed form for no further tick. -/
theorem tank_dips_zero : sc_tank_dip = tank_dipped 0 := by decide!

/-- One evaluation of the analog logic keeps every timer that was pending:
the new pending list is the old one followed by the timers just set. -/
theorem a_logic_keeps_pending (aa : a_alarm_info) (pv : CFloat) (ts : timer_service) :
    ∃ new : List timer, (mgos_a_alarm_logic aa pv ts).2.pending = ts.pending ++ new := by
  rcases a_logic_ts_cases aa pv ts with h | ⟨m, h⟩ | ⟨m, m1, h⟩
  · exact ⟨[], by rw [h, List.append_nil]⟩
  · exact ⟨_, by rw [h]; rfl⟩
  · refine ⟨[{ id := ts.next_id, due := ts.now + m, cb := timer_cb.cb_a_alarm_timer,
                arg := aa.addr },
              { id := ts.next_id + 1, due := ts.now + m1, cb := timer_cb.cb_a_alarm_timer,
                arg := aa.addr }], ?_⟩
    rw [h]
    simp [mgos_set_timer]

/-- The analog loop of a poll tick keeps every timer that was pending. -/
theorem a_loop_keeps_pending (pvs : Nat → CFloat) (l : List a_alarm_info)
    (ts : timer_service) :
    ∃ new : List timer, (a_alarm_loop pvs l ts).2.pending = ts.pending ++ new := by
  induction l generalizing ts with
  | nil => exact ⟨[], by simp [a_alarm_loop]⟩
  | cons aa rest ih =>
    unfold a_alarm_loop
    dsimp only
    split_ifs
    · obtain ⟨n1, h1⟩ := a_logic_keeps_pending aa (pvs aa.pv) ts
      obtain ⟨n2, h2⟩ := ih (mgos_a_alarm_logic aa (pvs aa.pv) ts).2
      exact ⟨n1 ++ n2, by rw [h2, h1, List.append_assoc]⟩
    · exact ih ts

/-- One more poll tick at 0.25 leads from one closed form to the next. -/
theorem tank_dipped_step (n : Nat) :
    mgos_alarm_timer (tank_dipped n) in_low pv_025 = tank_dipped (n + 1) := by
  have h1 : ¬ ((4 : ℚ) / 10 ≤ 25 / 100) := by norm_num
  have h2 : (25 : ℚ) / 100 ≤ 3 / 10 := by norm_num
  have h3 : (2 : ℚ) / 10 < 25 / 100 := by norm_num
  have e1 : 4 + (n + 1) = 5 + n := by omega
  have e2 : 5 + (n + 1) = 5 + n + 1 := by omega
  simp [mgos_alarm_timer, tank_dipped, d_alarm_loop, a_alarm_loop, mgos_a_alarm_logic,
    a_branch_down, mgos_set_timer, pv_025, CFloat.ne, CFloat.eq, CFloat.ge, CFloat.le,
    CFloat.gt, CFloat.lt, NAN, MGOS_INVALID_TIMER_ID, List.range_succ, h1, h2, h3, e1, e2]

/-- After `n` further poll ticks at 0.25 the state is the closed form. -/
theorem tank_dips_closed (n : Nat) : tank_dips n sc_tank_dip = tank_dipped n := by
  induction n with
  | zero => exact tank_dips_zero
  | succ n ih =>
    show mgos_alarm_timer (tank_dips n sc_tank_dip) in_low pv_025 = tank_dipped (n + 1)
    rw [ih]
    exact tank_dipped_step n

/-- All `n + 3` pending timers of the closed form point to the record of
"tank". -/
theorem tank_dipped_timers (n : Nat) : (a_timers_of (tank_dipped n) 1).length = n + 3 := by
  have h : ∀ t ∈ (tank_dipped n).ts.pending,
      (t.cb == timer_cb.cb_a_alarm_timer && t.arg == 1) = true := by
    intro t ht
    simp only [tank_dipped, List.mem_append, List.mem_cons, List.mem_map, List.mem_range,
      List.mem_singleton, List.not_mem_nil, or_false] at ht
    rcases ht with (rfl | rfl | rfl) | ⟨i, _, rfl⟩ <;> rfl
  unfold a_timers_of
  rw [List.filter_eq_self.mpr h]
  simp [tank_dipped]

/-! ## The statements of the specification, concluded -/

/-- C21 (the code at the failing input): "tank" is enabled, in state NOM, with
the thresholds 0.2, 0.3, 0.4, 0.5.  A poll tick at 0.45 (band H) sets one
timer, stored as the up timer.  The next tick sees 0.35, the band of the
confirmed state NOM: nothing changes, the timer stays pending.  The next tick
sees 0.25 (band L, more severe than NOM): a timer is set and stored as the down
timer, a further timer is set and stored as the up timer, and the first timer
is still pending, so that three timers are outstanding for the one alarm.
Every further tick at 0.25 sets one more timer.  Seen from the fresh record, a
tick at 0.25 and a tick at 0.6 (band HH) both store the timer they set as the
down timer.  In general the analog loop of a poll tick keeps every timer that
was pending. -/
theorem C21_analog_timers_never_cancelled :
    sc_tank_added.a_alarms.map
        (fun aa => (aa.enabled, aa.state, aa.addr, aa.up_timer_id, aa.down_timer_id)) =
      [(true, mgos_a_alarm_state.NOM, 1, MGOS_INVALID_TIMER_ID, MGOS_INVALID_TIMER_ID)] ∧
    sc_tank_added.ts.pending = [] ∧
    raw_band_spec (CFloat.fin (2 / 10)) (CFloat.fin (3 / 10)) (CFloat.fin (4 / 10))
      (CFloat.fin (5 / 10)) (pv_045 0) = mgos_a_alarm_state.H ∧
    sc_tank_armed.ts.pending =
      [{ id := 2, due := 1000, cb := timer_cb.cb_a_alarm_timer, arg := 1 }] ∧
    sc_tank_armed.a_alarms.map (fun aa => (aa.state, aa.up_timer_id, aa.down_timer_id)) =
      [(mgos_a_alarm_state.NOM, 2, MGOS_INVALID_TIMER_ID)] ∧
    raw_band_spec (CFloat.fin (2 / 10)) (CFloat.fin (3 / 10)) (CFloat.fin (4 / 10))
      (CFloat.fin (5 / 10)) (pv_035 0) = mgos_a_alarm_state.NOM ∧
    sc_tank_back = sc_tank_armed ∧
    raw_band_spec (CFloat.fin (2 / 10)) (CFloat.fin (3 / 10)) (CFloat.fin (4 / 10))
      (CFloat.fin (5 / 10)) (pv_025 0) = mgos_a_alarm_state.L ∧
    sc_tank_dip.ts.pending =
      [{ id := 2, due := 1000, cb := timer_cb.cb_a_alarm_timer, arg := 1 },
       { id := 3, due := 1000, cb := timer_cb.cb_a_alarm_timer, arg := 1 },
       { id := 4, due := 1000, cb := timer_cb.cb_a_alarm_timer, arg := 1 }] ∧
    sc_tank_dip.a_alarms.map (fun aa => (aa.state, aa.up_timer_id, aa.down_timer_id)) =
      [(mgos_a_alarm_state.NOM, 4, 3)] ∧
    (∀ n : Nat, (a_timers_of (tank_dips n sc_tank_dip) 1).length = n + 3) ∧
    (mgos_alarm_timer sc_tank_added in_low pv_025).a_alarms.map
        (fun aa => (aa.up_timer_id, aa.down_timer_id)) = [(MGOS_INVALID_TIMER_ID, 2)] ∧
    raw_band_spec (CFloat.fin (2 / 10)) (CFloat.fin (3 / 10)) (CFloat.fin (4 / 10))
      (CFloat.fin (5 / 10)) (pv_06 0) = mgos_a_alarm_state.HH ∧
    (mgos_alarm_timer sc_tank_added in_low pv_06).a_alarms.map
        (fun aa => (aa.up_timer_id, aa.down_timer_id)) = [(MGOS_INVALID_TIMER_ID, 2)] ∧
    ∀ (pvs : Nat → CFloat) (l : List a_alarm_info) (ts : timer_service),
      ∃ new : List timer, (a_alarm_loop pvs l ts).2.pending = ts.pending ++ new :=
  ⟨by decide!, by decide!, by decide!, by decide!, by decide!, by decide!, by decide!,
   by decide!, by decide!, by decide!,
   fun n => by rw [tank_dips_closed n]; exact tank_dipped_timers n,
   by decide!, by decide!, by decide!, a_loop_keeps_pending⟩

theorem reachable_tank_added : Reachable sc_tank_added :=
  Reachable.add_a _ _ _ _ _ _ _ _ _ _ reachable_init_state

theorem reachable_tank_dip : Reachable sc_tank_dip :=
  Reachable.tick _ _ _ (Reachable.tick _ _ _ (Reachable.tick _ _ _ reachable_tank_added))

/-- With a length counter short of the number of linked records the second
write of `mgos_list_alarms` lands outside the allocated array. -/
theorem list_alarms_short_counter :
    mgos_list_alarms st_short_counter = Except.error fault.out_of_bounds := by
  rfl

/-- C22: in every reachable state the length counter of each collection is the
number of records linked in it; `mgos_list_alarms` then allocates as many
entries as there are records, writes no entry outside the allocated array (it
returns a list, not a fault), and every index it has written to lies below the
number of entries allocated. -/
theorem C22_length_counters_count_records (s : State) (hs : Reachable s) :
    s.d_length = s.d_alarms.length ∧
    s.a_length = s.a_alarms.length ∧
    ∃ al : alarm_list, mgos_list_alarms s = Except.ok (some al) ∧
      al.capacity = s.d_alarms.length + s.a_alarms.length ∧
      (al.length : Int) ≤ al.capacity ∧
      al.info.length = al.length := by
  have hinv := reachable_inv hs
  refine ⟨hinv.d_len, hinv.a_len, _, list_alarms_of_len s hinv.d_len hinv.a_len, ?_, ?_, ?_⟩
  · simp only [hinv.d_len, hinv.a_len]
    omega
  · simp only [hinv.d_len, hinv.a_len]
    push_cast
    omega
  · simp

/-- C22, at the state with the digital and the analog alarm "valve". -/
theorem C22_length_counters_count_records_witness :
    Reachable sc_valve_both ∧
    sc_valve_both.d_length = sc_valve_both.d_alarms.length ∧
    sc_valve_both.a_length = sc_valve_both.a_alarms.length ∧
    ∃ al : alarm_list, mgos_list_alarms sc_valve_both = Except.ok (some al) ∧
      al.capacity = sc_valve_both.d_alarms.length + sc_valve_both.a_alarms.length ∧
      (al.length : Int) ≤ al.capacity ∧
      al.info.length = al.length :=
  ⟨Reachable.add_d _ _ _ _ _ _ _ _ reachable_valve_analog,
   C22_length_counters_count_records sc_valve_both
     (Reachable.add_d _ _ _ _ _ _ _ _ reachable_valve_analog)⟩

/-- C23: in every reachable state every linked analog record is in state NOM,
so is every analog entry of the listing, and every event published so far is of
type DIGITAL, none of type ANALOG; the analog timer callback leaves the record
it is called with as it is. -/
theorem C23_analog_state_always_nominal (s : State) (hs : Reachable s) :
    (∀ aa ∈ s.a_alarms, aa.state = mgos_a_alarm_state.NOM) ∧
    (∀ e ∈ s.events, e.2.type = mgos_alarm_type.DIGITAL ∧ e.2.type ≠ mgos_alarm_type.ANALOG) ∧
    (∃ al : alarm_list, mgos_list_alarms s = Except.ok (some al) ∧
      ∀ e ∈ al.info, e.type = mgos_alarm_type.ANALOG →
        e.state = alarm_state.a_state mgos_a_alarm_state.NOM) ∧
    ∀ aa : a_alarm_info, a_alarm_timer aa = aa := by
  have hinv := reachable_inv hs
  refine ⟨hinv.a_nom, ?_, ⟨_, list_alarms_of_len s hinv.d_len hinv.a_len, ?_⟩, fun _ => rfl⟩
  · intro e he
    have h := hinv.ev_digital e he
    exact ⟨h, by rw [h]; decide⟩
  · intro e he hty
    rcases List.mem_append.mp he with h | h
    · obtain ⟨da, _, rfl⟩ := List.mem_map.mp h
      exact absurd hty (by simp [d_entry])
    · obtain ⟨aa, haa, rfl⟩ := List.mem_map.mp h
      simp [a_entry, hinv.a_nom aa haa]

/-- C23, at the state in which three timers of "tank" are pending. -/
theorem C23_analog_state_always_nominal_witness :
    Reachable sc_tank_dip ∧
    (∀ aa ∈ sc_tank_dip.a_alarms, aa.state = mgos_a_alarm_state.NOM) ∧
    (∀ e ∈ sc_tank_dip.events,
      e.2.type = mgos_alarm_type.DIGITAL ∧ e.2.type ≠ mgos_alarm_type.ANALOG) ∧
    (∃ al : alarm_list, mgos_list_alarms sc_tank_dip = Except.ok (some al) ∧
      ∀ e ∈ al.info, e.type = mgos_alarm_type.ANALOG →
        e.state = alarm_state.a_state mgos_a_alarm_state.NOM) ∧
    ∀ aa : a_alarm_info, a_alarm_timer aa = aa :=
  ⟨reachable_tank_dip, C23_analog_state_always_nominal sc_tank_dip reachable_tank_dip⟩

/-- C24: in every reachable state no two records of the digital collection
have the same name, and no two records of the analog collection have the same
name. -/
theorem C24_names_distinct_per_collection (s : State) (hs : Reachable s) :
    s.d_alarms.Pairwise (fun x y => x.name ≠ y.name) ∧
    s.a_alarms.Pairwise (fun x y => x.name ≠ y.name) := by
  have hinv := reachable_inv hs
  exact ⟨List.pairwise_map.mp hinv.d_names, List.pairwise_map.mp hinv.a_names⟩

theorem reachable_pump_door : Reachable sc_pump_door :=
  Reachable.add_d _ _ _ _ _ _ _ _ reachable_pump_added

/-- C24, at the state with the two digital alarms "door" and "pump". -/
theorem C24_names_distinct_per_collection_witness :
    Reachable sc_pump_door ∧
    sc_pump_door.d_alarms.map (fun da => da.name) = ["door", "pump"] ∧
    sc_pump_door.d_alarms.Pairwise (fun x y => x.name ≠ y.name) ∧
    sc_pump_door.a_alarms.Pairwise (fun x y => x.name ≠ y.name) :=
  ⟨reachable_pump_door, by decide,
   C24_names_distinct_per_collection sc_pump_door reachable_pump_door⟩

end MgosAlarm
